import Mathlib

/-!
Verification of the DucklingDB storage engine.

This file gives a shallow embedding, in Lean 4, of the storage engine:
the slotted page (src/slotted_page.rs), the clock replacer and buffer pool
manager (src/buffer_manager.rs), the disk manager (src/disk_manager.rs) and
the heap file (src/heap_file.rs), together with theorems settling the
specification claims about them.

Modelling conventions:
 - a 4096-byte page is a function from byte index to byte value;
 - u16 header fields are read and written little-endian through the byte
   array exactly as the source does, with wrapping (two's-complement
   release-mode) arithmetic modelled by explicit mod 2^16;
 - Rust operations that can hit a panicking path (a failed slice bound
   check, an arithmetic guard, a .unwrap() or .expect() on an I/O error)
   return a value in the RustResult monad, whose panic constructor marks
   process abort.  In both debug and release builds the concrete inputs
   used below reach a panic at the indicated spot, so the model does not
   need to distinguish the two modes there.
-/

set_option maxHeartbeats 1600000
set_option maxRecDepth 8000

/-- Outcome of running a piece of Rust code: either a normal value or a
process-aborting panic (failed slice bound check, failed unwrap/expect). -/
inductive RustResult (α : Type) where
  | panic : RustResult α
  | ok : α → RustResult α
deriving DecidableEq

/-- A 4096-byte page buffer, byte index to byte value. -/
def Page : Type := Nat → Nat

/-- The constant PAGE_SIZE from disk_manager.rs. -/
def PAGE_SIZE : Nat := 4096

/-- The reserved slot length marking a deleted slot (INVALID_SLOT = 0xFFFF). -/
def INVALID_SLOT : Nat := 65535

/-- The all-zero page, as produced by a fresh [0; PAGE_SIZE] buffer. -/
def zeroPage : Page := fun _ => 0

/-- Write a little-endian u16 value at byte offset i (copy_from_slice of
to_le_bytes in the source). -/
def writeU16 (p : Page) (i v : Nat) : Page :=
  fun j => if j = i then v % 256 else if j = i + 1 then v / 256 % 256 else p j

/-- Read a little-endian u16 value at byte offset i. -/
def readU16 (p : Page) (i : Nat) : Nat := p i + 256 * p (i + 1)

/-- Copy a byte string into the page at offset a
(buf[a..a + t.length].copy_from_slice(t) in the source; the caller checks
the bound a + t.length <= 4096 before using this). -/
def writeBytes (p : Page) (a : Nat) (t : List Nat) : Page :=
  fun j => if a ≤ j ∧ j < a + t.length then t.getD (j - a) 0 else p j

/-- Read n bytes starting at offset a (the borrow buf[a..a+n]). -/
def readBytes (p : Page) (a n : Nat) : List Nat :=
  (List.range n).map (fun k => p (a + k))

/-- Header accessor: free_start stored at bytes 0..2. -/
def freeStart (p : Page) : Nat := readU16 p 0

/-- Header accessor: free_end stored at bytes 2..4. -/
def freeEnd (p : Page) : Nat := readU16 p 2

/-- Header accessor: num_slots stored at bytes 4..6. -/
def numSlots (p : Page) : Nat := readU16 p 4

/-- Header mutator for free_start. -/
def setFreeStart (p : Page) (v : Nat) : Page := writeU16 p 0 v

/-- Header mutator for free_end. -/
def setFreeEnd (p : Page) (v : Nat) : Page := writeU16 p 2 v

/-- Header mutator for num_slots. -/
def setNumSlots (p : Page) (v : Nat) : Page := writeU16 p 4 v

/-- Byte offset of the directory entry of a slot
(PAGE_SIZE - (slot_id + 1) * SLOT_ENTRY_SIZE); meaningful for slot_id
at most 1023, which every caller guards. -/
def slotOff (sid : Nat) : Nat := PAGE_SIZE - (sid + 1) * 4

/-- Read a slot directory entry: (offset, length). -/
def readSlot (p : Page) (sid : Nat) : Nat × Nat :=
  (readU16 p (slotOff sid), readU16 p (slotOff sid + 2))

/-- Write a slot directory entry. -/
def writeSlot (p : Page) (sid off len : Nat) : Page :=
  writeU16 (writeU16 p (slotOff sid) off) (slotOff sid + 2) len

/-- SlottedPage::init - write a fresh header (free_start = 6,
free_end = 4096, num_slots = 0) over the given buffer. -/
def initPage (b : Page) : Page :=
  setNumSlots (setFreeEnd (setFreeStart b 6) PAGE_SIZE) 0

/-- SlottedPage::insert.  need_space, the space check and the header
updates use u16 (wrapping) arithmetic; the byte copy panics when the
tuple does not fit below offset 4096, and the slot-directory write
panics when (num_slots + 1) * 4 exceeds the page (usize underflow /
out-of-bounds slice). -/
def spInsert (p : Page) (t : List Nat) : RustResult (Page × Option Nat) :=
  let ns := numSlots p
  let fs := freeStart p
  let fe := freeEnd p
  let need := (t.length % 65536 + 4) % 65536
  if (fs + need) % 65536 > fe then .ok (p, none)
  else if 4096 < fs + t.length then .panic
  else if 1024 ≤ ns then .panic
  else
    let p1 := writeBytes p fs t
    let p2 := setFreeStart p1 ((fs + t.length % 65536) % 65536)
    let p3 := setNumSlots p2 ((ns + 1) % 65536)
    let p4 := setFreeEnd p3 ((fe + 65536 - 4) % 65536)
    .ok (writeSlot p4 ns fs (t.length % 65536), some ns)

/-- SlottedPage::read.  Returns none for an out-of-range or deleted slot;
the final borrow buf[offset..offset+len] panics when it exceeds the page,
and reading the directory entry of a slot index at or above 1024 panics. -/
def spRead (p : Page) (slot : Nat) : RustResult (Option (List Nat)) :=
  if numSlots p ≤ slot then .ok none
  else if 1024 ≤ slot then .panic
  else
    let e := readSlot p slot
    if e.2 = INVALID_SLOT then .ok none
    else if 4096 < e.1 + e.2 then .panic
    else .ok (some (readBytes p e.1 e.2))

/-- SlottedPage::delete - mark the slot deleted by rewriting its length
field to INVALID_SLOT, keeping the offset field. -/
def spDelete (p : Page) (slot : Nat) : RustResult (Page × Bool) :=
  if numSlots p ≤ slot then .ok (p, false)
  else if 1024 ≤ slot then .panic
  else
    let e := readSlot p slot
    if e.2 = INVALID_SLOT then .ok (p, false)
    else .ok (writeSlot p slot e.1 INVALID_SLOT, true)

/-- SlottedPage::largest_contiguous_free - free_end - free_start when
free_end >= free_start, else 0. -/
def largestFree (p : Page) : Nat :=
  if freeEnd p ≥ freeStart p then freeEnd p - freeStart p else 0

/-- The list of live tuples (slot_id, offset, len) collected by
SlottedPage::compact, in slot-id order. -/
def collectLive (p : Page) : List (Nat × Nat × Nat) :=
  (List.range (numSlots p)).filterMap (fun sid =>
    let e := readSlot p sid
    if e.2 = INVALID_SLOT then none else some (sid, e.1, e.2))

/-- The stable sort by offset used by SlottedPage::compact
(tuples.sort_by_key on the offset component). -/
def sortByOffset (l : List (Nat × Nat × Nat)) : List (Nat × Nat × Nat) :=
  List.insertionSort (fun a b => a.2.1 ≤ b.2.1) l

/-- The copy loop of SlottedPage::compact: move each surviving tuple to
the compaction cursor, rewrite its slot entry, advance the cursor.  The
slice reads and writes panic outside the page, and new_free_start is a
u16 accumulator. -/
def compactLoop (p : Page) : List (Nat × Nat × Nat) → Nat → RustResult (Page × Nat)
  | [], nf => .ok (p, nf)
  | (sid, off, len) :: rest, nf =>
    if 4096 < off + len then .panic
    else if 4096 < nf + len then .panic
    else if 1024 ≤ sid then .panic
    else
      let bytes := readBytes p off len
      let p1 := writeBytes p nf bytes
      let p2 := writeSlot p1 sid nf (len % 65536)
      compactLoop p2 rest ((nf + len) % 65536)

/-- SlottedPage::compact.  Collect live tuples, sort them by offset,
repack them from offset 6, then set free_start past the last tuple and
free_end to PAGE_SIZE - (num_slots - live_count) * 4.  Reading a slot
entry at index 1024 or above panics (usize underflow in slot_offset). -/
def spCompact (p : Page) : RustResult Page :=
  let ns := numSlots p
  if 1025 ≤ ns then .panic
  else
    let sorted := sortByOffset (collectLive p)
    match compactLoop p sorted 6 with
    | .panic => .panic
    | .ok (p1, nf) =>
      .ok (setFreeEnd (setFreeStart p1 nf) (PAGE_SIZE - (ns - sorted.length) * 4))

/-- The tail of SlottedPage::update shared by its two growing branches:
write the new bytes at free_start, advance free_start, repoint the slot. -/
def spUpdatePlace (p : Page) (slot : Nat) (t : List Nat) : RustResult (Page × Bool) :=
  let no := freeStart p
  if 4096 < no + t.length then .panic
  else
    let p1 := writeBytes p no t
    let p2 := setFreeStart p1 ((no + t.length % 65536) % 65536)
    .ok (writeSlot p2 slot no (t.length % 65536), true)

/-- SlottedPage::update.  In-place overwrite when the new tuple is not
longer than the old (compared after the u16 cast of the new length);
otherwise compact if the contiguous free space is short, re-check, and
append the new bytes at free_start repointing the same slot. -/
def spUpdate (p : Page) (slot : Nat) (t : List Nat) : RustResult (Page × Bool) :=
  if numSlots p ≤ slot then .ok (p, false)
  else if 1024 ≤ slot then .panic
  else
    let e := readSlot p slot
    if e.2 = INVALID_SLOT then .ok (p, false)
    else if t.length % 65536 ≤ e.2 then
      if 4096 < e.1 + t.length then .panic
      else .ok (writeSlot (writeBytes p e.1 t) slot e.1 (t.length % 65536), true)
    else if largestFree p < t.length then
      match spCompact p with
      | .panic => .panic
      | .ok p1 =>
        if largestFree p1 < t.length then .ok (p1, false)
        else spUpdatePlace p1 slot t
    else spUpdatePlace p slot t

/-! ### Byte-level lemmas -/

theorem writeU16_ne (p : Page) {i j : Nat} (v : Nat) (h1 : j ≠ i) (h2 : j ≠ i + 1) :
    writeU16 p i v j = p j := by
  simp [writeU16, h1, h2]

theorem readU16_writeU16_self (p : Page) (i v : Nat) :
    readU16 (writeU16 p i v) i = v % 65536 := by
  have h1 : ¬ (i + 1 = i) := by omega
  unfold readU16 writeU16
  rw [if_pos rfl, if_neg h1, if_pos rfl]
  omega

theorem readU16_writeU16_ne (p : Page) {i j : Nat} (v : Nat)
    (h : i + 1 < j ∨ j + 1 < i) : readU16 (writeU16 p i v) j = readU16 p j := by
  unfold readU16
  rw [writeU16_ne p v (by omega) (by omega), writeU16_ne p v (by omega) (by omega)]

theorem writeBytes_out (p : Page) {a j : Nat} (t : List Nat)
    (h : j < a ∨ a + t.length ≤ j) : writeBytes p a t j = p j := by
  unfold writeBytes
  have : ¬ (a ≤ j ∧ j < a + t.length) := by omega
  simp [this]

theorem writeBytes_in (p : Page) {a j : Nat} (t : List Nat)
    (h1 : a ≤ j) (h2 : j < a + t.length) : writeBytes p a t j = t.getD (j - a) 0 := by
  unfold writeBytes
  simp [h1, h2]

theorem readU16_writeBytes_out (p : Page) {a j : Nat} (t : List Nat)
    (h : j + 1 < a ∨ a + t.length ≤ j) :
    readU16 (writeBytes p a t) j = readU16 p j := by
  unfold readU16
  rw [writeBytes_out p t (by omega), writeBytes_out p t (by omega)]

theorem getD_range (t : List Nat) :
    (List.range t.length).map (fun k => t.getD k 0) = t := by
  apply List.ext_getElem
  · simp
  · intro i h1 h2
    simp [List.getD_eq_getElem?_getD, List.getElem?_eq_getElem h2]

theorem readBytes_writeBytes_self (p : Page) (a : Nat) (t : List Nat) :
    readBytes (writeBytes p a t) a t.length = t := by
  unfold readBytes
  have h : ∀ k ∈ List.range t.length, writeBytes p a t (a + k) = t.getD k 0 := by
    intro k hk
    rw [List.mem_range] at hk
    rw [writeBytes_in p t (by omega) (by omega)]
    congr 1
    omega
  calc (List.range t.length).map (fun k => writeBytes p a t (a + k))
      = (List.range t.length).map (fun k => t.getD k 0) := List.map_congr_left h
    _ = t := getD_range t

theorem readBytes_congr {p q : Page} {a n : Nat}
    (h : ∀ j, a ≤ j → j < a + n → p j = q j) : readBytes p a n = readBytes q a n := by
  unfold readBytes
  apply List.map_congr_left
  intro k hk
  rw [List.mem_range] at hk
  exact h (a + k) (by omega) (by omega)

theorem readBytes_length (p : Page) (a n : Nat) : (readBytes p a n).length = n := by
  simp [readBytes]

/-! ### Header and slot-entry access lemmas -/

theorem freeStart_setFreeStart (p : Page) (v : Nat) :
    freeStart (setFreeStart p v) = v % 65536 := readU16_writeU16_self p 0 v

theorem freeEnd_setFreeEnd (p : Page) (v : Nat) :
    freeEnd (setFreeEnd p v) = v % 65536 := readU16_writeU16_self p 2 v

theorem numSlots_setNumSlots (p : Page) (v : Nat) :
    numSlots (setNumSlots p v) = v % 65536 := readU16_writeU16_self p 4 v

theorem freeStart_setFreeEnd (p : Page) (v : Nat) :
    freeStart (setFreeEnd p v) = freeStart p := readU16_writeU16_ne p v (by omega)

theorem freeStart_setNumSlots (p : Page) (v : Nat) :
    freeStart (setNumSlots p v) = freeStart p := readU16_writeU16_ne p v (by omega)

theorem freeEnd_setFreeStart (p : Page) (v : Nat) :
    freeEnd (setFreeStart p v) = freeEnd p := readU16_writeU16_ne p v (by omega)

theorem freeEnd_setNumSlots (p : Page) (v : Nat) :
    freeEnd (setNumSlots p v) = freeEnd p := readU16_writeU16_ne p v (by omega)

theorem numSlots_setFreeStart (p : Page) (v : Nat) :
    numSlots (setFreeStart p v) = numSlots p := readU16_writeU16_ne p v (by omega)

theorem numSlots_setFreeEnd (p : Page) (v : Nat) :
    numSlots (setFreeEnd p v) = numSlots p := readU16_writeU16_ne p v (by omega)

theorem slotOff_le (sid : Nat) (h : sid ≤ 1021) : 8 ≤ slotOff sid ∧ slotOff sid + 4 ≤ 4096 := by
  unfold slotOff PAGE_SIZE
  omega

theorem slotOff_lt_of_lt {s1 s2 : Nat} (h1 : s1 < s2) (h2 : s2 ≤ 1023) :
    slotOff s2 + 4 ≤ slotOff s1 := by
  unfold slotOff PAGE_SIZE
  omega

/-- The four header-mutator reads of a slot entry are unchanged because a
slot entry of index at most 1021 lies at byte 8 or later. -/
theorem readSlot_writeU16_header (p : Page) {i : Nat} (v : Nat) {sid : Nat}
    (hi : i ≤ 4) (hs : sid ≤ 1021) :
    readSlot (writeU16 p i v) sid = readSlot p sid := by
  have h8 := slotOff_le sid hs
  unfold readSlot
  rw [readU16_writeU16_ne p v (by omega), readU16_writeU16_ne p v (by omega)]

theorem readSlot_writeBytes_out (p : Page) {a : Nat} (t : List Nat) {sid : Nat}
    (h : a + t.length ≤ slotOff sid) :
    readSlot (writeBytes p a t) sid = readSlot p sid := by
  unfold readSlot
  rw [readU16_writeBytes_out p t (by omega), readU16_writeBytes_out p t (by omega)]

theorem readSlot_writeSlot_self (p : Page) {sid : Nat} (off len : Nat) (h : sid ≤ 1023) :
    readSlot (writeSlot p sid off len) sid = (off % 65536, len % 65536) := by
  have h4 : slotOff sid + 4 ≤ 4096 ∧ 0 ≤ slotOff sid := by unfold slotOff PAGE_SIZE; omega
  unfold readSlot writeSlot
  rw [readU16_writeU16_ne (writeU16 p (slotOff sid) off) len (by omega),
      readU16_writeU16_self, readU16_writeU16_self]

theorem readSlot_writeSlot_ne (p : Page) {s1 s2 : Nat} (off len : Nat)
    (h1 : s1 ≤ 1023) (h2 : s2 ≤ 1023) (hne : s1 ≠ s2) :
    readSlot (writeSlot p s1 off len) s2 = readSlot p s2 := by
  have hd : slotOff s1 + 4 ≤ slotOff s2 ∨ slotOff s2 + 4 ≤ slotOff s1 := by
    rcases Nat.lt_or_ge s1 s2 with h | h
    · exact Or.inr (slotOff_lt_of_lt h h2)
    · exact Or.inl (slotOff_lt_of_lt (by omega) h1)
  unfold readSlot writeSlot
  rw [readU16_writeU16_ne _ len (by omega), readU16_writeU16_ne _ off (by omega),
      readU16_writeU16_ne _ len (by omega), readU16_writeU16_ne _ off (by omega)]

theorem freeStart_writeSlot (p : Page) {sid : Nat} (off len : Nat) (h : sid ≤ 1021) :
    freeStart (writeSlot p sid off len) = freeStart p := by
  have h8 := slotOff_le sid h
  unfold freeStart writeSlot
  rw [readU16_writeU16_ne _ len (by omega), readU16_writeU16_ne _ off (by omega)]

theorem freeEnd_writeSlot (p : Page) {sid : Nat} (off len : Nat) (h : sid ≤ 1021) :
    freeEnd (writeSlot p sid off len) = freeEnd p := by
  have h8 := slotOff_le sid h
  unfold freeEnd writeSlot
  rw [readU16_writeU16_ne _ len (by omega), readU16_writeU16_ne _ off (by omega)]

theorem numSlots_writeSlot (p : Page) {sid : Nat} (off len : Nat) (h : sid ≤ 1021) :
    numSlots (writeSlot p sid off len) = numSlots p := by
  have h8 := slotOff_le sid h
  unfold numSlots writeSlot
  rw [readU16_writeU16_ne _ len (by omega), readU16_writeU16_ne _ off (by omega)]

theorem freeStart_writeBytes (p : Page) {a : Nat} (t : List Nat) (h : 2 ≤ a) :
    freeStart (writeBytes p a t) = freeStart p :=
  readU16_writeBytes_out p t (by omega)

theorem freeEnd_writeBytes (p : Page) {a : Nat} (t : List Nat) (h : 4 ≤ a) :
    freeEnd (writeBytes p a t) = freeEnd p :=
  readU16_writeBytes_out p t (by omega)

theorem numSlots_writeBytes (p : Page) {a : Nat} (t : List Nat) (h : 6 ≤ a) :
    numSlots (writeBytes p a t) = numSlots p :=
  readU16_writeBytes_out p t (by omega)

theorem writeSlot_out (p : Page) {sid j : Nat} (off len : Nat) (hs : sid ≤ 1023)
    (h : j < slotOff sid ∨ slotOff sid + 4 ≤ j) : writeSlot p sid off len j = p j := by
  unfold writeSlot
  rw [writeU16_ne _ len (by omega) (by omega), writeU16_ne _ off (by omega) (by omega)]

theorem readBytes_writeSlot_out (p : Page) {sid a n : Nat} (off len : Nat)
    (hs : sid ≤ 1023) (h : a + n ≤ slotOff sid) :
    readBytes (writeSlot p sid off len) a n = readBytes p a n := by
  apply readBytes_congr
  intro j hj1 hj2
  exact writeSlot_out p off len hs (by omega)

theorem readBytes_writeU16_header {p : Page} {i : Nat} (v : Nat) {a n : Nat}
    (hi : i ≤ 4) (ha : 6 ≤ a) : readBytes (writeU16 p i v) a n = readBytes p a n := by
  apply readBytes_congr
  intro j hj1 hj2
  exact writeU16_ne p v (by omega) (by omega)

theorem readBytes_writeBytes_out (p : Page) {a n b : Nat} (t : List Nat)
    (h : b + t.length ≤ a ∨ a + n ≤ b) :
    readBytes (writeBytes p b t) a n = readBytes p a n := by
  apply readBytes_congr
  intro j hj1 hj2
  exact writeBytes_out p t (by omega)

/-! ### The slotted-page validity invariant -/

/-- All members of a payload are byte values (every Rust u8 slice
satisfies this; lists with larger entries correspond to no Rust input). -/
def bytesOk (t : List Nat) : Prop := ∀ b ∈ t, b < 256

instance (t : List Nat) : Decidable (bytesOk t) := List.decidableBAll _ t

/-- All stored page bytes are byte values. -/
def bounded (p : Page) : Prop := ∀ i < 4096, p i < 256

/-- A slot is live when its length field is not INVALID_SLOT. -/
def slotLive (p : Page) (i : Nat) : Prop := (readSlot p i).2 ≠ INVALID_SLOT

instance (p : Page) (i : Nat) : Decidable (slotLive p i) := by
  unfold slotLive
  infer_instance

/-- A live slot points into the payload region: its byte range
[offset, offset+length) lies within [6, free_start). -/
def slotOK (p : Page) (i : Nat) : Prop :=
  6 ≤ (readSlot p i).1 ∧ (readSlot p i).1 + (readSlot p i).2 ≤ freeStart p

/-- Disjointness of two byte ranges [a, a+la) and [b, b+lb). -/
def disjointR (a la b lb : Nat) : Prop := a + la ≤ b ∨ b + lb ≤ a

instance (p : Page) : Decidable (bounded p) := Nat.decidableBallLT _ _

/-- Validity of a slotted page: what init establishes and what a buffer
must satisfy to be "an already-valid slotted page" (from_buffer declares
other buffers undefined behaviour).  It is the header invariant of the
specification (free_start ≤ free_end, free_end = 4096 − 4·num_slots,
every live slot range within [6, free_start)) strengthened with
6 ≤ free_start, byte-boundedness, and pairwise disjointness of live
slot ranges. -/
def Valid (p : Page) : Prop :=
  bounded p ∧
  6 ≤ freeStart p ∧
  freeStart p ≤ freeEnd p ∧
  freeEnd p = 4096 - 4 * numSlots p ∧
  (∀ i < numSlots p, slotLive p i → slotOK p i) ∧
  (∀ i < numSlots p, ∀ j < numSlots p, i ≠ j → slotLive p i → slotLive p j →
    disjointR (readSlot p i).1 (readSlot p i).2 (readSlot p j).1 (readSlot p j).2)

instance (p : Page) : Decidable (Valid p) := by
  unfold Valid slotOK disjointR
  have hlast : Decidable (∀ i < numSlots p, ∀ j < numSlots p, i ≠ j → slotLive p i →
      slotLive p j → ((readSlot p i).1 + (readSlot p i).2 ≤ (readSlot p j).1 ∨
        (readSlot p j).1 + (readSlot p j).2 ≤ (readSlot p i).1)) := by
    apply @Nat.decidableBallLT _ _ ?_
    intro i hi
    apply @Nat.decidableBallLT _ _ ?_
    intro j hj
    infer_instance
  exact instDecidableAnd

theorem bounded_readU16 {p : Page} (h : bounded p) {i : Nat} (hi : i + 1 < 4096) :
    readU16 p i < 65536 := by
  have h1 := h i (by omega)
  have h2 := h (i + 1) (by omega)
  unfold readU16
  omega

theorem Valid.ns_le {p : Page} (h : Valid p) : numSlots p ≤ 1022 := by
  obtain ⟨_, h6, hle, heq, _⟩ := h
  omega

theorem Valid.fe_le {p : Page} (h : Valid p) : freeEnd p ≤ 4096 := by
  obtain ⟨_, h6, hle, heq, _⟩ := h
  omega

theorem bounded_writeU16 {p : Page} (h : bounded p) (i v : Nat) :
    bounded (writeU16 p i v) := by
  intro j hj
  unfold writeU16
  split
  · omega
  · split
    · omega
    · exact h j hj

theorem bounded_writeBytes {p : Page} (h : bounded p) {t : List Nat} (ht : bytesOk t)
    (a : Nat) : bounded (writeBytes p a t) := by
  intro j hj
  unfold writeBytes
  split
  · next hin =>
    rcases Nat.lt_or_ge (j - a) t.length with hlt | hge
    · rw [List.getD_eq_getElem _ _ hlt]
      exact ht _ (List.getElem_mem hlt)
    · rw [List.getD_eq_default _ _ hge]
      omega
  · exact h j hj

theorem bounded_writeSlot {p : Page} (h : bounded p) (sid off len : Nat) :
    bounded (writeSlot p sid off len) :=
  bounded_writeU16 (bounded_writeU16 h _ _) _ _

set_option linter.unusedVariables false

/-! ### init and insert characterization -/

theorem freeStart_initPage (b : Page) : freeStart (initPage b) = 6 := by
  unfold initPage setNumSlots setFreeEnd setFreeStart freeStart
  rw [readU16_writeU16_ne _ _ (by omega), readU16_writeU16_ne _ _ (by omega),
      readU16_writeU16_self]

theorem freeEnd_initPage (b : Page) : freeEnd (initPage b) = 4096 := by
  unfold initPage setNumSlots setFreeEnd setFreeStart freeEnd PAGE_SIZE
  rw [readU16_writeU16_ne _ _ (by omega), readU16_writeU16_self]

theorem numSlots_initPage (b : Page) : numSlots (initPage b) = 0 := by
  unfold initPage setNumSlots numSlots
  rw [readU16_writeU16_self]

theorem Valid_initPage {b : Page} (hb : bounded b) : Valid (initPage b) := by
  refine ⟨?_, ?_, ?_, ?_, ?_, ?_⟩
  · exact bounded_writeU16 (bounded_writeU16 (bounded_writeU16 hb _ _) _ _) _ _
  · rw [freeStart_initPage]
  · rw [freeStart_initPage, freeEnd_initPage]; omega
  · rw [freeEnd_initPage, numSlots_initPage]
  · intro i hi
    rw [numSlots_initPage] at hi
    omega
  · intro i hi
    rw [numSlots_initPage] at hi
    omega

/-- When the record does not fit (space check over the wrapping u16
arithmetic of the source), insert mutates nothing and returns None. -/
theorem spInsert_none {p : Page} {t : List Nat}
    (h : (freeStart p + (t.length % 65536 + 4) % 65536) % 65536 > freeEnd p) :
    spInsert p t = .ok (p, none) := by
  unfold spInsert
  rw [if_pos h]

/-- Over natural-number arithmetic: when nothing wraps and the record
does not fit, insert returns None. -/
theorem spInsert_none_nat {p : Page} {t : List Nat}
    (hnw : freeStart p + t.length + 4 < 65536)
    (h : freeStart p + t.length + 4 > freeEnd p) :
    spInsert p t = .ok (p, none) := by
  apply spInsert_none
  have h1 : t.length % 65536 = t.length := Nat.mod_eq_of_lt (by omega)
  rw [h1]
  have h2 : (t.length + 4) % 65536 = t.length + 4 := Nat.mod_eq_of_lt (by omega)
  rw [h2]
  rw [Nat.mod_eq_of_lt (by omega)]
  omega

/-- Main characterization of a successful insert from a valid page:
the new slot is num_slots, the header advances as specified, old slot
entries and old payload bytes are untouched, the new payload is stored
at the old free_start, and validity is preserved. -/
theorem spInsert_ok_spec {p : Page} (hv : Valid p) {t : List Nat} (ht : bytesOk t)
    (hfit : freeStart p + t.length + 4 ≤ freeEnd p) :
    ∃ p', spInsert p t = .ok (p', some (numSlots p)) ∧
      freeStart p' = freeStart p + t.length ∧
      freeEnd p' = freeEnd p - 4 ∧
      numSlots p' = numSlots p + 1 ∧
      readSlot p' (numSlots p) = (freeStart p, t.length) ∧
      (∀ s < numSlots p, readSlot p' s = readSlot p s) ∧
      (∀ a n, 6 ≤ a → a + n ≤ freeStart p → readBytes p' a n = readBytes p a n) ∧
      readBytes p' (freeStart p) t.length = t ∧
      Valid p' := by
  obtain ⟨hb, h6, hle, heq, hok, hdis⟩ := hv
  have hns : numSlots p ≤ 1021 := by omega
  have hfe : freeEnd p ≤ 4096 := by omega
  have hlen : t.length ≤ 4086 := by omega
  have hlmod : t.length % 65536 = t.length := Nat.mod_eq_of_lt (by omega)
  set fs := freeStart p with hfs
  set fe := freeEnd p with hfedef
  set ns := numSlots p with hnsdef
  have hcheck : ¬ ((fs + (t.length % 65536 + 4) % 65536) % 65536 > fe) := by
    rw [hlmod, Nat.mod_eq_of_lt (by omega), Nat.mod_eq_of_lt (by omega)]
    omega
  have hbnd : ¬ (4096 < fs + t.length) := by omega
  have hnsb : ¬ (1024 ≤ ns) := by omega
  set P := writeSlot (setFreeEnd (setNumSlots (setFreeStart (writeBytes p fs t)
    ((fs + t.length % 65536) % 65536)) ((ns + 1) % 65536)) ((fe + 65536 - 4) % 65536))
    ns fs (t.length % 65536) with hP
  have hrun : spInsert p t = .ok (P, some ns) := by
    unfold spInsert
    rw [if_neg hcheck, if_neg hbnd, if_neg hnsb]
  have hfsb : fs < 65536 := bounded_readU16 hb (by omega)
  have hfs' : freeStart P = fs + t.length := by
    rw [hP, freeStart_writeSlot _ _ _ hns, freeStart_setFreeEnd,
        freeStart_setNumSlots, freeStart_setFreeStart]
    omega
  have hfe' : freeEnd P = fe - 4 := by
    rw [hP, freeEnd_writeSlot _ _ _ hns, freeEnd_setFreeEnd]
    omega
  have hns' : numSlots P = ns + 1 := by
    rw [hP, numSlots_writeSlot _ _ _ hns, numSlots_setFreeEnd, numSlots_setNumSlots]
    omega
  have hnew : readSlot P ns = (fs, t.length) := by
    rw [hP, readSlot_writeSlot_self _ _ _ (by omega)]
    rw [Prod.mk.injEq]
    refine ⟨by omega, by omega⟩
  have hold : ∀ s < ns, readSlot P s = readSlot p s := by
    intro s hs
    rw [hP, readSlot_writeSlot_ne _ _ _ (by omega) (by omega) (by omega)]
    unfold setFreeEnd setNumSlots setFreeStart
    rw [readSlot_writeU16_header _ _ (by omega) (by omega),
        readSlot_writeU16_header _ _ (by omega) (by omega),
        readSlot_writeU16_header _ _ (by omega) (by omega)]
    apply readSlot_writeBytes_out
    have h2 : slotOff s ≥ 4096 - 4 * ns := by
      unfold slotOff PAGE_SIZE
      omega
    omega
  have hdata : ∀ a n, 6 ≤ a → a + n ≤ fs → readBytes P a n = readBytes p a n := by
    intro a n ha han
    rw [hP, readBytes_writeSlot_out _ _ _ (by omega)
        (by unfold slotOff PAGE_SIZE; omega)]
    unfold setFreeEnd setNumSlots setFreeStart
    rw [readBytes_writeU16_header _ (by omega) (by omega),
        readBytes_writeU16_header _ (by omega) (by omega),
        readBytes_writeU16_header _ (by omega) (by omega)]
    apply readBytes_writeBytes_out
    omega
  have hpay : readBytes P fs t.length = t := by
    rw [hP, readBytes_writeSlot_out _ _ _ (by omega)
        (by unfold slotOff PAGE_SIZE; omega)]
    unfold setFreeEnd setNumSlots setFreeStart
    rw [readBytes_writeU16_header _ (by omega) (by omega),
        readBytes_writeU16_header _ (by omega) (by omega),
        readBytes_writeU16_header _ (by omega) (by omega)]
    exact readBytes_writeBytes_self p fs t
  have hlive : ∀ s < ns, slotLive P s ↔ slotLive p s := by
    intro s hs
    unfold slotLive
    rw [hold s hs]
  refine ⟨P, hrun, hfs', hfe', hns', hnew, hold, hdata, hpay, ?_, ?_, ?_, ?_, ?_, ?_⟩
  · rw [hP]
    exact bounded_writeSlot (bounded_writeU16 (bounded_writeU16 (bounded_writeU16
      (bounded_writeBytes hb ht fs) _ _) _ _) _ _) _ _ _
  · omega
  · omega
  · rw [hfe', hns']
    omega
  · intro i hi hl
    rw [hns'] at hi
    rcases Nat.lt_or_ge i ns with hilt | hige
    · have hsl : slotLive p i := (hlive i hilt).mp hl
      have := hok i hilt hsl
      unfold slotOK at this ⊢
      rw [hold i hilt, hfs']
      omega
    · have hieq : i = ns := by omega
      subst hieq
      unfold slotOK
      rw [hnew, hfs']
      simp
      omega
  · intro i hi j hj hij hli hlj
    rw [hns'] at hi hj
    rcases Nat.lt_or_ge i ns with hilt | hige
    · rcases Nat.lt_or_ge j ns with hjlt | hjge
      · have hdij := hdis i hilt j hjlt hij ((hlive i hilt).mp hli) ((hlive j hjlt).mp hlj)
        unfold disjointR at hdij ⊢
        rw [hold i hilt, hold j hjlt]
        exact hdij
      · have hjeq : j = ns := by omega
        subst hjeq
        have hoki := hok i hilt ((hlive i hilt).mp hli)
        unfold slotOK at hoki
        unfold disjointR
        rw [hold i hilt, hnew]
        left
        omega
    · have hieq : i = ns := by omega
      subst hieq
      have hjlt : j < ns := by omega
      have hokj := hok j hjlt ((hlive j hjlt).mp hlj)
      unfold slotOK at hokj
      unfold disjointR
      rw [hold j hjlt, hnew]
      right
      omega

/-! ### read and delete characterization -/

theorem spRead_oob {p : Page} {s : Nat} (h : numSlots p ≤ s) : spRead p s = .ok none := by
  unfold spRead
  rw [if_pos h]

theorem spRead_dead {p : Page} {s : Nat} (h1 : s < numSlots p) (h2 : s < 1024)
    (h3 : ¬ slotLive p s) : spRead p s = .ok none := by
  unfold slotLive at h3
  unfold spRead
  rw [if_neg (by omega), if_neg (by omega), if_pos (by simpa using h3)]

theorem spRead_live {p : Page} {s : Nat} (h1 : s < numSlots p) (h2 : s < 1024)
    (h3 : slotLive p s) (h4 : (readSlot p s).1 + (readSlot p s).2 ≤ 4096) :
    spRead p s = .ok (some (readBytes p (readSlot p s).1 (readSlot p s).2)) := by
  unfold slotLive at h3
  unfold spRead
  rw [if_neg (by omega), if_neg (by omega), if_neg (by simpa using h3), if_neg (by omega)]

/-- Read panics when the slot index reaches the directory underflow. -/
theorem spRead_idx_panic {p : Page} {s : Nat} (h1 : s < numSlots p) (h2 : 1024 ≤ s) :
    spRead p s = .panic := by
  unfold spRead
  rw [if_neg (by omega), if_pos h2]

/-- Read panics when the recorded byte range exceeds the page. -/
theorem spRead_range_panic {p : Page} {s : Nat} (h1 : s < numSlots p) (h2 : s < 1024)
    (h3 : slotLive p s) (h4 : 4096 < (readSlot p s).1 + (readSlot p s).2) :
    spRead p s = .panic := by
  unfold slotLive at h3
  unfold spRead
  rw [if_neg (by omega), if_neg (by omega), if_neg (by simpa using h3), if_pos (by omega)]

/-- Reading is determined by num_slots, the slot entry and the payload
bytes; two pages agreeing there read the same. -/
theorem spRead_congr {p q : Page} {s : Nat} (hns : numSlots q = numSlots p)
    (he : s < numSlots p → readSlot q s = readSlot p s)
    (hby : s < numSlots p → slotLive p s → (readSlot p s).1 + (readSlot p s).2 ≤ 4096 →
      readBytes q (readSlot p s).1 (readSlot p s).2 =
      readBytes p (readSlot p s).1 (readSlot p s).2) :
    spRead q s = spRead p s := by
  rcases Nat.lt_or_ge s (numSlots p) with hlt | hge
  · have hlt2 : s < numSlots q := by omega
    have hent := he hlt
    have hlive2 : slotLive q s ↔ slotLive p s := by
      unfold slotLive
      rw [hent]
    rcases Nat.lt_or_ge s 1024 with h2 | h2
    · by_cases hlive : slotLive p s
      · rcases Nat.lt_or_ge 4096 ((readSlot p s).1 + (readSlot p s).2) with h4 | h4
        · rw [spRead_range_panic hlt h2 hlive h4,
              spRead_range_panic hlt2 h2 (hlive2.mpr hlive) (by rw [hent]; omega)]
        · rw [spRead_live hlt h2 hlive h4,
              spRead_live hlt2 h2 (hlive2.mpr hlive) (by rw [hent]; omega), hent,
              hby hlt hlive h4]
      · rw [spRead_dead hlt h2 hlive, spRead_dead hlt2 h2 (fun hc => hlive (hlive2.mp hc))]
    · rw [spRead_idx_panic hlt h2, spRead_idx_panic hlt2 h2]
  · rw [spRead_oob hge, spRead_oob (by omega)]

theorem spDelete_oob {p : Page} {s : Nat} (h : numSlots p ≤ s) :
    spDelete p s = .ok (p, false) := by
  unfold spDelete
  rw [if_pos h]

theorem spDelete_dead {p : Page} {s : Nat} (h1 : s < numSlots p) (h2 : s < 1024)
    (h3 : ¬ slotLive p s) : spDelete p s = .ok (p, false) := by
  unfold slotLive at h3
  unfold spDelete
  rw [if_neg (by omega), if_neg (by omega), if_pos (by simpa using h3)]

/-- Characterization of a successful delete from a valid page: only the
length field of the deleted slot changes, and validity is preserved. -/
theorem spDelete_ok_spec {p : Page} (hv : Valid p) {s : Nat} (h1 : s < numSlots p)
    (hlive : slotLive p s) :
    ∃ p', spDelete p s = .ok (p', true) ∧
      freeStart p' = freeStart p ∧
      freeEnd p' = freeEnd p ∧
      numSlots p' = numSlots p ∧
      readSlot p' s = ((readSlot p s).1, INVALID_SLOT) ∧
      (∀ u, u ≠ s → u < numSlots p → readSlot p' u = readSlot p u) ∧
      (∀ a n, 6 ≤ a → a + n ≤ freeStart p → readBytes p' a n = readBytes p a n) ∧
      Valid p' := by
  obtain ⟨hb, h6, hle, heq, hok, hdis⟩ := hv
  have hns : numSlots p ≤ 1022 := by omega
  have hs21 : s ≤ 1021 := by omega
  have hoffb : (readSlot p s).1 < 65536 := by
    have := slotOff_le s hs21
    exact bounded_readU16 hb (by omega)
  unfold slotLive at hlive
  set P := writeSlot p s (readSlot p s).1 INVALID_SLOT with hP
  have hrun : spDelete p s = .ok (P, true) := by
    unfold spDelete
    rw [if_neg (by omega), if_neg (by omega), if_neg (by simpa using hlive)]
  have hfs' : freeStart P = freeStart p := freeStart_writeSlot _ _ _ hs21
  have hfe' : freeEnd P = freeEnd p := freeEnd_writeSlot _ _ _ hs21
  have hns' : numSlots P = numSlots p := numSlots_writeSlot _ _ _ hs21
  have hself : readSlot P s = ((readSlot p s).1, INVALID_SLOT) := by
    rw [hP, readSlot_writeSlot_self _ _ _ (by omega), Prod.mk.injEq]
    unfold INVALID_SLOT
    refine ⟨by omega, by omega⟩
  have hother : ∀ u, u ≠ s → u < numSlots p → readSlot P u = readSlot p u := by
    intro u hu hult
    exact readSlot_writeSlot_ne _ _ _ (by omega) (by omega) (by omega)
  have hdata : ∀ a n, 6 ≤ a → a + n ≤ freeStart p → readBytes P a n = readBytes p a n := by
    intro a n ha han
    rw [hP]
    apply readBytes_writeSlot_out _ _ _ (by omega)
    have := slotOff_le s hs21
    have h2 : slotOff s ≥ 4096 - 4 * numSlots p := by
      unfold slotOff PAGE_SIZE
      omega
    omega
  refine ⟨P, hrun, hfs', hfe', hns', hself, hother, hdata, ?_, ?_, ?_, ?_, ?_, ?_⟩
  · rw [hP]
    exact bounded_writeSlot hb _ _ _
  · omega
  · omega
  · omega
  · intro i hi hl
    rw [hns'] at hi
    by_cases his : i = s
    · subst his
      unfold slotLive at hl
      rw [hself] at hl
      simp at hl
    · have hl2 : slotLive p i := by
        unfold slotLive at hl ⊢
        rw [hother i his hi] at hl
        exact hl
      have := hok i hi hl2
      unfold slotOK at this ⊢
      rw [hother i his hi, hfs']
      exact this
  · intro i hi j hj hij hli hlj
    rw [hns'] at hi hj
    by_cases his : i = s
    · subst his
      unfold slotLive at hli
      rw [hself] at hli
      simp at hli
    · by_cases hjs : j = s
      · subst hjs
        unfold slotLive at hlj
        rw [hself] at hlj
        simp at hlj
      · have hdij := hdis i hi j hj hij
          (by unfold slotLive at hli ⊢; rw [hother i his hi] at hli; exact hli)
          (by unfold slotLive at hlj ⊢; rw [hother j hjs hj] at hlj; exact hlj)
        unfold disjointR at hdij ⊢
        rw [hother i his hi, hother j hjs hj]
        exact hdij

/-! ### Claim C5: init then insert then read round-trip -/

/-- C5: for every byte payload x with length at most 4086, initializing a
fresh page and inserting x returns slot id 0, and reading that slot
yields exactly x. -/
theorem C5_init_insert_read (b : Page) (x : List Nat) (hb : bounded b)
    (hx : x.length ≤ 4086) (hbytes : bytesOk x) :
    ∃ p', spInsert (initPage b) x = .ok (p', some 0) ∧ spRead p' 0 = .ok (some x) := by
  have hv := Valid_initPage hb
  have hfit : freeStart (initPage b) + x.length + 4 ≤ freeEnd (initPage b) := by
    rw [freeStart_initPage, freeEnd_initPage]
    omega
  obtain ⟨p', hrun, hfs', hfe', hns', hnew, hold, hdata, hpay, hv'⟩ :=
    spInsert_ok_spec hv hbytes hfit
  rw [numSlots_initPage] at hrun hns' hnew
  rw [freeStart_initPage] at hnew hpay
  refine ⟨p', hrun, ?_⟩
  have hlive : slotLive p' 0 := by
    unfold slotLive INVALID_SLOT
    rw [hnew]
    simp
    omega
  rw [spRead_live (by omega) (by omega) hlive (by rw [hnew]; simp; omega)]
  rw [hnew]
  simp only []
  rw [hpay]

/-- The all-zero buffer is byte-bounded. -/
theorem bounded_zeroPage : bounded zeroPage := by
  intro i hi
  unfold zeroPage
  omega

/-- Witness for C5 at a concrete payload. -/
theorem C5_init_insert_read_witness :
    ∃ p', spInsert (initPage zeroPage) [1, 2, 3] = .ok (p', some 0) ∧
      spRead p' 0 = .ok (some [1, 2, 3]) :=
  C5_init_insert_read zeroPage [1, 2, 3] bounded_zeroPage (by decide) (by decide)

/-! ### update characterization (branches that do not compact) -/

theorem spUpdate_oob {p : Page} {s : Nat} (t : List Nat) (h : numSlots p ≤ s) :
    spUpdate p s t = .ok (p, false) := by
  unfold spUpdate
  rw [if_pos h]

theorem spUpdate_dead {p : Page} {s : Nat} (t : List Nat) (h1 : s < numSlots p)
    (h2 : s < 1024) (h3 : ¬ slotLive p s) : spUpdate p s t = .ok (p, false) := by
  unfold slotLive at h3
  unfold spUpdate
  rw [if_neg (by omega), if_neg (by omega), if_pos (by simpa using h3)]

/-- Characterization of an in-place update (new length at most the old)
from a valid page. -/
theorem spUpdate_inplace_spec {p : Page} (hv : Valid p) {s : Nat} {t : List Nat}
    (h1 : s < numSlots p) (hlive : slotLive p s) (hsh : t.length ≤ (readSlot p s).2) :
    ∃ p', spUpdate p s t = .ok (p', true) ∧
      freeStart p' = freeStart p ∧
      freeEnd p' = freeEnd p ∧
      numSlots p' = numSlots p ∧
      readSlot p' s = ((readSlot p s).1, t.length) ∧
      (∀ u, u ≠ s → u < numSlots p → readSlot p' u = readSlot p u) ∧
      (∀ a n, 6 ≤ a → a + n ≤ freeStart p →
        (a + n ≤ (readSlot p s).1 ∨ (readSlot p s).1 + (readSlot p s).2 ≤ a) →
        readBytes p' a n = readBytes p a n) ∧
      readBytes p' (readSlot p s).1 t.length = t ∧
      (bytesOk t → Valid p') := by
  obtain ⟨hb, h6, hle, heq, hok, hdis⟩ := hv
  have hns : numSlots p ≤ 1022 := by omega
  have hs21 : s ≤ 1021 := by omega
  have hsok := hok s h1 hlive
  unfold slotOK at hsok
  set off := (readSlot p s).1 with hoffdef
  set len := (readSlot p s).2 with hlendef
  have hlenb : len < 65536 := by
    have := slotOff_le s hs21
    exact bounded_readU16 hb (by omega)
  have htl : t.length % 65536 = t.length := Nat.mod_eq_of_lt (by omega)
  unfold slotLive at hlive
  set P := writeSlot (writeBytes p off t) s off (t.length % 65536) with hP
  have hrun : spUpdate p s t = .ok (P, true) := by
    unfold spUpdate
    rw [if_neg (by omega), if_neg (by omega), if_neg (by simpa using hlive),
        if_pos (by omega : t.length % 65536 ≤ (readSlot p s).2), if_neg (by omega)]
  have hoffb : off < 65536 := by
    have := slotOff_le s hs21
    exact bounded_readU16 hb (by omega)
  have hfs' : freeStart P = freeStart p := by
    rw [hP, freeStart_writeSlot _ _ _ hs21, freeStart_writeBytes _ _ (by omega)]
  have hfe' : freeEnd P = freeEnd p := by
    rw [hP, freeEnd_writeSlot _ _ _ hs21, freeEnd_writeBytes _ _ (by omega)]
  have hns' : numSlots P = numSlots p := by
    rw [hP, numSlots_writeSlot _ _ _ hs21, numSlots_writeBytes _ _ (by omega)]
  have hself : readSlot P s = (off, t.length) := by
    rw [hP, readSlot_writeSlot_self _ _ _ (by omega), Prod.mk.injEq]
    refine ⟨by omega, by omega⟩
  have hother : ∀ u, u ≠ s → u < numSlots p → readSlot P u = readSlot p u := by
    intro u hu hult
    rw [hP, readSlot_writeSlot_ne _ _ _ (by omega) (by omega) (by omega)]
    apply readSlot_writeBytes_out
    have h2 : slotOff u ≥ 4096 - 4 * numSlots p := by
      unfold slotOff PAGE_SIZE
      omega
    omega
  have hdata : ∀ a n, 6 ≤ a → a + n ≤ freeStart p →
      (a + n ≤ off ∨ off + len ≤ a) → readBytes P a n = readBytes p a n := by
    intro a n ha han hd
    rw [hP, readBytes_writeSlot_out _ _ _ (by omega)
        (by unfold slotOff PAGE_SIZE; omega)]
    apply readBytes_writeBytes_out
    omega
  have hpay : readBytes P off t.length = t := by
    rw [hP, readBytes_writeSlot_out _ _ _ (by omega)
        (by unfold slotOff PAGE_SIZE; omega)]
    exact readBytes_writeBytes_self p off t
  refine ⟨P, hrun, hfs', hfe', hns', hself, hother, hdata, hpay, ?_⟩
  intro hbytes
  refine ⟨?_, by omega, by omega, by omega, ?_, ?_⟩
  · rw [hP]
    exact bounded_writeSlot (bounded_writeBytes hb hbytes off) _ _ _
  · intro i hi hl
    rw [hns'] at hi
    by_cases his : i = s
    · subst his
      unfold slotOK
      rw [hself, hfs']
      simp only []
      omega
    · have hl2 : slotLive p i := by
        unfold slotLive at hl ⊢
        rw [hother i his hi] at hl
        exact hl
      have := hok i hi hl2
      unfold slotOK at this ⊢
      rw [hother i his hi, hfs']
      exact this
  · intro i hi j hj hij hli hlj
    rw [hns'] at hi hj
    by_cases his : i = s
    · subst his
      by_cases hjs : j = i
      · omega
      · have hlj2 : slotLive p j := by
          unfold slotLive at hlj ⊢
          rw [hother j hjs hj] at hlj
          exact hlj
        have hd := hdis i h1 j hj (by omega) (by exact hlive) hlj2
        unfold disjointR at hd ⊢
        rw [hself, hother j hjs hj]
        simp only []
        omega
    · by_cases hjs : j = s
      · subst hjs
        have hli2 : slotLive p i := by
          unfold slotLive at hli ⊢
          rw [hother i his hi] at hli
          exact hli
        have hd := hdis i hi j h1 his hli2 (by exact hlive)
        unfold disjointR at hd ⊢
        rw [hself, hother i his hi]
        simp only []
        omega
      · have hd := hdis i hi j hj hij
          (by unfold slotLive at hli ⊢; rw [hother i his hi] at hli; exact hli)
          (by unfold slotLive at hlj ⊢; rw [hother j hjs hj] at hlj; exact hlj)
        unfold disjointR at hd ⊢
        rw [hother i his hi, hother j hjs hj]
        exact hd

/-- Characterization of the placing tail of update from a valid page with
enough contiguous free space: the slot is repointed to free_start, which
advances by the new length. -/
theorem spUpdatePlace_spec {p : Page} (hv : Valid p) {s : Nat} {t : List Nat}
    (h1 : s < numSlots p) (hfit : freeStart p + t.length ≤ freeEnd p) :
    ∃ p', spUpdatePlace p s t = .ok (p', true) ∧
      freeStart p' = freeStart p + t.length ∧
      freeEnd p' = freeEnd p ∧
      numSlots p' = numSlots p ∧
      readSlot p' s = (freeStart p, t.length) ∧
      (∀ u, u ≠ s → u < numSlots p → readSlot p' u = readSlot p u) ∧
      (∀ a n, 6 ≤ a → a + n ≤ freeStart p → readBytes p' a n = readBytes p a n) ∧
      readBytes p' (freeStart p) t.length = t ∧
      (bytesOk t → Valid p') := by
  obtain ⟨hb, h6, hle, heq, hok, hdis⟩ := hv
  have hns : numSlots p ≤ 1022 := by omega
  have hs21 : s ≤ 1021 := by omega
  have hfe : freeEnd p ≤ 4096 := by omega
  have htl : t.length % 65536 = t.length := Nat.mod_eq_of_lt (by omega)
  have hfsb : freeStart p < 65536 := bounded_readU16 hb (by omega)
  set fs := freeStart p with hfsdef
  set P := writeSlot (setFreeStart (writeBytes p fs t) ((fs + t.length % 65536) % 65536))
    s fs (t.length % 65536) with hP
  have hrun : spUpdatePlace p s t = .ok (P, true) := by
    unfold spUpdatePlace
    rw [if_neg (by omega)]
  have hfs' : freeStart P = fs + t.length := by
    rw [hP, freeStart_writeSlot _ _ _ hs21, freeStart_setFreeStart]
    omega
  have hfe' : freeEnd P = freeEnd p := by
    rw [hP, freeEnd_writeSlot _ _ _ hs21, freeEnd_setFreeStart,
        freeEnd_writeBytes _ _ (by omega)]
  have hns' : numSlots P = numSlots p := by
    rw [hP, numSlots_writeSlot _ _ _ hs21, numSlots_setFreeStart,
        numSlots_writeBytes _ _ (by omega)]
  have hself : readSlot P s = (fs, t.length) := by
    rw [hP, readSlot_writeSlot_self _ _ _ (by omega), Prod.mk.injEq]
    refine ⟨by omega, by omega⟩
  have hother : ∀ u, u ≠ s → u < numSlots p → readSlot P u = readSlot p u := by
    intro u hu hult
    rw [hP, readSlot_writeSlot_ne _ _ _ (by omega) (by omega) (by omega)]
    unfold setFreeStart
    rw [readSlot_writeU16_header _ _ (by omega) (by omega)]
    apply readSlot_writeBytes_out
    have h2 : slotOff u ≥ 4096 - 4 * numSlots p := by
      unfold slotOff PAGE_SIZE
      omega
    omega
  have hdata : ∀ a n, 6 ≤ a → a + n ≤ fs → readBytes P a n = readBytes p a n := by
    intro a n ha han
    rw [hP, readBytes_writeSlot_out _ _ _ (by omega)
        (by unfold slotOff PAGE_SIZE; omega)]
    unfold setFreeStart
    rw [readBytes_writeU16_header _ (by omega) (by omega)]
    apply readBytes_writeBytes_out
    omega
  have hpay : readBytes P fs t.length = t := by
    rw [hP, readBytes_writeSlot_out _ _ _ (by omega)
        (by unfold slotOff PAGE_SIZE; omega)]
    unfold setFreeStart
    rw [readBytes_writeU16_header _ (by omega) (by omega)]
    exact readBytes_writeBytes_self p fs t
  refine ⟨P, hrun, hfs', hfe', hns', hself, hother, hdata, hpay, ?_⟩
  intro hbytes
  refine ⟨?_, by omega, by omega, by omega, ?_, ?_⟩
  · rw [hP]
    exact bounded_writeSlot (bounded_writeU16 (bounded_writeBytes hb hbytes fs) _ _) _ _ _
  · intro i hi hl
    rw [hns'] at hi
    by_cases his : i = s
    · subst his
      unfold slotOK
      rw [hself, hfs']
      simp only []
      omega
    · have hl2 : slotLive p i := by
        unfold slotLive at hl ⊢
        rw [hother i his hi] at hl
        exact hl
      have := hok i hi hl2
      unfold slotOK at this ⊢
      rw [hother i his hi, hfs']
      omega
  · intro i hi j hj hij hli hlj
    rw [hns'] at hi hj
    by_cases his : i = s
    · subst his
      by_cases hjs : j = i
      · omega
      · have hlj2 : slotLive p j := by
          unfold slotLive at hlj ⊢
          rw [hother j hjs hj] at hlj
          exact hlj
        have hokj := hok j hj hlj2
        unfold slotOK at hokj
        unfold disjointR
        rw [hself, hother j hjs hj]
        simp only []
        omega
    · by_cases hjs : j = s
      · subst hjs
        have hli2 : slotLive p i := by
          unfold slotLive at hli ⊢
          rw [hother i his hi] at hli
          exact hli
        have hoki := hok i hi hli2
        unfold slotOK at hoki
        unfold disjointR
        rw [hself, hother i his hi]
        simp only []
        omega
      · have hd := hdis i hi j hj hij
          (by unfold slotLive at hli ⊢; rw [hother i his hi] at hli; exact hli)
          (by unfold slotLive at hlj ⊢; rw [hother j hjs hj] at hlj; exact hlj)
        unfold disjointR at hd ⊢
        rw [hother i his hi, hother j hjs hj]
        exact hd

/-- The growing branch of update reduces to the placing tail when the
contiguous free space already suffices (no internal compaction). -/
theorem spUpdate_grow_eq {p : Page} {s : Nat} {t : List Nat}
    (h1 : s < numSlots p) (h2 : s < 1024) (hlive : slotLive p s)
    (hgrow : (readSlot p s).2 < t.length % 65536) (hfree : t.length ≤ largestFree p) :
    spUpdate p s t = spUpdatePlace p s t := by
  unfold slotLive at hlive
  unfold spUpdate
  rw [if_neg (by omega), if_neg (by omega), if_neg (by simpa using hlive),
      if_neg (by omega), if_neg (by omega)]

/-! ### compact characterization -/

theorem bytesOk_readBytes {q : Page} (hb : bounded q) {a n : Nat} (h : a + n ≤ 4096) :
    bytesOk (readBytes q a n) := by
  intro b hbmem
  unfold readBytes at hbmem
  rw [List.mem_map] at hbmem
  obtain ⟨k, hk, hkeq⟩ := hbmem
  rw [List.mem_range] at hk
  rw [← hkeq]
  exact hb (a + k) (by omega)

/-- Invariant-carrying specification of the compact copy loop.  The list
holds live tuples sorted by offset with pairwise-disjoint ranges inside
[6, fs); copying never clobbers a tuple before it is moved, so every
listed slot ends up with its original length and payload at its newly
assigned offset, and slots not listed keep their directory entries. -/
theorem compactLoop_spec (ns fs : Nat) (hfs : fs + 4 * ns ≤ 4096) :
    ∀ (L : List (Nat × Nat × Nat)) (q : Page) (nf : Nat),
    6 ≤ nf → nf ≤ fs →
    (∀ e ∈ L, e.1 < ns ∧ 6 ≤ e.2.1 ∧ e.2.1 + e.2.2 ≤ fs ∧ e.2.2 < 65535) →
    (∀ e ∈ L, 0 < e.2.2 → nf ≤ e.2.1) →
    List.Sorted (fun a b => a.2.1 ≤ b.2.1) L →
    List.Pairwise (fun a b => disjointR a.2.1 a.2.2 b.2.1 b.2.2) L →
    List.Pairwise (fun a b => a.1 ≠ b.1) L →
    ∃ q', compactLoop q L nf = .ok (q', nf + (L.map (fun e => e.2.2)).sum) ∧
      nf + (L.map (fun e => e.2.2)).sum ≤ fs ∧
      freeStart q' = freeStart q ∧
      freeEnd q' = freeEnd q ∧
      numSlots q' = numSlots q ∧
      (∀ u, u < ns → u ∉ L.map (fun e => e.1) → readSlot q' u = readSlot q u) ∧
      (∀ j, j < nf → q' j = q j) ∧
      (∀ e ∈ L, ∃ o, readSlot q' e.1 = (o, e.2.2) ∧ 6 ≤ o ∧
        o + e.2.2 ≤ nf + (L.map (fun e => e.2.2)).sum ∧
        readBytes q' o e.2.2 = readBytes q e.2.1 e.2.2) ∧
      (bounded q → bounded q') := by
  have hns1022 : ns ≤ 1022 ∨ fs < 6 := by omega
  intro L
  induction L with
  | nil =>
    intro q nf h6 hnffs helts h2 hsort hdisj hnodup
    refine ⟨q, ?_, by simp; omega, rfl, rfl, rfl, ?_, ?_, ?_, ?_⟩
    · unfold compactLoop
      simp
    · intro u hu hmem
      rfl
    · intro j hj
      rfl
    · intro e he
      simp at he
    · intro hb
      exact hb
  | cons e rest ih =>
    intro q nf h6 hnffs helts h2 hsort hdisj hnodup
    obtain ⟨sid, off, len⟩ := e
    have hhead := helts _ (List.mem_cons_self _ _)
    simp only [] at hhead
    obtain ⟨hsidns, hoff6, hofffs, hlenb⟩ := hhead
    have hns : ns ≤ 1022 := by omega
    have hsid1021 : sid ≤ 1021 := by omega
    have hnflen : nf + len ≤ fs := by
      rcases Nat.eq_zero_or_pos len with h0 | hpos
      · omega
      · have := h2 _ (List.mem_cons_self _ _) hpos
        simp only [] at this
        omega
    have hslotOff : 4096 - 4 * ns ≤ slotOff sid := by
      unfold slotOff PAGE_SIZE
      omega
    have hsortrest : List.Sorted (fun a b => a.2.1 ≤ b.2.1) rest :=
      (List.sorted_cons.mp hsort).2
    have hsorthead : ∀ e2 ∈ rest, off ≤ e2.2.1 := by
      intro e2 he2
      exact (List.sorted_cons.mp hsort).1 e2 he2
    have hdisjhead : ∀ e2 ∈ rest, disjointR off len e2.2.1 e2.2.2 :=
      fun e2 he2 => (List.pairwise_cons.mp hdisj).1 e2 he2
    have hdisjrest := (List.pairwise_cons.mp hdisj).2
    have hnodHead : ∀ e2 ∈ rest, sid ≠ e2.1 :=
      fun e2 he2 => (List.pairwise_cons.mp hnodup).1 e2 he2
    have hnodrest := (List.pairwise_cons.mp hnodup).2
    have h2rest : ∀ e2 ∈ rest, 0 < e2.2.2 → nf + len ≤ e2.2.1 := by
      intro e2 he2 hpos
      have hsorted := hsorthead e2 he2
      have hd := hdisjhead e2 he2
      unfold disjointR at hd
      rcases Nat.eq_zero_or_pos len with h0 | hlpos
      · have := h2 e2 (List.mem_cons_of_mem _ he2) hpos
        omega
      · have hnfoff := h2 _ (List.mem_cons_self _ _) hlpos
        simp only [] at hnfoff
        rcases hd with hd | hd
        · omega
        · omega
    set bytes := readBytes q off len with hbytesdef
    have hbytelen : bytes.length = len := readBytes_length q off len
    set q1 := writeBytes q nf bytes with hq1
    set q2 := writeSlot q1 sid nf (len % 65536) with hq2
    have hrun1 : compactLoop q ((sid, off, len) :: rest) nf
        = compactLoop q2 rest ((nf + len) % 65536) := by
      show (if 4096 < off + len then RustResult.panic
        else if 4096 < nf + len then RustResult.panic
        else if 1024 ≤ sid then RustResult.panic
        else compactLoop (writeSlot (writeBytes q nf (readBytes q off len)) sid nf
          (len % 65536)) rest ((nf + len) % 65536)) = _
      rw [if_neg (by omega), if_neg (by omega), if_neg (by omega)]
    have hmod : (nf + len) % 65536 = nf + len := Nat.mod_eq_of_lt (by omega)
    -- entries of slots other than sid are untouched by this step
    have hq2entry : ∀ u, u < ns → u ≠ sid → readSlot q2 u = readSlot q u := by
      intro u hu hune
      rw [hq2, readSlot_writeSlot_ne _ _ _ (by omega) (by omega) (by omega), hq1]
      apply readSlot_writeBytes_out
      have : 4096 - 4 * ns ≤ slotOff u := by
        unfold slotOff PAGE_SIZE
        omega
      omega
    have hq2self : readSlot q2 sid = (nf, len) := by
      rw [hq2, readSlot_writeSlot_self _ _ _ (by omega), Prod.mk.injEq]
      refine ⟨by omega, by omega⟩
    have hq2low : ∀ j, j < nf → q2 j = q j := by
      intro j hj
      rw [hq2, writeSlot_out _ _ _ (by omega) (by left; omega), hq1,
          writeBytes_out _ _ (by left; omega)]
    have hq2paybytes : readBytes q2 nf len = readBytes q off len := by
      rw [hq2, readBytes_writeSlot_out _ _ _ (by omega) (by omega), hq1]
      conv_lhs => rw [← hbytelen]
      rw [readBytes_writeBytes_self]
    -- payload ranges of the remaining tuples are untouched by this step
    have hq2rest : ∀ e2 ∈ rest, readBytes q2 e2.2.1 e2.2.2 = readBytes q e2.2.1 e2.2.2 := by
      intro e2 he2
      have he2f := helts e2 (List.mem_cons_of_mem _ he2)
      rcases Nat.eq_zero_or_pos e2.2.2 with h0 | hpos
      · rw [h0]
        unfold readBytes
        simp
      · have hlo := h2rest e2 he2 hpos
        rw [hq2, readBytes_writeSlot_out _ _ _ (by omega) (by omega), hq1]
        apply readBytes_writeBytes_out
        left
        omega
    have heltsrest : ∀ e2 ∈ rest, e2.1 < ns ∧ 6 ≤ e2.2.1 ∧ e2.2.1 + e2.2.2 ≤ fs ∧
        e2.2.2 < 65535 := fun e2 he2 => helts e2 (List.mem_cons_of_mem _ he2)
    obtain ⟨q', hrun', hsum', hfs', hfe', hns', hent', hlow', hpay', hbnd'⟩ :=
      ih q2 (nf + len) (by omega) hnflen heltsrest h2rest hsortrest hdisjrest hnodrest
    have hsumeq : nf + ((((sid, off, len) :: rest).map (fun e => e.2.2)).sum)
        = nf + len + ((rest.map (fun e => e.2.2)).sum) := by
      simp
      omega
    refine ⟨q', ?_, by omega, ?_, ?_, ?_, ?_, ?_, ?_, ?_⟩
    · rw [hrun1, hmod, hrun', hsumeq]
    · rw [hfs', hq2, freeStart_writeSlot _ _ _ hsid1021, hq1,
          freeStart_writeBytes _ _ (by omega)]
    · rw [hfe', hq2, freeEnd_writeSlot _ _ _ hsid1021, hq1,
          freeEnd_writeBytes _ _ (by omega)]
    · rw [hns', hq2, numSlots_writeSlot _ _ _ hsid1021, hq1,
          numSlots_writeBytes _ _ (by omega)]
    · intro u hu hmem
      simp only [List.map_cons, List.mem_cons] at hmem
      push_neg at hmem
      rw [hent' u hu hmem.2]
      exact hq2entry u hu (fun hc => hmem.1 (by omega))
    · intro j hj
      rw [hlow' j (by omega)]
      exact hq2low j hj
    · intro e2 he2
      rcases List.mem_cons.mp he2 with hhd | htl
      · subst hhd
        refine ⟨nf, ?_, by omega, by simp only [List.map_cons, List.sum_cons]; omega, ?_⟩
        · simp only []
          rw [hent' sid hsidns ?_, hq2self]
          intro hc
          rw [List.mem_map] at hc
          obtain ⟨e3, he3, he3eq⟩ := hc
          exact hnodHead e3 he3 he3eq.symm
        · simp only []
          have hnfpres : readBytes q' nf len = readBytes q2 nf len := by
            apply readBytes_congr
            intro j hj1 hj2
            exact hlow' j (by omega)
          rw [hnfpres, hq2paybytes]
      · obtain ⟨o, ho1, ho2, ho3, ho4⟩ := hpay' e2 htl
        refine ⟨o, ho1, ho2, by rw [hsumeq]; omega, ?_⟩
        rw [ho4]
        exact hq2rest e2 htl
    · intro hb
      apply hbnd'
      rw [hq2]
      apply bounded_writeSlot
      rw [hq1]
      apply bounded_writeBytes hb
      rw [hbytesdef]
      exact bytesOk_readBytes hb (by omega)

/-- Sum of the lengths of the live tuples of a page. -/
def liveLenSum (p : Page) : Nat := ((collectLive p).map (fun e => e.2.2)).sum

/-- Number of live (non-deleted) slots of a page. -/
def liveCount (p : Page) : Nat := (collectLive p).length

/-- Number of deleted slots of a page. -/
def deadCount (p : Page) : Nat := numSlots p - liveCount p

theorem mem_collectLive {p : Page} {e : Nat × Nat × Nat} :
    e ∈ collectLive p ↔
      e.1 < numSlots p ∧ readSlot p e.1 = (e.2.1, e.2.2) ∧ e.2.2 ≠ INVALID_SLOT := by
  unfold collectLive
  rw [List.mem_filterMap]
  constructor
  · rintro ⟨sid, hsid, hf⟩
    rw [List.mem_range] at hsid
    by_cases hc : (readSlot p sid).2 = INVALID_SLOT
    · simp only [hc, if_pos rfl] at hf
      exact absurd hf (by simp)
    · simp only [if_neg hc] at hf
      have he : e = (sid, (readSlot p sid).1, (readSlot p sid).2) :=
        (Option.some.injEq _ _ ▸ hf).symm
      subst he
      exact ⟨hsid, rfl, hc⟩
  · rintro ⟨h1, h2, h3⟩
    refine ⟨e.1, List.mem_range.mpr h1, ?_⟩
    simp only []
    rw [h2]
    simp only [if_neg h3]

theorem collectLive_sid_lt (p : Page) :
    List.Pairwise (fun a b => a.1 < b.1) (collectLive p) := by
  unfold collectLive
  rw [List.pairwise_filterMap]
  apply (List.pairwise_lt_range _).imp_of_mem
  intro a b hma hmb hab
  intro x hx y hy
  have hxa : x.1 = a := by
    by_cases hc : (readSlot p a).2 = INVALID_SLOT
    · simp [hc] at hx
    · simp only [if_neg hc, Option.mem_def, Option.some.injEq] at hx
      rw [← hx]
  have hyb : y.1 = b := by
    by_cases hc : (readSlot p b).2 = INVALID_SLOT
    · simp [hc] at hy
    · simp only [if_neg hc, Option.mem_def, Option.some.injEq] at hy
      rw [← hy]
  omega

instance : IsTotal (Nat × Nat × Nat) (fun a b => a.2.1 ≤ b.2.1) :=
  ⟨fun a b => Nat.le_total a.2.1 b.2.1⟩

instance : IsTrans (Nat × Nat × Nat) (fun a b => a.2.1 ≤ b.2.1) :=
  ⟨fun _ _ _ h1 h2 => Nat.le_trans h1 h2⟩

/-- Full characterization of SlottedPage::compact on a valid page:
num_slots is unchanged, liveness per slot is unchanged, every slot reads
the same payload as before, free_start becomes 6 plus the sum of the
live lengths (never larger than the old free_start), and free_end
becomes 4096 - 4 * deadCount -- the value the source actually computes,
PAGE_SIZE - (num_slots - live_count) * SLOT_ENTRY_SIZE. -/
theorem spCompact_spec {p : Page} (hv : Valid p) :
    ∃ p', spCompact p = .ok p' ∧
      numSlots p' = numSlots p ∧
      freeStart p' = 6 + liveLenSum p ∧
      freeStart p' ≤ freeStart p ∧
      freeEnd p' = 4096 - 4 * deadCount p ∧
      freeStart p' ≤ freeEnd p' ∧
      (∀ s, spRead p' s = spRead p s) ∧
      (∀ i < numSlots p, (slotLive p' i ↔ slotLive p i)) ∧
      (∀ i < numSlots p, slotLive p' i → slotOK p' i) ∧
      bounded p' := by
  obtain ⟨hb, h6, hle, heq, hok, hdis⟩ := hv
  set ns := numSlots p with hnsdef
  set fs := freeStart p with hfsdef
  have hns : ns ≤ 1022 := by omega
  have hfs : fs + 4 * ns ≤ 4096 := by omega
  set S := sortByOffset (collectLive p) with hSdef
  have hperm : S.Perm (collectLive p) := by
    rw [hSdef]
    unfold sortByOffset
    exact List.perm_insertionSort _ _
  have hmemS : ∀ e, e ∈ S ↔ e ∈ collectLive p := fun e => hperm.mem_iff
  have heltsC : ∀ e ∈ collectLive p,
      e.1 < ns ∧ 6 ≤ e.2.1 ∧ e.2.1 + e.2.2 ≤ fs ∧ e.2.2 < 65535 := by
    intro e he
    obtain ⟨h1, h2, h3⟩ := mem_collectLive.mp he
    have hl : slotLive p e.1 := by
      unfold slotLive
      rw [h2]
      exact h3
    have hsok := hok e.1 h1 hl
    unfold slotOK at hsok
    rw [h2] at hsok
    simp only [] at hsok
    have hlb : (readSlot p e.1).2 < 65536 := by
      have h21 : e.1 ≤ 1021 := by omega
      have := slotOff_le e.1 h21
      exact bounded_readU16 hb (by omega)
    rw [h2] at hlb
    simp only [] at hlb
    unfold INVALID_SLOT at h3
    refine ⟨h1, hsok.1, by omega, by omega⟩
  have heltsS : ∀ e ∈ S, e.1 < ns ∧ 6 ≤ e.2.1 ∧ e.2.1 + e.2.2 ≤ fs ∧ e.2.2 < 65535 :=
    fun e he => heltsC e ((hmemS e).mp he)
  have hsidC : List.Pairwise (fun a b => a.1 ≠ b.1) (collectLive p) :=
    (collectLive_sid_lt p).imp_of_mem (fun _ _ _ => by omega)
  have hdisC : List.Pairwise (fun a b => disjointR a.2.1 a.2.2 b.2.1 b.2.2)
      (collectLive p) := by
    apply hsidC.imp_of_mem
    intro a b hma hmb hne
    obtain ⟨ha1, ha2, ha3⟩ := mem_collectLive.mp hma
    obtain ⟨hb1, hb2, hb3⟩ := mem_collectLive.mp hmb
    have hla : slotLive p a.1 := by unfold slotLive; rw [ha2]; exact ha3
    have hlb : slotLive p b.1 := by unfold slotLive; rw [hb2]; exact hb3
    have := hdis a.1 ha1 b.1 hb1 hne hla hlb
    rw [ha2, hb2] at this
    exact this
  have hsidS : List.Pairwise (fun a b => a.1 ≠ b.1) S :=
    (hperm.pairwise_iff (fun h => Ne.symm h)).mpr hsidC
  have hdisS : List.Pairwise (fun a b => disjointR a.2.1 a.2.2 b.2.1 b.2.2) S := by
    refine (hperm.pairwise_iff ?_).mpr hdisC
    intro x y h
    unfold disjointR at h ⊢
    omega
  have hsortS : List.Sorted (fun a b => a.2.1 ≤ b.2.1) S := by
    rw [hSdef]
    unfold sortByOffset
    exact List.sorted_insertionSort _ _
  have h2S : ∀ e ∈ S, 0 < e.2.2 → 6 ≤ e.2.1 := fun e he _ => (heltsS e he).2.1
  obtain ⟨q', hrun, hsum, hfsq, hfeq, hnsq, hent, hlow, hpay, hbq⟩ :=
    compactLoop_spec ns fs hfs S p 6 (by omega) (by omega) heltsS h2S hsortS hdisS hsidS
  have hsums : ((S.map (fun e => e.2.2)).sum) = liveLenSum p := by
    unfold liveLenSum
    exact (hperm.map (fun e => e.2.2)).sum_eq
  have hlens : S.length = liveCount p := by
    unfold liveCount
    exact hperm.length_eq
  have hlivele : liveCount p ≤ ns := by
    unfold liveCount collectLive
    calc (List.filterMap _ (List.range ns)).length
        ≤ (List.range ns).length := List.length_filterMap_le _ _
      _ = ns := List.length_range _
  set nfend := 6 + (S.map (fun e => e.2.2)).sum with hnfW
  set P := setFreeEnd (setFreeStart q' nfend) (PAGE_SIZE - (ns - S.length) * 4) with hP
  have hruntot : spCompact p = .ok P := by
    simp only [spCompact]
    rw [if_neg (by omega), ← hSdef, hrun]
  have hfsP : freeStart P = nfend := by
    rw [hP, freeStart_setFreeEnd, freeStart_setFreeStart]
    exact Nat.mod_eq_of_lt (by omega)
  have hfeP : freeEnd P = 4096 - 4 * deadCount p := by
    rw [hP, freeEnd_setFreeEnd]
    unfold deadCount PAGE_SIZE
    rw [hlens, Nat.mod_eq_of_lt (by omega)]
    omega
  have hnsP : numSlots P = ns := by
    rw [hP, numSlots_setFreeEnd, numSlots_setFreeStart, hnsq]
  have hentP : ∀ u, u ≤ 1021 → readSlot P u = readSlot q' u := by
    intro u hu
    rw [hP]
    unfold setFreeEnd setFreeStart
    rw [readSlot_writeU16_header _ _ (by omega) hu, readSlot_writeU16_header _ _ (by omega) hu]
  have hbytesP : ∀ a n, 6 ≤ a → readBytes P a n = readBytes q' a n := by
    intro a n ha
    rw [hP]
    unfold setFreeEnd setFreeStart
    rw [readBytes_writeU16_header _ (by omega) ha, readBytes_writeU16_header _ (by omega) ha]
  have hliveMemS : ∀ s, s < ns → slotLive p s →
      (s, (readSlot p s).1, (readSlot p s).2) ∈ S := by
    intro s hs hl
    rw [hmemS]
    apply mem_collectLive.mpr
    exact ⟨hs, rfl, hl⟩
  have hdeadNotin : ∀ s, ¬ slotLive p s → s ∉ S.map (fun e => e.1) := by
    intro s hnl hmem
    rw [List.mem_map] at hmem
    obtain ⟨e, he, heq2⟩ := hmem
    obtain ⟨h1, h2, h3⟩ := mem_collectLive.mp ((hmemS e).mp he)
    apply hnl
    unfold slotLive
    rw [← heq2, h2]
    exact h3
  have hdeadEq : ∀ s, s < ns → ¬ slotLive p s → readSlot P s = readSlot p s := by
    intro s hs hnl
    rw [hentP s (by omega)]
    exact hent s hs (hdeadNotin s hnl)
  have hliveEntry : ∀ s, s < ns → slotLive p s → ∃ o, readSlot P s = (o, (readSlot p s).2) ∧
      6 ≤ o ∧ o + (readSlot p s).2 ≤ nfend ∧
      readBytes P o (readSlot p s).2 = readBytes p (readSlot p s).1 (readSlot p s).2 := by
    intro s hs hl
    obtain ⟨o, ho1, ho2, ho3, ho4⟩ := hpay _ (hliveMemS s hs hl)
    simp only [] at ho1 ho3 ho4
    refine ⟨o, ?_, ho2, by omega, ?_⟩
    · rw [hentP s (by omega)]
      exact ho1
    · rw [hbytesP _ _ ho2]
      exact ho4
  refine ⟨P, hruntot, hnsP, by rw [hfsP, hnfW, hsums], by rw [hfsP]; omega, hfeP, ?_, ?_, ?_, ?_, ?_⟩
  · rw [hfsP, hfeP]
    unfold deadCount
    omega
  · intro s
    rcases Nat.lt_or_ge s ns with hs | hs
    · by_cases hl : slotLive p s
      · obtain ⟨o, ho1, ho2, ho3, ho4⟩ := hliveEntry s hs hl
        have hlive' : slotLive P s := by
          unfold slotLive at hl ⊢
          rw [ho1]
          simpa using hl
        have hsokp := hok s hs hl
        unfold slotOK at hsokp
        rw [spRead_live (by omega) (by omega) hlive' (by rw [ho1]; simpa using by omega),
            spRead_live hs (by omega) hl (by omega), ho1]
        simp only []
        rw [ho4]
      · have hentEq := hdeadEq s hs hl
        have hnl' : ¬ slotLive P s := by
          unfold slotLive at hl ⊢
          rw [hentEq]
          exact hl
        rw [spRead_dead (by omega) (by omega) hnl', spRead_dead hs (by omega) hl]
    · rw [spRead_oob (by omega), spRead_oob (by omega)]
  · intro i hi
    by_cases hl : slotLive p i
    · obtain ⟨o, ho1, _, _, _⟩ := hliveEntry i hi hl
      constructor
      · intro
        exact hl
      · intro
        unfold slotLive at hl ⊢
        rw [ho1]
        simpa using hl
    · have hentEq := hdeadEq i hi hl
      constructor
      · intro hc
        unfold slotLive at hc
        rw [hentEq] at hc
        exact absurd hc hl
      · intro hc
        exact absurd hc hl
  · intro i hi hl'
    have hl : slotLive p i := by
      by_contra hnl
      unfold slotLive at hl'
      rw [hdeadEq i hi hnl] at hl'
      exact hnl hl'
    obtain ⟨o, ho1, ho2, ho3, _⟩ := hliveEntry i hi hl
    unfold slotOK
    rw [ho1, hfsP]
    simp only []
    exact ⟨ho2, ho3⟩
  · rw [hP]
    exact bounded_writeU16 (bounded_writeU16 (hbq hb) _ _) _ _

/-! ### Validity preservation per operation -/

/-- Post predicate on insert results: the page is valid whenever the call
completes without a panic. -/
def pagePostIns (Q : Page → Prop) : RustResult (Page × Option Nat) → Prop
  | .panic => True
  | .ok (p', _) => Q p'

/-- Post predicate on delete/update results. -/
def pagePostB (Q : Page → Prop) : RustResult (Page × Bool) → Prop
  | .panic => True
  | .ok (p', _) => Q p'

/-- The update branch condition that makes the source call compact()
internally: a live growing update whose new length exceeds the
contiguous free space. -/
def updTriggersCompact (p : Page) (s : Nat) (t : List Nat) : Prop :=
  s < numSlots p ∧ slotLive p s ∧ (readSlot p s).2 < t.length % 65536 ∧
    largestFree p < t.length

instance (p : Page) (s : Nat) (t : List Nat) : Decidable (updTriggersCompact p s t) := by
  unfold updTriggersCompact slotLive
  infer_instance

theorem spInsert_valid {p : Page} {t : List Nat} (hv : Valid p) (ht : bytesOk t) :
    pagePostIns Valid (spInsert p t) := by
  by_cases h1 : (freeStart p + (t.length % 65536 + 4) % 65536) % 65536 > freeEnd p
  · rw [spInsert_none h1]
    exact hv
  · by_cases h2 : 4096 < freeStart p + t.length
    · unfold spInsert pagePostIns
      rw [if_neg h1, if_pos h2]
      trivial
    · have hv2 := hv
      obtain ⟨hb, h6, hle, heq, _, _⟩ := hv2
      have hfe : freeEnd p ≤ 4096 := by omega
      have hfit : freeStart p + t.length + 4 ≤ freeEnd p := by
        have hl : t.length % 65536 = t.length := Nat.mod_eq_of_lt (by omega)
        rw [hl] at h1
        rw [Nat.mod_eq_of_lt (by omega : t.length + 4 < 65536)] at h1
        rw [Nat.mod_eq_of_lt (by omega : freeStart p + (t.length + 4) < 65536)] at h1
        omega
      obtain ⟨p', hrun, _, _, _, _, _, _, _, hv'⟩ := spInsert_ok_spec hv ht hfit
      unfold pagePostIns
      rw [hrun]
      exact hv'

theorem spDelete_valid {p : Page} (s : Nat) (hv : Valid p) :
    pagePostB Valid (spDelete p s) := by
  rcases Nat.lt_or_ge s (numSlots p) with hs | hs
  · by_cases hl : slotLive p s
    · obtain ⟨p', hrun, _, _, _, _, _, _, hv'⟩ := spDelete_ok_spec hv hs hl
      unfold pagePostB
      rw [hrun]
      exact hv'
    · have : s < 1024 := by
        have := hv.ns_le
        omega
      unfold pagePostB
      rw [spDelete_dead hs this hl]
      exact hv
  · unfold pagePostB
    rw [spDelete_oob hs]
    exact hv

theorem spUpdate_valid {p : Page} {s : Nat} {t : List Nat} (hv : Valid p)
    (ht : bytesOk t) (hnc : ¬ updTriggersCompact p s t) :
    pagePostB Valid (spUpdate p s t) := by
  rcases Nat.lt_or_ge s (numSlots p) with hs | hs
  · have hs1024 : s < 1024 := by
      have := hv.ns_le
      omega
    by_cases hl : slotLive p s
    · by_cases hsh : t.length % 65536 ≤ (readSlot p s).2
      · by_cases hpan : 4096 < (readSlot p s).1 + t.length
        · unfold slotLive at hl
          unfold pagePostB spUpdate
          rw [if_neg (by omega), if_neg (by omega), if_neg (by simpa using hl),
              if_pos hsh, if_pos hpan]
          trivial
        · have hreal : t.length ≤ (readSlot p s).2 := by
            have hlb : (readSlot p s).2 < 65536 := by
              have hb := hv.1
              have hns2 := hv.ns_le
              have h21 : s ≤ 1021 := by omega
              have := slotOff_le s h21
              exact bounded_readU16 hb (by omega)
            have hts : t.length ≤ 4096 := by omega
            have := Nat.mod_eq_of_lt (by omega : t.length < 65536)
            omega
          obtain ⟨p', hrun, _, _, _, _, _, _, _, hv'⟩ :=
            spUpdate_inplace_spec hv hs hl hreal
          unfold pagePostB
          rw [hrun]
          exact hv' ht
      · have hfree : t.length ≤ largestFree p := by
          unfold updTriggersCompact at hnc
          push_neg at hnc
          exact hnc hs hl (by omega)
        have hfit : freeStart p + t.length ≤ freeEnd p := by
          obtain ⟨_, _, hle, _, _, _⟩ := hv
          unfold largestFree at hfree
          rw [if_pos (by omega)] at hfree
          omega
        rw [spUpdate_grow_eq hs hs1024 hl (by omega) hfree]
        obtain ⟨p', hrun, _, _, _, _, _, _, _, hv'⟩ := spUpdatePlace_spec hv hs hfit
        unfold pagePostB
        rw [hrun]
        exact hv' ht
    · unfold pagePostB
      rw [spUpdate_dead t hs hs1024 hl]
      exact hv
  · unfold pagePostB
    rw [spUpdate_oob t hs]
    exact hv

/-! ### Claims C1 and C2: invariants across operations, and compact -/

/-- The live-slot containment property of the specification invariant. -/
def liveWithin (p : Page) : Prop := ∀ i < numSlots p, slotLive p i → slotOK p i

/-- What compact actually establishes from a valid page: free_start does
not exceed free_end, live slots stay within the payload region, but
free_end is set to 4096 - 4 * deadCount (the source computes
PAGE_SIZE - (num_slots - live_count) * SLOT_ENTRY_SIZE), which equals
4096 - 4 * num_slots only when every slot is deleted. -/
def compactPost (p : Page) : RustResult Page → Prop
  | .panic => False
  | .ok p' => freeStart p' ≤ freeEnd p' ∧ liveWithin p' ∧
      freeEnd p' = 4096 - 4 * deadCount p

/-- C1 (amended): from a page satisfying the validity invariant, insert,
delete, and update-that-does-not-internally-compact preserve the full
invariant (hence free_start ≤ free_end, free_end = 4096 − 4·num_slots and
live-slot containment); compact preserves free_start ≤ free_end and
containment but sets free_end to 4096 − 4·deadCount, violating
free_end = 4096 − 4·num_slots whenever a live slot remains. -/
theorem C1_invariant_preservation :
    (∀ p t, Valid p → bytesOk t → pagePostIns Valid (spInsert p t)) ∧
    (∀ p s, Valid p → pagePostB Valid (spDelete p s)) ∧
    (∀ p s t, Valid p → bytesOk t → ¬ updTriggersCompact p s t →
      pagePostB Valid (spUpdate p s t)) ∧
    (∀ p, Valid p → compactPost p (spCompact p)) := by
  refine ⟨fun p t hv ht => spInsert_valid hv ht,
          fun p s hv => spDelete_valid s hv,
          fun p s t hv ht hnc => spUpdate_valid hv ht hnc,
          fun p hv => ?_⟩
  obtain ⟨p', hrun, hns', hfs', hfsle, hfe', hlefe, hread, hliveiff, hsok, hbp⟩ :=
    spCompact_spec hv
  unfold compactPost
  rw [hrun]
  refine ⟨hlefe, ?_, hfe'⟩
  intro i hi hl
  rw [hns'] at hi
  exact hsok i hi hl

/-- The page obtained by init followed by inserting one byte 42. -/
def c1page : Page :=
  match spInsert (initPage zeroPage) [42] with
  | .ok (p, _) => p
  | .panic => zeroPage

/-- The page after compacting c1page. -/
def c1res : Page :=
  match spCompact c1page with
  | .ok p => p
  | .panic => zeroPage

/-- The page c1page is a reachable, fully valid slotted page. -/
theorem c1page_valid : Valid c1page := by
  have hvin := Valid_initPage bounded_zeroPage
  have hfit : freeStart (initPage zeroPage) + (1 : Nat) + 4 ≤ freeEnd (initPage zeroPage) := by
    rw [freeStart_initPage, freeEnd_initPage]
    omega
  obtain ⟨p', hrun, _, _, _, _, _, _, _, hv'⟩ :=
    @spInsert_ok_spec (initPage zeroPage) hvin [42] (by decide) hfit
  have hc1 : c1page = p' := by
    unfold c1page
    rw [hrun]
  exact hc1 ▸ hv'

/-- Counterexample to C1 as stated: c1page is a reachable page satisfying
the header invariant (indeed full validity), yet after compact (with its
one live slot and no deleted slot) free_end is 4096 while
4096 − 4·num_slots = 4092: the claimed invariant fails after compact. -/
theorem C1_counterexample :
    Valid c1page ∧ numSlots c1res = 1 ∧ freeEnd c1res = 4096 ∧
      ¬ (freeEnd c1res = 4096 - 4 * numSlots c1res) :=
  ⟨c1page_valid, by decide, by decide, by decide⟩

/-- Witness for the amended C1 at concrete inputs: a one-tuple valid page
goes through delete with the invariant intact. -/
theorem C1_invariant_preservation_witness : pagePostB Valid (spDelete c1page 0) :=
  C1_invariant_preservation.2.1 c1page 0 c1page_valid

/-- True when a compact call returned normally. -/
def isOkC : RustResult Page → Bool
  | .ok _ => true
  | .panic => false

/-- The page obtained by init followed by inserting the five bytes
[7, 8, 9, 10, 11]. -/
def c2page : Page :=
  match spInsert (initPage zeroPage) [7, 8, 9, 10, 11] with
  | .ok (p, _) => p
  | .panic => zeroPage

/-- The page after compacting c2page. -/
def c2res : Page :=
  match spCompact c2page with
  | .ok p => p
  | .panic => zeroPage

/-- The page c2page is a reachable, fully valid slotted page. -/
theorem c2page_valid : Valid c2page := by
  have hvin := Valid_initPage bounded_zeroPage
  have hfit : freeStart (initPage zeroPage) + (5 : Nat) + 4 ≤ freeEnd (initPage zeroPage) := by
    rw [freeStart_initPage, freeEnd_initPage]
    omega
  obtain ⟨p', hrun, _, _, _, _, _, _, _, hv'⟩ :=
    @spInsert_ok_spec (initPage zeroPage) hvin [7, 8, 9, 10, 11] (by decide) hfit
  have hc2 : c2page = p' := by
    unfold c2page
    rw [hrun]
  exact hc2 ▸ hv'

/-- C2, evaluation at the failing input: on the valid one-live-tuple page
c2page (num_slots = 1, deleted_count = 0), compact() completes, keeps
num_slots and the readable tuple, sets free_start to 6 + 5 = 11, but sets
free_end to 4096, not the claimed 4096 − 4·(num_slots − deleted_count)
= 4092: the source computes PAGE_SIZE − (num_slots − live_count)·4,
i.e. 4096 − 4·deleted_count. -/
theorem C2_compact_free_end_eval :
    Valid c2page ∧ numSlots c2page = 1 ∧ deadCount c2page = 0 ∧
      isOkC (spCompact c2page) = true ∧
      numSlots c2res = 1 ∧ freeStart c2res = 11 ∧
      spRead c2res 0 = .ok (some [7, 8, 9, 10, 11]) ∧
      freeEnd c2res = 4096 ∧
      ¬ (freeEnd c2res = 4096 - 4 * (numSlots c2page - deadCount c2page)) :=
  ⟨c2page_valid, by decide, by decide, by decide, by decide, by decide, by decide,
    by decide, by decide⟩

/-! ### Claim C4: the insert space check -/

/-- True when an insert call returned None (no space). -/
def isNoSpace : RustResult (Page × Option Nat) → Bool
  | .ok (_, none) => true
  | _ => false

/-- True when an insert call panicked. -/
def isPanicIns : RustResult (Page × Option Nat) → Bool
  | .panic => true
  | _ => false

/-- C4 (amended): the space check agrees with the natural-number reading
free_start + |payload| + 4 > free_end whenever that sum stays below 2^16
(the source computes it in u16, so need and the comparison wrap above
that); and on a freshly initialized page every payload length strictly
between 4086 and 65526 is refused with None (longer payloads wrap the
u16 check or fail the slice bounds and panic instead). -/
theorem C4_insert_none_iff :
    (∀ p t, freeStart p + t.length + 4 < 65536 →
      (isNoSpace (spInsert p t) = true ↔
        freeEnd p < freeStart p + t.length + 4)) ∧
    (∀ l, 4086 < l → l < 65526 →
      isNoSpace (spInsert (initPage zeroPage) (List.replicate l 0)) = true) := by
  constructor
  · intro p t hnw
    have hl : t.length % 65536 = t.length := Nat.mod_eq_of_lt (by omega)
    have hneed : (t.length % 65536 + 4) % 65536 = t.length + 4 := by
      rw [hl]
      exact Nat.mod_eq_of_lt (by omega)
    have hsum : (freeStart p + (t.length % 65536 + 4) % 65536) % 65536
        = freeStart p + t.length + 4 := by
      rw [hneed]
      rw [Nat.mod_eq_of_lt (by omega)]
      omega
    constructor
    · intro hns
      by_contra hc
      push_neg at hc
      have hcond : ¬ ((freeStart p + (t.length % 65536 + 4) % 65536) % 65536 > freeEnd p) := by
        rw [hsum]
        omega
      unfold spInsert at hns
      rw [if_neg hcond] at hns
      by_cases h2 : 4096 < freeStart p + t.length
      · rw [if_pos h2] at hns
        simp [isNoSpace] at hns
      · rw [if_neg h2] at hns
        by_cases h3 : 1024 ≤ numSlots p
        · rw [if_pos h3] at hns
          simp [isNoSpace] at hns
        · rw [if_neg h3] at hns
          simp [isNoSpace] at hns
    · intro hgt
      rw [spInsert_none (by rw [hsum]; omega)]
      rfl
  · intro l h1 h2
    have h : ∀ t : List Nat, t.length = l →
        isNoSpace (spInsert (initPage zeroPage) t) = true := by
      intro t ht
      have hcond : (freeStart (initPage zeroPage) +
          (t.length % 65536 + 4) % 65536) % 65536 > freeEnd (initPage zeroPage) := by
        rw [freeStart_initPage, freeEnd_initPage, ht]
        rw [Nat.mod_eq_of_lt (by omega : l < 65536)]
        rw [Nat.mod_eq_of_lt (by omega : l + 4 < 65536)]
        rw [Nat.mod_eq_of_lt (by omega : 6 + (l + 4) < 65536)]
        omega
      rw [spInsert_none hcond]
      rfl
    exact h _ (List.length_replicate l 0)

/-- Counterexample to C4 as stated: the payload of 65526 zero bytes has
length greater than 4086, yet insert on a freshly initialized page does
not return None: need wraps to 65530, 6 + 65530 wraps to 4 in u16, the
space check passes, and the byte copy panics on its slice bounds (in a
debug build the checked u16 addition panics at the same comparison). -/
theorem C4_counterexample :
    (List.replicate 65526 (0 : Nat)).length = 65526 ∧
      isNoSpace (spInsert (initPage zeroPage) (List.replicate 65526 0)) = false ∧
      isPanicIns (spInsert (initPage zeroPage) (List.replicate 65526 0)) = true := by
  have h : ∀ t : List Nat, t.length = 65526 →
      isNoSpace (spInsert (initPage zeroPage) t) = false ∧
      isPanicIns (spInsert (initPage zeroPage) t) = true := by
    intro t ht
    have hcond : ¬ ((freeStart (initPage zeroPage) +
        (t.length % 65536 + 4) % 65536) % 65536 > freeEnd (initPage zeroPage)) := by
      rw [freeStart_initPage, freeEnd_initPage, ht]
      norm_num
    have h2 : 4096 < freeStart (initPage zeroPage) + t.length := by
      rw [freeStart_initPage, ht]
      omega
    unfold spInsert
    rw [if_neg hcond, if_pos h2]
    exact ⟨rfl, rfl⟩
  have hlen : (List.replicate 65526 (0 : Nat)).length = 65526 :=
    List.length_replicate 65526 0
  exact ⟨hlen, (h _ hlen).1, (h _ hlen).2⟩

/-- Witness for the amended C4: the no-wrap equivalence instantiated on a
fresh page with a three-byte payload, and the None band at length 5000. -/
theorem C4_insert_none_iff_witness :
    (isNoSpace (spInsert (initPage zeroPage) [1, 2, 3]) = true ↔
      freeEnd (initPage zeroPage) < freeStart (initPage zeroPage) + [1, 2, 3].length + 4) ∧
    isNoSpace (spInsert (initPage zeroPage) (List.replicate 5000 0)) = true :=
  ⟨C4_insert_none_iff.1 (initPage zeroPage) [1, 2, 3] (by decide),
   C4_insert_none_iff.2 5000 (by decide) (by decide)⟩

/-! ### Claim C3: stability of untouched slots -/

theorem spRead_ok_inv {p : Page} {s : Nat} {b : List Nat}
    (h : spRead p s = .ok (some b)) :
    s < numSlots p ∧ s < 1024 ∧ slotLive p s ∧
      (readSlot p s).1 + (readSlot p s).2 ≤ 4096 ∧
      b = readBytes p (readSlot p s).1 (readSlot p s).2 := by
  unfold spRead at h
  by_cases h1 : numSlots p ≤ s
  · rw [if_pos h1] at h
    exact absurd h (by simp)
  · rw [if_neg h1] at h
    by_cases h2 : 1024 ≤ s
    · rw [if_pos h2] at h
      exact absurd h (by simp)
    · rw [if_neg h2] at h
      simp only [] at h
      by_cases h3 : (readSlot p s).2 = INVALID_SLOT
      · rw [if_pos h3] at h
        exact absurd h (by simp)
      · rw [if_neg h3] at h
        by_cases h4 : 4096 < (readSlot p s).1 + (readSlot p s).2
        · rw [if_pos h4] at h
          exact absurd h (by simp)
        · rw [if_neg h4] at h
          have hb : b = readBytes p (readSlot p s).1 (readSlot p s).2 := by
            have := h
            simp only [RustResult.ok.injEq, Option.some.injEq] at this
            exact this.symm
          exact ⟨by omega, by omega, h3, by omega, hb⟩

/-- A single slotted-page operation, as used by the frame claim. -/
inductive SPOp where
  | ins (t : List Nat)
  | del (i : Nat)
  | upd (i : Nat) (t : List Nat)

/-- Run one operation, keeping only the page. -/
def applyOp (p : Page) : SPOp → RustResult Page
  | .ins t =>
    match spInsert p t with
    | .panic => .panic
    | .ok (p', _) => .ok p'
  | .del i =>
    match spDelete p i with
    | .panic => .panic
    | .ok (p', _) => .ok p'
  | .upd i t =>
    match spUpdate p i t with
    | .panic => .panic
    | .ok (p', _) => .ok p'

/-- Run a sequence of operations left to right. -/
def execSeq (p : Page) : List SPOp → RustResult Page
  | [] => .ok p
  | op :: rest =>
    match applyOp p op with
    | .panic => .panic
    | .ok p' => execSeq p' rest

/-- Safety of one operation with respect to a protected slot s: the
operation does not take s as its slot argument, payloads are byte
strings, and an update does not trigger the internal compaction. -/
def opSafe (s : Nat) (p : Page) : SPOp → Prop
  | .ins t => bytesOk t
  | .del i => i ≠ s
  | .upd i t => i ≠ s ∧ bytesOk t ∧ ¬ updTriggersCompact p i t

/-- Safety of a whole sequence, checked at the states it actually
reaches. -/
def SafeSeq (s : Nat) (p : Page) : List SPOp → Prop
  | [] => True
  | op :: rest =>
    opSafe s p op ∧
    match applyOp p op with
    | .panic => True
    | .ok p' => SafeSeq s p' rest

/-- Read-stability post predicate for a sequence result. -/
def readPresPost (s : Nat) (b : List Nat) : RustResult Page → Prop
  | .panic => True
  | .ok p' => spRead p' s = .ok (some b)

/-- One safe operation preserves validity and the protected slot's read. -/
theorem stepPreserves {p p' : Page} {s : Nat} {b : List Nat} {op : SPOp}
    (hv : Valid p) (hr : spRead p s = .ok (some b)) (hsafe : opSafe s p op)
    (happ : applyOp p op = .ok p') : Valid p' ∧ spRead p' s = .ok (some b) := by
  obtain ⟨hslt, hs1024, hslive, hsbound, hbval⟩ := spRead_ok_inv hr
  have hsok := hv.2.2.2.2.1 s hslt hslive
  unfold slotOK at hsok
  cases op with
  | ins t =>
    simp only [opSafe] at hsafe
    simp only [applyOp] at happ
    by_cases h1 : (freeStart p + (t.length % 65536 + 4) % 65536) % 65536 > freeEnd p
    · rw [spInsert_none h1] at happ
      simp only [RustResult.ok.injEq] at happ
      subst happ
      exact ⟨hv, hr⟩
    · by_cases h2 : 4096 < freeStart p + t.length
      · unfold spInsert at happ
        rw [if_neg h1, if_pos h2] at happ
        exact absurd happ (by simp)
      · have hvk := hv
        obtain ⟨hbd, h6, hle, heq, _, _⟩ := hvk
        have hfe : freeEnd p ≤ 4096 := by omega
        have hfit : freeStart p + t.length + 4 ≤ freeEnd p := by
          have hl : t.length % 65536 = t.length := Nat.mod_eq_of_lt (by omega)
          rw [hl] at h1
          rw [Nat.mod_eq_of_lt (by omega : t.length + 4 < 65536)] at h1
          rw [Nat.mod_eq_of_lt (by omega : freeStart p + (t.length + 4) < 65536)] at h1
          omega
        obtain ⟨p2, hrun, hfs2, hfe2, hns2, hnew2, hold2, hdata2, hpay2, hv2⟩ :=
          spInsert_ok_spec hv hsafe hfit
        rw [hrun] at happ
        simp only [RustResult.ok.injEq] at happ
        rw [← happ]
        refine ⟨hv2, ?_⟩
        have hent : readSlot p2 s = readSlot p s := hold2 s hslt
        have hlive2 : slotLive p2 s := by
          unfold slotLive
          rw [hent]
          exact hslive
        rw [spRead_live (by omega) (by omega) hlive2 (by rw [hent]; omega), hent,
            hdata2 _ _ hsok.1 hsok.2, hbval]
  | del i =>
    simp only [opSafe] at hsafe
    simp only [applyOp] at happ
    rcases Nat.lt_or_ge i (numSlots p) with hi | hi
    · have hi1024 : i < 1024 := by
        have := hv.ns_le
        omega
      by_cases hl : slotLive p i
      · obtain ⟨p2, hrun, hfs2, hfe2, hns2, hself2, hother2, hdata2, hv2⟩ :=
          spDelete_ok_spec hv hi hl
        rw [hrun] at happ
        simp only [RustResult.ok.injEq] at happ
        rw [← happ]
        refine ⟨hv2, ?_⟩
        have hent : readSlot p2 s = readSlot p s := hother2 s (by omega) hslt
        have hlive2 : slotLive p2 s := by
          unfold slotLive
          rw [hent]
          exact hslive
        rw [spRead_live (by rw [hns2]; omega) (by omega) hlive2 (by rw [hent]; omega),
            hent, hdata2 _ _ hsok.1 hsok.2, hbval]
      · rw [spDelete_dead hi hi1024 hl] at happ
        simp only [RustResult.ok.injEq] at happ
        subst happ
        exact ⟨hv, hr⟩
    · rw [spDelete_oob hi] at happ
      simp only [RustResult.ok.injEq] at happ
      subst happ
      exact ⟨hv, hr⟩
  | upd i t =>
    simp only [opSafe] at hsafe
    obtain ⟨hine, hbytes, hnc⟩ := hsafe
    simp only [applyOp] at happ
    rcases Nat.lt_or_ge i (numSlots p) with hi | hi
    · have hi1024 : i < 1024 := by
        have := hv.ns_le
        omega
      by_cases hl : slotLive p i
      · have hiok := hv.2.2.2.2.1 i hi hl
        unfold slotOK at hiok
        have hdisj := hv.2.2.2.2.2 i hi s hslt hine hl hslive
        unfold disjointR at hdisj
        by_cases hsh : t.length % 65536 ≤ (readSlot p i).2
        · by_cases hpan : 4096 < (readSlot p i).1 + t.length
          · unfold slotLive at hl
            unfold spUpdate at happ
            rw [if_neg (by omega), if_neg (by omega), if_neg (by simpa using hl),
                if_pos hsh, if_pos hpan] at happ
            exact absurd happ (by simp)
          · have hreal : t.length ≤ (readSlot p i).2 := by
              have hlb : (readSlot p i).2 < 65536 := by
                have hbd := hv.1
                have hns2 := hv.ns_le
                have h21 : i ≤ 1021 := by omega
                have := slotOff_le i h21
                exact bounded_readU16 hbd (by omega)
              have := Nat.mod_eq_of_lt (by omega : t.length % 65536 < 65536)
              by_cases hbig : t.length < 65536
              · rw [Nat.mod_eq_of_lt hbig] at hsh
                exact hsh
              · omega
            obtain ⟨p2, hrun, hfs2, hfe2, hns2, hself2, hother2, hdata2, hpay2, hv2⟩ :=
              spUpdate_inplace_spec hv hi hl hreal
            rw [hrun] at happ
            simp only [RustResult.ok.injEq] at happ
            rw [← happ]
            refine ⟨hv2 hbytes, ?_⟩
            have hent : readSlot p2 s = readSlot p s := hother2 s (by omega) hslt
            have hlive2 : slotLive p2 s := by
              unfold slotLive
              rw [hent]
              exact hslive
            rw [spRead_live (by rw [hns2]; omega) (by omega) hlive2 (by rw [hent]; omega),
                hent, hdata2 _ _ hsok.1 hsok.2 (by omega), hbval]
        · have hfree : t.length ≤ largestFree p := by
            unfold updTriggersCompact at hnc
            push_neg at hnc
            exact hnc hi hl (by omega)
          have hfit : freeStart p + t.length ≤ freeEnd p := by
            have hle := hv.2.2.1
            unfold largestFree at hfree
            rw [if_pos (by omega)] at hfree
            omega
          rw [spUpdate_grow_eq hi hi1024 hl (by omega) hfree] at happ
          obtain ⟨p2, hrun, hfs2, hfe2, hns2, hself2, hother2, hdata2, hpay2, hv2⟩ :=
            spUpdatePlace_spec hv hi hfit
          rw [hrun] at happ
          simp only [RustResult.ok.injEq] at happ
          rw [← happ]
          refine ⟨hv2 hbytes, ?_⟩
          have hent : readSlot p2 s = readSlot p s := hother2 s (by omega) hslt
          have hlive2 : slotLive p2 s := by
            unfold slotLive
            rw [hent]
            exact hslive
          rw [spRead_live (by rw [hns2]; omega) (by omega) hlive2 (by rw [hent]; omega),
              hent, hdata2 _ _ hsok.1 hsok.2, hbval]
      · rw [spUpdate_dead t hi hi1024 hl] at happ
        simp only [RustResult.ok.injEq] at happ
        subst happ
        exact ⟨hv, hr⟩
    · rw [spUpdate_oob t hi] at happ
      simp only [RustResult.ok.injEq] at happ
      subst happ
      exact ⟨hv, hr⟩

/-- C3 (amended): from a valid page, a slot's read is unchanged by any
sequence of insert, delete and update operations that never takes that
slot as argument and never triggers the internal compaction of
update (compact itself, and updates that compact, can move and corrupt
other slots because compact raises free_end past the slot directory;
see the counterexample). -/
theorem C3_untouched_slot_stable (ops : List SPOp) :
    ∀ (p : Page) (s : Nat) (b : List Nat), Valid p → spRead p s = .ok (some b) →
      SafeSeq s p ops → readPresPost s b (execSeq p ops) := by
  induction ops with
  | nil =>
    intro p s b hv hr hsafe
    unfold execSeq readPresPost
    exact hr
  | cons op rest ih =>
    intro p s b hv hr hsafe
    obtain ⟨hop, hrest⟩ := hsafe
    unfold execSeq
    cases happ : applyOp p op with
    | panic =>
      unfold readPresPost
      trivial
    | ok p' =>
      obtain ⟨hv', hr'⟩ := stepPreserves hv hr hop happ
      rw [happ] at hrest
      exact ih p' s b hv' hr' hrest

/-- A valid page holding two one-byte tuples [10] (slot 0) and [20]
(slot 1). -/
def c3page : Page :=
  match spInsert (initPage zeroPage) [10] with
  | .panic => zeroPage
  | .ok (p1, _) =>
    match spInsert p1 [20] with
    | .panic => zeroPage
    | .ok (p2, _) => p2

/-- c3page after compact (which raises free_end to 4096, past the two
live directory entries). -/
def c3comp : Page :=
  match spCompact c3page with
  | .panic => zeroPage
  | .ok p => p

/-- The page resulting from an insert call (the zero page if it
panicked). -/
def insPageOf (r : RustResult (Page × Option Nat)) : Page :=
  match r with
  | .panic => zeroPage
  | .ok (p, _) => p

/-- c3comp after inserting a 4084-byte payload of byte 65, which the
inflated free_end admits; the copied bytes overwrite slot 1's directory
entry. -/
def c3after : Page := insPageOf (spInsert c3comp (List.replicate 4084 65))

/-- The page c3page is a reachable, fully valid slotted page. -/
theorem c3page_valid : Valid c3page := by
  have hvin := Valid_initPage bounded_zeroPage
  have hfit1 : freeStart (initPage zeroPage) + (1 : Nat) + 4 ≤ freeEnd (initPage zeroPage) := by
    rw [freeStart_initPage, freeEnd_initPage]
    omega
  obtain ⟨p1, hrun1, hfs1, hfe1, _, _, _, _, _, hv1⟩ :=
    @spInsert_ok_spec (initPage zeroPage) hvin [10] (by decide) hfit1
  have hfit2 : freeStart p1 + (1 : Nat) + 4 ≤ freeEnd p1 := by
    rw [hfs1, hfe1, freeStart_initPage, freeEnd_initPage]
    simp only [List.length_cons, List.length_nil]
    omega
  obtain ⟨p2, hrun2, _, _, _, _, _, _, _, hv2⟩ :=
    @spInsert_ok_spec p1 hv1 [20] (by decide) hfit2
  have hc3 : c3page = p2 := by
    simp only [c3page, hrun1, hrun2]
  exact hc3 ▸ hv2

/-- Inserting any 4084-byte payload of byte 65 into c3comp is accepted
(the inflated free_end 4096 admits it), and the copy overwrites slot 1's
directory entry with payload bytes, leaving entry (0x4141, 0x4141), so a
subsequent read of slot 1 panics on the slice bound. -/
theorem c3_insert_big :
    ∀ t : List Nat, t.length = 4084 → (∀ k, k < 4084 → t.getD k 0 = 65) →
    isNoSpace (spInsert c3comp t) = false ∧
    isPanicIns (spInsert c3comp t) = false ∧
    readSlot (insPageOf (spInsert c3comp t)) 1 = (16705, 16705) ∧
    spRead (insPageOf (spInsert c3comp t)) 1 = .panic := by
  intro t ht hbyte
  have fs3 : freeStart c3comp = 8 := by decide
  have fe3 : freeEnd c3comp = 4096 := by decide
  have ns3 : numSlots c3comp = 2 := by decide
  have cond1 : ¬ ((freeStart c3comp + (t.length % 65536 + 4) % 65536) % 65536
      > freeEnd c3comp) := by
    rw [fs3, fe3, ht]
    norm_num
  have cond2 : ¬ (4096 < freeStart c3comp + t.length) := by
    rw [fs3, ht]
    omega
  have cond3 : ¬ (1024 ≤ numSlots c3comp) := by
    rw [ns3]
    omega
  set P := writeSlot (setFreeEnd (setNumSlots (setFreeStart
    (writeBytes c3comp (freeStart c3comp) t)
    ((freeStart c3comp + t.length % 65536) % 65536)) ((numSlots c3comp + 1) % 65536))
    ((freeEnd c3comp + 65536 - 4) % 65536)) (numSlots c3comp) (freeStart c3comp)
    (t.length % 65536) with hPdef
  have hins : spInsert c3comp t = .ok (P, some (numSlots c3comp)) := by
    unfold spInsert
    rw [if_neg cond1, if_neg cond2, if_neg cond3]
  have hentry : readSlot P 1 = (16705, 16705) := by
    rw [hPdef, ns3, fs3, readSlot_writeSlot_ne _ _ _ (by omega) (by omega) (by omega)]
    unfold setFreeEnd setNumSlots setFreeStart
    rw [readSlot_writeU16_header _ _ (by omega) (by omega),
        readSlot_writeU16_header _ _ (by omega) (by omega),
        readSlot_writeU16_header _ _ (by omega) (by omega)]
    have hso : slotOff 1 = 4088 := by decide
    unfold readSlot readU16
    rw [hso]
    rw [writeBytes_in _ _ (by omega) (by omega), writeBytes_in _ _ (by omega) (by omega),
        writeBytes_in _ _ (by omega) (by omega), writeBytes_in _ _ (by omega) (by omega)]
    have h1 : (4088 : Nat) - 8 = 4080 := by omega
    have h2 : (4088 + 1 : Nat) - 8 = 4081 := by omega
    have h3 : (4088 + 2 : Nat) - 8 = 4082 := by omega
    have h4 : (4088 + 2 + 1 : Nat) - 8 = 4083 := by omega
    rw [h1, h2, h3, h4, hbyte 4080 (by omega), hbyte 4081 (by omega),
        hbyte 4082 (by omega), hbyte 4083 (by omega)]
  have hnsP : numSlots P = 3 := by
    rw [hPdef, ns3, numSlots_writeSlot _ _ _ (by omega), numSlots_setFreeEnd,
        numSlots_setNumSlots]
  have hlivP : slotLive P 1 := by
    unfold slotLive INVALID_SLOT
    rw [hentry]
    omega
  have hread : spRead P 1 = .panic := by
    apply spRead_range_panic (by omega) (by omega) hlivP
    rw [hentry]
    omega
  refine ⟨?_, ?_, ?_, ?_⟩
  · rw [hins]
    rfl
  · rw [hins]
    rfl
  · rw [hins]
    show readSlot P 1 = (16705, 16705)
    exact hentry
  · rw [hins]
    show spRead P 1 = RustResult.panic
    exact hread

/-- Counterexample to C3 as stated: on the valid page c3page, slot 1
reads [20]; the sequence compact() then insert (neither of which takes
slot 1 as an argument) leaves slot 1's read changed - its directory
entry now holds payload bytes 65, making read(1) panic on the slice
bound (offset = length = 0x4141 = 16705). -/
theorem C3_counterexample :
    Valid c3page ∧ spRead c3page 1 = .ok (some [20]) ∧
      isOkC (spCompact c3page) = true ∧
      isNoSpace (spInsert c3comp (List.replicate 4084 65)) = false ∧
      isPanicIns (spInsert c3comp (List.replicate 4084 65)) = false ∧
      readSlot c3after 1 = (16705, 16705) ∧
      spRead c3after 1 = .panic := by
  show _ ∧ _ ∧ _ ∧ _ ∧ _ ∧ readSlot (insPageOf (spInsert c3comp (List.replicate 4084 65))) 1 = (16705, 16705) ∧
    spRead (insPageOf (spInsert c3comp (List.replicate 4084 65))) 1 = RustResult.panic
  have hlen : (List.replicate 4084 (65 : Nat)).length = 4084 := List.length_replicate _ _
  have hbyte : ∀ k, k < 4084 → (List.replicate 4084 (65 : Nat)).getD k 0 = 65 := by
    intro k hk
    rw [List.getD_eq_getElem?_getD, List.getElem?_replicate]
    simp [hk]
  obtain ⟨ha1, ha2, ha3, ha4⟩ := c3_insert_big (List.replicate 4084 65) hlen hbyte
  exact ⟨c3page_valid, by decide, by decide, ha1, ha2, ha3, ha4⟩

/-- Witness for the amended C3: on c3page, slot 0 reads [10], and the
safe sequence [delete slot 1] leaves that read unchanged. -/
theorem C3_untouched_slot_stable_witness :
    readPresPost 0 [10] (execSeq c3page [SPOp.del 1]) :=
  C3_untouched_slot_stable [SPOp.del 1] c3page 0 [10] c3page_valid (by decide)
    ⟨show (1 : Nat) ≠ 0 by omega, trivial⟩

/-! ### Clock replacer (buffer_manager.rs) and claim C6 -/

/-- ClockReplacer state: a per-frame candidate slot (Some frame_id when
the frame is an eviction candidate) plus the rotating clock hand. -/
structure ClockReplacer where
  frames : List (Option Nat)
  clock_hand : Nat

/-- ClockReplacer::new - all slots empty, hand at 0. -/
def ClockReplacer.new (pool_size : Nat) : ClockReplacer :=
  ⟨List.replicate pool_size none, 0⟩

/-- The scan loop of ClockReplacer::victim, with the remaining iteration
count as fuel (the source iterates 0..2*len).  Returns the result and
the final clock hand.  Note the candidate slot is NOT cleared on a hit. -/
def victimGo (fs : List (Option Nat)) : Nat → Nat → Option Nat × Nat
  | hand, 0 => (none, hand)
  | hand, fuel + 1 =>
    match fs.getD hand none with
    | some id => (some id, (hand + 1) % fs.length)
    | none => victimGo fs ((hand + 1) % fs.length) fuel

/-- ClockReplacer::victim - scan up to 2*pool_size positions from the
hand and return the first candidate found, advancing the hand; the
slot array itself is left unchanged. -/
def ClockReplacer.victim (r : ClockReplacer) : Option Nat × ClockReplacer :=
  let res := victimGo r.frames r.clock_hand (2 * r.frames.length)
  (res.1, ⟨r.frames, res.2⟩)

/-- ClockReplacer::pin - clear the frame's candidate slot (callers always
pass an in-range frame index; out of range the source would panic). -/
def ClockReplacer.pin (r : ClockReplacer) (frame_id : Nat) : ClockReplacer :=
  ⟨r.frames.set frame_id none, r.clock_hand⟩

/-- ClockReplacer::unpin - mark the frame as a candidate. -/
def ClockReplacer.unpin (r : ClockReplacer) (frame_id : Nat) : ClockReplacer :=
  ⟨r.frames.set frame_id (some frame_id), r.clock_hand⟩

theorem victimGo_some_mem {fs : List (Option Nat)} :
    ∀ fuel hand id, (victimGo fs hand fuel).1 = some id → some id ∈ fs := by
  intro fuel
  induction fuel with
  | zero =>
    intro hand id h
    exact absurd h (by simp [victimGo])
  | succ n ih =>
    intro hand id h
    unfold victimGo at h
    cases hg : fs.getD hand none with
    | some v =>
      rw [hg] at h
      simp only [] at h
      have hv : v = id := by
        have := h
        simp at this
        exact this
      subst hv
      have hlt : hand < fs.length := by
        by_contra hc
        rw [List.getD_eq_default _ _ (by omega)] at hg
        exact absurd hg (by simp)
      rw [List.getD_eq_getElem _ _ hlt] at hg
      rw [← hg]
      exact List.getElem_mem hlt
    | none =>
      rw [hg] at h
      exact ih _ _ h

/-- DiskManager state over a fresh backing file: the page content of the
file (holes read as zeros), the file length in pages, and the num_pages
counter (0 on open). -/
structure Disk where
  content : Nat → Page
  filePages : Nat
  num_pages : Nat

/-- DiskManager::new on a fresh (empty, newly created) file. -/
def Disk.new : Disk := ⟨fun _ => zeroPage, 0, 0⟩

/-- Outcome of DiskManager::read_page: the page bytes, or a process
abort - the source calls .expect on seek and read_exact, so a short
read (page beyond end of file) or an I/O error panics instead of
returning the io::Result error. -/
inductive DiskOutcome where
  | panicked : DiskOutcome
  | ok : Page → DiskOutcome

/-- DiskManager::read_page - read_exact succeeds exactly when the file
extends past the requested page. -/
def readPage (d : Disk) (page_id : Nat) : DiskOutcome :=
  if page_id + 1 ≤ d.filePages then .ok (d.content page_id) else .panicked

/-- DiskManager::write_page - write the page at offset page_id * 4096
(growing the file), flush, and raise num_pages to
max(num_pages, page_id + 1). -/
def writePage (d : Disk) (page_id : Nat) (pg : Page) : Disk :=
  { content := fun q => if q = page_id then pg else d.content q,
    filePages := max d.filePages (page_id + 1),
    num_pages := max d.num_pages (page_id + 1) }

/-- DiskManager::allocate_page - pick id num_pages + 1, increment
num_pages, write a zero page at the new id (which raises num_pages
again, to the new id + 1). -/
def allocatePage (d : Disk) : Disk × Nat :=
  let new_page_id := d.num_pages + 1
  let d1 : Disk := { d with num_pages := d.num_pages + 1 }
  (writePage d1 new_page_id zeroPage, new_page_id)

/-- n successive allocate_page calls from a given disk state, returning
the final state and the returned ids in order. -/
def allocSeq (d : Disk) : Nat → Disk × List Nat
  | 0 => (d, [])
  | n + 1 =>
    let r := allocSeq d n
    let a := allocatePage r.1
    (a.1, r.2 ++ [a.2])

/-- C10: on a freshly opened disk manager with no interleaved external
writes, the k-th allocate_page call (0-indexed) returns page id 2k + 1,
i.e. ids 1, 3, 5, ...: allocate_page bumps num_pages by one and its
internal write_page then raises num_pages to the written id + 1, so
num_pages after n calls is 2n and every even id is skipped. -/
theorem C10_allocate_page_ids (n : Nat) :
    (allocSeq Disk.new n).2 = (List.range n).map (fun k => 2 * k + 1) ∧
      (allocSeq Disk.new n).1.num_pages = 2 * n := by
  induction n with
  | zero => exact ⟨rfl, rfl⟩
  | succ m ih =>
    obtain ⟨hids, hnum⟩ := ih
    constructor
    · show (allocSeq Disk.new m).2 ++ [(allocatePage (allocSeq Disk.new m).1).2]
        = (List.range (m + 1)).map (fun k => 2 * k + 1)
      rw [List.range_succ, List.map_append, hids]
      simp only [List.map_cons, List.map_nil, List.append_cancel_left_eq]
      show [(allocSeq Disk.new m).1.num_pages + 1] = [2 * m + 1]
      rw [hnum]
    · show (writePage _ ((allocSeq Disk.new m).1.num_pages + 1) zeroPage).num_pages = 2 * (m + 1)
      unfold writePage
      simp only []
      rw [hnum]
      omega

/-- Witness for C10: the first three allocations return 1, 3, 5. -/
theorem C10_allocate_page_ids_witness :
    (allocSeq Disk.new 3).2 = (List.range 3).map (fun k => 2 * k + 1) ∧
      (allocSeq Disk.new 3).1.num_pages = 2 * 3 :=
  C10_allocate_page_ids 3

/-! ### Buffer pool manager (buffer_manager.rs) -/

/-- A buffer pool frame: the held page id, the 4096-byte buffer, the
dirty flag and the pin count. -/
structure Frame where
  page_id : Nat
  data : Page
  is_dirty : Bool
  pin_count : Nat

/-- The zero-initialized frame of BufferPoolManager::new. -/
def defaultFrame : Frame := ⟨0, zeroPage, false, 0⟩

/-- BufferPoolManager state: the frame array, the page table, the clock
replacer, the owned disk manager, and the free list. -/
structure BPM where
  buffer_pool : List Frame
  page_table : Nat → Option Nat
  replacer : ClockReplacer
  disk : Disk
  free_list : List Nat

/-- HashMap::insert semantics on the page table. -/
def ptInsert (pt : Nat → Option Nat) (k v : Nat) : Nat → Option Nat :=
  fun q => if q = k then some v else pt q

/-- HashMap::remove semantics on the page table. -/
def ptRemove (pt : Nat → Option Nat) (k : Nat) : Nat → Option Nat :=
  fun q => if q = k then none else pt q

/-- BufferPoolManager::new - pool_size zeroed frames, empty page table,
empty replacer, free list 0..pool_size (a Vec popped from the back). -/
def BPM.new (pool_size : Nat) (disk : Disk) : BPM :=
  ⟨List.replicate pool_size defaultFrame, fun _ => none,
    ClockReplacer.new pool_size, disk, List.range pool_size⟩

/-- The tail of a fetch_page cache miss once a target frame is chosen:
read the page from disk (an unwrap panic on a short read), install it in
the frame with pin count 1, insert the page-table entry and pin the
frame in the replacer. -/
def fetchLoad (s : BPM) (frame_id page_id : Nat) : RustResult (Option Nat × BPM) :=
  match readPage s.disk page_id with
  | .panicked => .panic
  | .ok pg =>
    .ok (some frame_id,
      { s with
        buffer_pool := s.buffer_pool.set frame_id ⟨page_id, pg, false, 1⟩,
        page_table := ptInsert s.page_table page_id frame_id,
        replacer := s.replacer.pin frame_id })

/-- BufferPoolManager::fetch_page.  On a hit, bump the pin count and pin
the frame in the replacer.  On a miss, pop a free frame from the back of
the free list, or ask the replacer for a victim (writing the victim back
if dirty and removing its page-table entry); with no frame available
return None. -/
def fetchPage (s : BPM) (page_id : Nat) : RustResult (Option Nat × BPM) :=
  match s.page_table page_id with
  | some frame_id =>
    let fr := s.buffer_pool.getD frame_id defaultFrame
    .ok (some frame_id,
      { s with
        buffer_pool := s.buffer_pool.set frame_id { fr with pin_count := fr.pin_count + 1 },
        replacer := s.replacer.pin frame_id })
  | none =>
    match s.free_list.getLast? with
    | some frame_id =>
      fetchLoad { s with free_list := s.free_list.dropLast } frame_id page_id
    | none =>
      match s.replacer.victim with
      | (none, r1) => .ok (none, { s with replacer := r1 })
      | (some victim_id, r1) =>
        let vf := s.buffer_pool.getD victim_id defaultFrame
        let s1 := { s with replacer := r1 }
        let s2 := if vf.is_dirty
          then { s1 with disk := writePage s1.disk vf.page_id vf.data }
          else s1
        fetchLoad { s2 with page_table := ptRemove s2.page_table vf.page_id }
          victim_id page_id

/-- BufferPoolManager::unpin_page - false when the page is absent or
already unpinned; else decrement the pin count, OR the dirty hint in,
and when the pin count reaches zero make the frame an eviction
candidate. -/
def unpinPage (s : BPM) (page_id : Nat) (is_dirty : Bool) : Bool × BPM :=
  match s.page_table page_id with
  | some frame_id =>
    let fr := s.buffer_pool.getD frame_id defaultFrame
    if fr.pin_count > 0 then
      let fr1 : Frame := { fr with
        pin_count := fr.pin_count - 1,
        is_dirty := fr.is_dirty || is_dirty }
      let s1 := { s with buffer_pool := s.buffer_pool.set frame_id fr1 }
      if fr.pin_count - 1 = 0
        then (true, { s1 with replacer := s1.replacer.unpin frame_id })
        else (true, s1)
    else (false, s)
  | none => (false, s)

/-! ### Heap file (heap_file.rs) -/

/-- A tuple identifier: (page id, slot id). -/
structure TupleId where
  page_id : Nat
  slot_id : Nat
deriving DecidableEq

/-- HeapFile state: the shared buffer pool and the ordered page list. -/
structure HeapFile where
  pool : BPM
  pages : List Nat

/-- Outcome of the page-scan loop of HeapFile::insert_tuple. -/
inductive LoopOut where
  | found (tid : TupleId)
  | noFrame
  | exhausted

/-- The page-scan loop of HeapFile::insert_tuple: fetch each known page,
try a slotted insert, mark dirty and stop on success, unpin and continue
on a full page; a failed fetch aborts the whole call with None (the ?). -/
def insertLoop (data : List Nat) : BPM → List Nat → RustResult (LoopOut × BPM)
  | pool, [] => .ok (.exhausted, pool)
  | pool, pid :: rest =>
    match fetchPage pool pid with
    | .panic => .panic
    | .ok (none, pool1) => .ok (.noFrame, pool1)
    | .ok (some fid, pool1) =>
      let fr := pool1.buffer_pool.getD fid defaultFrame
      match spInsert fr.data data with
      | .panic => .panic
      | .ok (d1, sidOpt) =>
        let fr1 : Frame := { fr with data := d1, is_dirty := fr.is_dirty || sidOpt.isSome }
        let pool2 := { pool1 with buffer_pool := pool1.buffer_pool.set fid fr1 }
        let pool3 := (unpinPage pool2 pid sidOpt.isSome).2
        match sidOpt with
        | some sid => .ok (.found ⟨pid, sid⟩, pool3)
        | none => insertLoop data pool3 rest

/-- HeapFile::insert_tuple.  Scan the known pages; if none accepts the
tuple, allocate a fresh page id directly from the disk manager, fetch
it, init it as a slotted page and insert.  The inner `sp.insert(data)?`
returns None early on failure: in that path the freshly pinned frame is
neither unpinned nor is the page id appended to the page list. -/
def insertTuple (hf : HeapFile) (data : List Nat) : RustResult (Option TupleId × HeapFile) :=
  match insertLoop data hf.pool hf.pages with
  | .panic => .panic
  | .ok (.found tid, pool1) => .ok (some tid, ⟨pool1, hf.pages⟩)
  | .ok (.noFrame, pool1) => .ok (none, ⟨pool1, hf.pages⟩)
  | .ok (.exhausted, pool1) =>
    let ad := allocatePage pool1.disk
    let pool2 := { pool1 with disk := ad.1 }
    match fetchPage pool2 ad.2 with
    | .panic => .panic
    | .ok (none, pool3) => .ok (none, ⟨pool3, hf.pages⟩)
    | .ok (some fid, pool3) =>
      let fr := pool3.buffer_pool.getD fid defaultFrame
      match spInsert (initPage fr.data) data with
      | .panic => .panic
      | .ok (d1, none) =>
        .ok (none,
          ⟨{ pool3 with buffer_pool := pool3.buffer_pool.set fid { fr with data := d1 } },
            hf.pages⟩)
      | .ok (d1, some sid) =>
        let pool4 := { pool3 with
          buffer_pool := pool3.buffer_pool.set fid
            { fr with data := d1, is_dirty := true } }
        let pool5 := (unpinPage pool4 ad.2 true).2
        .ok (some ⟨ad.2, sid⟩, ⟨pool5, hf.pages ++ [ad.2]⟩)

/-- HeapFile::read_tuple - fetch the page, read the slot, copy out,
unpin clean. -/
def readTuple (hf : HeapFile) (tid : TupleId) : RustResult (Option (List Nat) × HeapFile) :=
  match fetchPage hf.pool tid.page_id with
  | .panic => .panic
  | .ok (none, pool1) => .ok (none, ⟨pool1, hf.pages⟩)
  | .ok (some fid, pool1) =>
    let fr := pool1.buffer_pool.getD fid defaultFrame
    match spRead fr.data tid.slot_id with
    | .panic => .panic
    | .ok dataOpt =>
      .ok (dataOpt, ⟨(unpinPage pool1 tid.page_id false).2, hf.pages⟩)

/-! ### Claim C8: disk errors panic instead of propagating -/

/-- True when read_page aborted the process. -/
def isPanickedRead : DiskOutcome → Bool
  | .panicked => true
  | .ok _ => false

/-- True when fetch_page aborted the process. -/
def isPanicFetch : RustResult (Option Nat × BPM) → Bool
  | .panic => true
  | .ok _ => false

/-- C8, evaluation at the failing input: read_page(0) on a freshly
opened empty database file hits a short read (the file holds no bytes),
and the source's .expect aborts the process instead of returning the
io::Result error; through the buffer pool, fetch_page of the same page
panics via .unwrap instead of surfacing a failure. -/
theorem C8_short_read_panics :
    isPanickedRead (readPage Disk.new 0) = true ∧
      isPanicFetch (fetchPage (BPM.new 1 Disk.new) 0) = true :=
  ⟨rfl, rfl⟩

/-! ### Pool well-formedness and the pin-leak invariant (claim C9) -/

theorem getD_set_self {α : Type} (l : List α) (i : Nat) (x d : α) (h : i < l.length) :
    (l.set i x).getD i d = x := by
  rw [List.getD_eq_getElem?_getD, List.getElem?_set_self (by omega)]
  rfl

theorem getD_set_ne {α : Type} (l : List α) {i j : Nat} (x d : α) (h : i ≠ j) :
    (l.set i x).getD j d = l.getD j d := by
  rw [List.getD_eq_getElem?_getD, List.getElem?_set_ne h, ← List.getD_eq_getElem?_getD]

/-- The frame at a given index (callers keep the index in range). -/
def frameOf (s : BPM) (fid : Nat) : Frame := s.buffer_pool.getD fid defaultFrame

/-- Well-formedness of a buffer pool state, maintained by the heap-file
operations: sizes agree, free frames are in range, unique and hold no
page, page-table entries point at in-range frames holding that page id
with ids the disk has allocated, candidate slots are self-indexed and
resident, and the file never extends past num_pages. -/
def WF (s : BPM) : Prop :=
  s.replacer.frames.length = s.buffer_pool.length ∧
  (∀ fid ∈ s.free_list, fid < s.buffer_pool.length) ∧
  s.free_list.Nodup ∧
  (∀ q fid, s.page_table q = some fid →
    fid < s.buffer_pool.length ∧ (frameOf s fid).page_id = q ∧ q ≤ s.disk.num_pages) ∧
  (∀ fid ∈ s.free_list, ∀ q, s.page_table q ≠ some fid) ∧
  (∀ i j, s.replacer.frames.getD i none = some j →
    j = i ∧ i < s.buffer_pool.length ∧ ∃ q, s.page_table q = some i) ∧
  s.disk.filePages ≤ s.disk.num_pages

/-- The protected-frame invariant of claim C9: the leaked page id is
resident in a frame with pin count exactly 1 which is not an eviction
candidate, and the id was allocated by the disk manager. -/
def PinnedPool (pid : Nat) (s : BPM) : Prop :=
  WF s ∧ pid ≤ s.disk.num_pages ∧
  ∃ fid, s.page_table pid = some fid ∧ (frameOf s fid).pin_count = 1 ∧
    s.replacer.frames.getD fid none = none

theorem WF_new (pool_size : Nat) : WF (BPM.new pool_size Disk.new) := by
  unfold WF BPM.new ClockReplacer.new Disk.new
  refine ⟨by simp, ?_, List.nodup_range pool_size, ?_, ?_, ?_, by simp⟩
  · intro fid hf
    simp only [List.length_replicate]
    exact List.mem_range.mp hf
  · intro q fid h
    exact absurd h (by simp)
  · intro fid hf q h
    exact absurd h (by simp)
  · intro i j h
    rw [List.getD_eq_getElem?_getD] at h
    rcases Nat.lt_or_ge i pool_size with hi | hi
    · rw [List.getElem?_eq_getElem (by simpa using hi)] at h
      simp at h
    · rw [List.getElem?_eq_none (by simpa using hi)] at h
      simp at h

theorem readPage_ok_inv {d : Disk} {q : Nat} {pg : Page}
    (h : readPage d q = .ok pg) : q + 1 ≤ d.filePages ∧ pg = d.content q := by
  unfold readPage at h
  by_cases hc : q + 1 ≤ d.filePages
  · rw [if_pos hc] at h
    have : d.content q = pg := by
      simpa using h
    exact ⟨hc, this.symm⟩
  · rw [if_neg hc] at h
    exact absurd h (by simp)

/-- Post-state of the fetchLoad tail of a cache miss, from a state whose
chosen target frame is in range, free of page-table entries, and not on
the free list. -/
theorem fetchLoad_post {s : BPM} {fid q : Nat} {r : Option Nat} {s2 : BPM}
    (hlen : s.replacer.frames.length = s.buffer_pool.length)
    (hfree : ∀ f ∈ s.free_list, f < s.buffer_pool.length)
    (hnodup : s.free_list.Nodup)
    (hpt : ∀ q2 f2, s.page_table q2 = some f2 →
      f2 < s.buffer_pool.length ∧ (frameOf s f2).page_id = q2 ∧ q2 ≤ s.disk.num_pages)
    (hfreept : ∀ f ∈ s.free_list, ∀ q2, s.page_table q2 ≠ some f)
    (hcand : ∀ i j, i ≠ fid → s.replacer.frames.getD i none = some j →
      j = i ∧ i < s.buffer_pool.length ∧ ∃ q2, s.page_table q2 = some i)
    (hfp : s.disk.filePages ≤ s.disk.num_pages)
    (hfid : fid < s.buffer_pool.length)
    (hfidfree : fid ∉ s.free_list)
    (hfidpt : ∀ q2, s.page_table q2 ≠ some fid)
    (hmiss : s.page_table q = none)
    (h : fetchLoad s fid q = .ok (r, s2)) :
    r = some fid ∧ WF s2 ∧
    s2.page_table q = some fid ∧
    frameOf s2 fid = ⟨q, s.disk.content q, false, 1⟩ ∧
    s2.replacer.frames.getD fid none = none ∧
    s2.disk = s.disk ∧ s2.free_list = s.free_list ∧
    s2.buffer_pool.length = s.buffer_pool.length ∧
    (∀ q2, q2 ≠ q → s2.page_table q2 = s.page_table q2) ∧
    (∀ f2, f2 ≠ fid → frameOf s2 f2 = frameOf s f2) ∧
    (∀ f2, f2 ≠ fid → s2.replacer.frames.getD f2 none = s.replacer.frames.getD f2 none) := by
  unfold fetchLoad at h
  cases hrp : readPage s.disk q with
  | panicked =>
    rw [hrp] at h
    exact absurd h (by simp)
  | ok pg =>
    rw [hrp] at h
    obtain ⟨hqfp, hpg⟩ := readPage_ok_inv hrp
    simp only [RustResult.ok.injEq, Prod.mk.injEq] at h
    obtain ⟨hr, hs2⟩ := h
    have hframe : frameOf s2 fid = ⟨q, pg, false, 1⟩ := by
      rw [← hs2]
      unfold frameOf
      simp only []
      exact getD_set_self _ _ _ _ hfid
    have hframe2 : ∀ f2, f2 ≠ fid → frameOf s2 f2 = frameOf s f2 := by
      intro f2 hf2
      rw [← hs2]
      unfold frameOf
      simp only []
      exact getD_set_ne _ _ _ (fun hc => hf2 hc.symm)
    have hptq : s2.page_table q = some fid := by
      rw [← hs2]
      unfold ptInsert
      simp
    have hpt2 : ∀ q2, q2 ≠ q → s2.page_table q2 = s.page_table q2 := by
      intro q2 hq2
      rw [← hs2]
      unfold ptInsert
      simp only [if_neg hq2]
    have hcand2 : s2.replacer.frames.getD fid none = none := by
      rw [← hs2]
      unfold ClockReplacer.pin
      simp only []
      exact getD_set_self _ _ _ _ (by omega)
    have hcand3 : ∀ f2, f2 ≠ fid →
        s2.replacer.frames.getD f2 none = s.replacer.frames.getD f2 none := by
      intro f2 hf2
      rw [← hs2]
      unfold ClockReplacer.pin
      simp only []
      exact getD_set_ne _ _ _ (fun hc => hf2 hc.symm)
    have hdisk : s2.disk = s.disk := by rw [← hs2]
    have hfree2 : s2.free_list = s.free_list := by rw [← hs2]
    have hblen : s2.buffer_pool.length = s.buffer_pool.length := by
      rw [← hs2]
      simp only []
      exact List.length_set _ _ _
    refine ⟨hr.symm, ?_, hptq, by rw [hframe, hpg], hcand2, hdisk, hfree2, hblen,
      hpt2, hframe2, hcand3⟩
    refine ⟨?_, ?_, ?_, ?_, ?_, ?_, ?_⟩
    · rw [← hs2]
      unfold ClockReplacer.pin
      simp only []
      rw [List.length_set, List.length_set]
      exact hlen
    · intro f hf
      rw [hfree2] at hf
      rw [hblen]
      exact hfree f hf
    · rw [hfree2]
      exact hnodup
    · intro q2 f2 hq2
      by_cases hq2q : q2 = q
      · subst hq2q
        rw [hptq] at hq2
        have hf2 : f2 = fid := by
          have := hq2
          simp at this
          omega
        subst hf2
        rw [hblen, hframe]
        refine ⟨hfid, rfl, ?_⟩
        rw [hdisk]
        omega
      · rw [hpt2 q2 hq2q] at hq2
        obtain ⟨h1, h2, h3⟩ := hpt q2 f2 hq2
        have hf2fid : f2 ≠ fid := by
          intro hc
          subst hc
          exact hfidpt q2 hq2
        rw [hblen, hframe2 f2 hf2fid, hdisk]
        exact ⟨h1, h2, h3⟩
    · intro f hf q2
      rw [hfree2] at hf
      by_cases hq2q : q2 = q
      · subst hq2q
        rw [hptq]
        intro hc
        have hffid : f = fid := by
          have := hc
          simp at this
          omega
        subst hffid
        exact hfidfree hf
      · rw [hpt2 q2 hq2q]
        exact hfreept f hf q2
    · intro i j hij
      by_cases hifid : i = fid
      · subst hifid
        rw [hcand2] at hij
        exact absurd hij (by simp)
      · rw [hcand3 i hifid] at hij
        obtain ⟨h1, h2, q2, h3⟩ := hcand i j hifid hij
        have hq2q : q2 ≠ q := by
          intro hc
          subst hc
          rw [hmiss] at h3
          exact absurd h3 (by simp)
        rw [hblen]
        refine ⟨h1, h2, q2, ?_⟩
        rw [hpt2 q2 hq2q]
        exact h3
    · rw [hdisk]
      exact hfp

theorem getLast?_none_nil {α : Type} {l : List α} (h : l.getLast? = none) : l = [] := by
  cases l with
  | nil => rfl
  | cons a t =>
    rw [List.getLast?_eq_getLast _ (by simp)] at h
    exact absurd h (by simp)

theorem getLast?_some_mem {α : Type} {l : List α} {a : α} (h : l.getLast? = some a) :
    a ∈ l := by
  have hne : l ≠ [] := by
    intro hc
    subst hc
    exact absurd h (by simp)
  rw [List.getLast?_eq_getLast _ hne] at h
  have ha : a = l.getLast hne := by
    have := h
    simp at this
    exact this.symm
  rw [ha]
  exact List.getLast_mem hne

theorem getLast?_not_mem_dropLast {α : Type} {l : List α} (hn : l.Nodup) {a : α}
    (h : l.getLast? = some a) : a ∉ l.dropLast := by
  have hne : l ≠ [] := by
    intro hc
    subst hc
    exact absurd h (by simp)
  have hdl : l.dropLast ++ [l.getLast hne] = l := List.dropLast_append_getLast hne
  rw [List.getLast?_eq_getLast _ hne] at h
  have ha : a = l.getLast hne := by
    have := h
    simp at this
    exact this.symm
  rw [← hdl, List.nodup_append] at hn
  intro hc
  exact hn.2.2 hc (by rw [ha]; exact List.mem_singleton_self _)

/-- Inserting a payload whose wrapped length falls in the no-fit band of
an empty page: insert bails out with None before touching the page. -/
theorem spInsert_initPage_band {b : Page} {t : List Nat}
    (h1 : 4087 ≤ t.length % 65536) (h2 : t.length % 65536 ≤ 65525) :
    spInsert (initPage b) t = .ok (initPage b, none) := by
  apply spInsert_none
  rw [freeStart_initPage, freeEnd_initPage]
  rw [Nat.mod_eq_of_lt (show t.length % 65536 + 4 < 65536 by omega)]
  rw [Nat.mod_eq_of_lt (by omega)]
  omega

/-- ClockReplacer::victim returning a frame: the returned id sits in a
candidate slot, and the slot array is unchanged. -/
theorem victim_some_cand {r : ClockReplacer} {vid : Nat} {r1 : ClockReplacer}
    (h : r.victim = (some vid, r1)) :
    some vid ∈ r.frames ∧ r1.frames = r.frames := by
  unfold ClockReplacer.victim at h
  simp only [Prod.mk.injEq] at h
  obtain ⟨h1, h2⟩ := h
  refine ⟨victimGo_some_mem _ _ _ h1, ?_⟩
  rw [← h2]

theorem mem_getD_of_mem {l : List (Option Nat)} {v : Nat} (h : some v ∈ l) :
    ∃ i, i < l.length ∧ l.getD i none = some v := by
  obtain ⟨i, hi, hg⟩ := List.getElem_of_mem h
  exact ⟨i, hi, by rw [List.getD_eq_getElem _ _ hi]; exact hg⟩

/-- fetch_page on a cache hit. -/
theorem fetchPage_hit {s : BPM} {q fid : Nat} (hq : s.page_table q = some fid) :
    fetchPage s q = .ok (some fid,
      { s with
        buffer_pool := s.buffer_pool.set fid
          { s.buffer_pool.getD fid defaultFrame with
            pin_count := (s.buffer_pool.getD fid defaultFrame).pin_count + 1 },
        replacer := s.replacer.pin fid }) := by
  unfold fetchPage
  rw [hq]

/-- fetch_page on a miss with a free frame available. -/
theorem fetchPage_missFree {s : BPM} {q f : Nat}
    (hq : s.page_table q = none) (hlast : s.free_list.getLast? = some f) :
    fetchPage s q = fetchLoad { s with free_list := s.free_list.dropLast } f q := by
  unfold fetchPage
  rw [hq, hlast]

/-- fetch_page on a miss with an empty free list and no victim. -/
theorem fetchPage_missNone {s : BPM} {q : Nat} {r1 : ClockReplacer}
    (hq : s.page_table q = none) (hlast : s.free_list.getLast? = none)
    (hvic : s.replacer.victim = (none, r1)) :
    fetchPage s q = .ok (none, { s with replacer := r1 }) := by
  unfold fetchPage
  rw [hq, hlast, hvic]

/-- fetch_page on a miss evicting a victim frame (writing it back first
when dirty). -/
theorem fetchPage_missVictim {s : BPM} {q vid : Nat} {r1 : ClockReplacer}
    (hq : s.page_table q = none) (hlast : s.free_list.getLast? = none)
    (hvic : s.replacer.victim = (some vid, r1)) :
    fetchPage s q = fetchLoad
      { buffer_pool := s.buffer_pool,
        page_table := ptRemove s.page_table (s.buffer_pool.getD vid defaultFrame).page_id,
        replacer := r1,
        disk := if (s.buffer_pool.getD vid defaultFrame).is_dirty
          then writePage s.disk (s.buffer_pool.getD vid defaultFrame).page_id
            (s.buffer_pool.getD vid defaultFrame).data
          else s.disk,
        free_list := s.free_list } vid q := by
  unfold fetchPage
  rw [hq, hlast, hvic]
  cases hd : (s.buffer_pool.getD vid defaultFrame).is_dirty with
  | true =>
    simp only [hd]
    simp
  | false =>
    simp only [hd]
    simp

theorem victim_frames {r : ClockReplacer} {v : Option Nat} {r1 : ClockReplacer}
    (h : r.victim = (v, r1)) : r1.frames = r.frames := by
  unfold ClockReplacer.victim at h
  simp only [Prod.mk.injEq] at h
  rw [← h.2]

/-- Post-state of a non-aborting fetch_page from a well-formed pool:
well-formedness is preserved, the disk only grows, a resident page other
than the requested one whose frame is not an eviction candidate keeps
its frame, pin count and non-candidate status; a hit bumps the pin count
by one and clears the candidate slot; a successful miss installs the
page with pin count 1 in a non-candidate frame. -/
theorem fetchPage_post {s : BPM} {q : Nat} {res : Option Nat} {s2 : BPM}
    (hwf : WF s) (h : fetchPage s q = .ok (res, s2)) :
    WF s2 ∧ s.disk.num_pages ≤ s2.disk.num_pages ∧
    (∀ pid fid, pid ≠ q → s.page_table pid = some fid →
        s.replacer.frames.getD fid none = none →
        s2.page_table pid = some fid ∧ frameOf s2 fid = frameOf s fid ∧
        s2.replacer.frames.getD fid none = none) ∧
    (∀ fid, s.page_table q = some fid →
        res = some fid ∧ s2.page_table q = some fid ∧
        frameOf s2 fid = { frameOf s fid with
          pin_count := (frameOf s fid).pin_count + 1 } ∧
        s2.replacer.frames.getD fid none = none) ∧
    (s.page_table q = none → ∀ f2, res = some f2 →
        s2.page_table q = some f2 ∧
        frameOf s2 f2 = ⟨q, s2.disk.content q, false, 1⟩ ∧
        s2.replacer.frames.getD f2 none = none) ∧
    (∀ f2, res = some f2 → s2.page_table q = some f2) := by
  obtain ⟨hlen, hfree, hnodup, hpt, hfreept, hcand, hfp⟩ := hwf
  cases hq : s.page_table q with
  | some fid0 =>
    rw [fetchPage_hit hq] at h
    simp only [RustResult.ok.injEq, Prod.mk.injEq] at h
    obtain ⟨hres, hs2⟩ := h
    have hfid0 : fid0 < s.buffer_pool.length := (hpt q fid0 hq).1
    have hfid0r : fid0 < s.replacer.frames.length := by rw [hlen]; exact hfid0
    have hptq : s2.page_table = s.page_table := by rw [← hs2]
    have hdisk : s2.disk = s.disk := by rw [← hs2]
    have hfl : s2.free_list = s.free_list := by rw [← hs2]
    have hframe0 : frameOf s2 fid0 = { frameOf s fid0 with
        pin_count := (frameOf s fid0).pin_count + 1 } := by
      rw [← hs2]
      unfold frameOf
      simp only []
      exact getD_set_self _ _ _ _ hfid0
    have hframeNe : ∀ f2, f2 ≠ fid0 → frameOf s2 f2 = frameOf s f2 := by
      intro f2 hf2
      rw [← hs2]
      unfold frameOf
      simp only []
      exact getD_set_ne _ _ _ (fun hc => hf2 hc.symm)
    have hslot0 : s2.replacer.frames.getD fid0 none = none := by
      rw [← hs2]
      unfold ClockReplacer.pin
      simp only []
      exact getD_set_self _ _ _ _ hfid0r
    have hslotNe : ∀ f2, f2 ≠ fid0 →
        s2.replacer.frames.getD f2 none = s.replacer.frames.getD f2 none := by
      intro f2 hf2
      rw [← hs2]
      unfold ClockReplacer.pin
      simp only []
      exact getD_set_ne _ _ _ (fun hc => hf2 hc.symm)
    have hblen : s2.buffer_pool.length = s.buffer_pool.length := by
      rw [← hs2]
      simp only []
      exact List.length_set _ _ _
    have hrlen : s2.replacer.frames.length = s.replacer.frames.length := by
      rw [← hs2]
      unfold ClockReplacer.pin
      simp only []
      exact List.length_set _ _ _
    have hne0 : ∀ pid fid, pid ≠ q → s.page_table pid = some fid → fid ≠ fid0 := by
      intro pid fid hpid hp hc
      subst hc
      have h1 := (hpt pid fid hp).2.1
      have h2 := (hpt q fid hq).2.1
      exact hpid (by rw [← h1, h2])
    refine ⟨⟨?_, ?_, ?_, ?_, ?_, ?_, ?_⟩, ?_, ?_, ?_, ?_, ?_⟩
    · rw [hrlen, hblen]
      exact hlen
    · intro f hf
      rw [hfl] at hf
      rw [hblen]
      exact hfree f hf
    · rw [hfl]
      exact hnodup
    · intro q2 f2 hq2
      rw [hptq] at hq2
      obtain ⟨h1, h2, h3⟩ := hpt q2 f2 hq2
      rw [hblen, hdisk]
      refine ⟨h1, ?_, h3⟩
      by_cases hc : f2 = fid0
      · subst hc
        rw [hframe0]
        exact h2
      · rw [hframeNe f2 hc]
        exact h2
    · intro f hf q2
      rw [hfl] at hf
      rw [hptq]
      exact hfreept f hf q2
    · intro i j hij
      by_cases hc : i = fid0
      · subst hc
        rw [hslot0] at hij
        exact absurd hij (by simp)
      · rw [hslotNe i hc] at hij
        obtain ⟨h1, h2, q2, h3⟩ := hcand i j hij
        rw [hblen, hptq]
        exact ⟨h1, h2, q2, h3⟩
    · rw [hdisk]
      exact hfp
    · rw [hdisk]
    · intro pid fid hpid hp hslotp
      have hne := hne0 pid fid hpid hp
      exact ⟨by rw [hptq]; exact hp, hframeNe fid hne,
        by rw [hslotNe fid hne]; exact hslotp⟩
    · intro fid hfid
      have hff : fid = fid0 := by
        have := hfid
        simp at this
        omega
      subst hff
      exact ⟨hres.symm, by rw [hptq]; exact hq, hframe0, hslot0⟩
    · intro hc
      exact absurd hc (by simp)
    · intro f2 hf2
      rw [← hres] at hf2
      have hff : f2 = fid0 := by
        have := hf2
        simp at this
        omega
      subst hff
      rw [hptq]
      exact hq
  | none =>
    cases hlast : s.free_list.getLast? with
    | some f =>
      rw [fetchPage_missFree hq hlast] at h
      set S1 : BPM := { s with free_list := s.free_list.dropLast } with hS1
      have hfmem : f ∈ s.free_list := getLast?_some_mem hlast
      have hfnd : f ∉ s.free_list.dropLast := getLast?_not_mem_dropLast hnodup hlast
      have hsub : List.Sublist s.free_list.dropLast s.free_list :=
        (List.dropLast_prefix s.free_list).sublist
      have hlen1 : S1.replacer.frames.length = S1.buffer_pool.length := hlen
      have hfree1 : ∀ x ∈ S1.free_list, x < S1.buffer_pool.length :=
        fun x hx => hfree x (hsub.subset hx)
      have hnodup1 : S1.free_list.Nodup := List.Nodup.sublist hsub hnodup
      have hpt1 : ∀ q2 f2, S1.page_table q2 = some f2 →
          f2 < S1.buffer_pool.length ∧ (frameOf S1 f2).page_id = q2 ∧
            q2 ≤ S1.disk.num_pages := hpt
      have hfreept1 : ∀ x ∈ S1.free_list, ∀ q2, S1.page_table q2 ≠ some x :=
        fun x hx => hfreept x (hsub.subset hx)
      have hcand1 : ∀ i j, i ≠ f → S1.replacer.frames.getD i none = some j →
          j = i ∧ i < S1.buffer_pool.length ∧ ∃ q2, S1.page_table q2 = some i :=
        fun i j _ hij => hcand i j hij
      have hfp1 : S1.disk.filePages ≤ S1.disk.num_pages := hfp
      have hfid1 : f < S1.buffer_pool.length := hfree f hfmem
      have hfidfree1 : f ∉ S1.free_list := hfnd
      have hfidpt1 : ∀ q2, S1.page_table q2 ≠ some f := hfreept f hfmem
      have hmiss1 : S1.page_table q = none := hq
      have post := fetchLoad_post hlen1 hfree1 hnodup1 hpt1 hfreept1 hcand1 hfp1
        hfid1 hfidfree1 hfidpt1 hmiss1 h
      obtain ⟨hr, hwf2, hptq, hframe, hslot, hdisk, hfl2, hblen, hptA, hfrA, hslA⟩ := post
      refine ⟨hwf2, ?_, ?_, ?_, ?_, ?_⟩
      · rw [hdisk]
      · intro pid fid hpid hp hslotp
        have hnef : fid ≠ f := by
          intro hc
          subst hc
          exact hfreept fid hfmem pid hp
        exact ⟨by rw [hptA pid hpid]; exact hp, hfrA fid hnef,
          by rw [hslA fid hnef]; exact hslotp⟩
      · intro fid hfid
        exact absurd hfid (by simp)
      · intro _ f2 hf2
        rw [hr] at hf2
        have hff : f2 = f := by
          have := hf2
          simp at this
          omega
        subst hff
        refine ⟨hptq, ?_, hslot⟩
        rw [hdisk]
        exact hframe
      · intro f2 hf2
        rw [hr] at hf2
        have hff : f2 = f := by
          have := hf2
          simp at this
          omega
        subst hff
        exact hptq
    | none =>
      have hfle : s.free_list = [] := getLast?_none_nil hlast
      cases hvic : s.replacer.victim with
      | mk vres r1 =>
        cases vres with
        | none =>
          rw [fetchPage_missNone hq hlast hvic] at h
          simp only [RustResult.ok.injEq, Prod.mk.injEq] at h
          obtain ⟨hres, hs2⟩ := h
          have hr1 : r1.frames = s.replacer.frames := victim_frames hvic
          have hrfr : s2.replacer.frames = s.replacer.frames := by
            rw [← hs2]
            exact hr1
          have hptq : s2.page_table = s.page_table := by rw [← hs2]
          have hdisk : s2.disk = s.disk := by rw [← hs2]
          have hfl : s2.free_list = s.free_list := by rw [← hs2]
          have hpool : s2.buffer_pool = s.buffer_pool := by rw [← hs2]
          have hfrall : ∀ f2, frameOf s2 f2 = frameOf s f2 := by
            intro f2
            unfold frameOf
            rw [hpool]
          refine ⟨⟨?_, ?_, ?_, ?_, ?_, ?_, ?_⟩, ?_, ?_, ?_, ?_, ?_⟩
          · rw [hrfr, hpool]
            exact hlen
          · intro x hx
            rw [hfl] at hx
            rw [hpool]
            exact hfree x hx
          · rw [hfl]
            exact hnodup
          · intro q2 f2 hq2
            rw [hptq] at hq2
            obtain ⟨h1, h2, h3⟩ := hpt q2 f2 hq2
            rw [hpool, hfrall, hdisk]
            exact ⟨h1, h2, h3⟩
          · intro x hx q2
            rw [hfl] at hx
            rw [hptq]
            exact hfreept x hx q2
          · intro i j hij
            rw [hrfr] at hij
            obtain ⟨h1, h2, q2, h3⟩ := hcand i j hij
            rw [hpool, hptq]
            exact ⟨h1, h2, q2, h3⟩
          · rw [hdisk]
            exact hfp
          · rw [hdisk]
          · intro pid fid hpid hp hslotp
            exact ⟨by rw [hptq]; exact hp, hfrall fid, by rw [hrfr]; exact hslotp⟩
          · intro fid hfid
            exact absurd hfid (by simp)
          · intro _ f2 hf2
            rw [← hres] at hf2
            exact absurd hf2 (by simp)
          · intro f2 hf2
            rw [← hres] at hf2
            exact absurd hf2 (by simp)
        | some vid =>
          rw [fetchPage_missVictim hq hlast hvic] at h
          obtain ⟨hmem, hr1⟩ := victim_some_cand hvic
          obtain ⟨i, hi, hgi⟩ := mem_getD_of_mem hmem
          obtain ⟨hvi, hvlt, qv, hqv⟩ := hcand i vid hgi
          subst hvi
          have hvpg : (s.buffer_pool.getD vid defaultFrame).page_id = qv := by
            have := (hpt qv vid hqv).2.1
            unfold frameOf at this
            exact this
          generalize hD : (if (s.buffer_pool.getD vid defaultFrame).is_dirty = true
            then writePage s.disk (s.buffer_pool.getD vid defaultFrame).page_id
              (s.buffer_pool.getD vid defaultFrame).data
            else s.disk) = D at h
          have hDnum : s.disk.num_pages ≤ D.num_pages := by
            rw [← hD]
            by_cases hd : (s.buffer_pool.getD vid defaultFrame).is_dirty = true
            · rw [if_pos hd]
              unfold writePage
              simp only []
              omega
            · rw [if_neg hd]
          have hDfp : D.filePages ≤ D.num_pages := by
            rw [← hD]
            by_cases hd : (s.buffer_pool.getD vid defaultFrame).is_dirty = true
            · rw [if_pos hd]
              unfold writePage
              simp only []
              omega
            · rw [if_neg hd]
              exact hfp
          set S3 : BPM := BPM.mk s.buffer_pool
            (ptRemove s.page_table (s.buffer_pool.getD vid defaultFrame).page_id)
            r1 D s.free_list with hS3
          have hlen3 : S3.replacer.frames.length = S3.buffer_pool.length := by
            show r1.frames.length = s.buffer_pool.length
            rw [hr1]
            exact hlen
          have hfree3 : ∀ x ∈ S3.free_list, x < S3.buffer_pool.length :=
            fun x hx => hfree x hx
          have hnodup3 : S3.free_list.Nodup := hnodup
          have hpt3 : ∀ q2 f2, S3.page_table q2 = some f2 →
              f2 < S3.buffer_pool.length ∧ (frameOf S3 f2).page_id = q2 ∧
                q2 ≤ S3.disk.num_pages := by
            intro q2 f2 hq2
            have hq2R : ptRemove s.page_table
                (s.buffer_pool.getD vid defaultFrame).page_id q2 = some f2 := hq2
            simp only [ptRemove] at hq2R
            by_cases hc : q2 = (s.buffer_pool.getD vid defaultFrame).page_id
            · rw [if_pos hc] at hq2R
              exact absurd hq2R (by simp)
            · rw [if_neg hc] at hq2R
              obtain ⟨h1, h2, h3⟩ := hpt q2 f2 hq2R
              refine ⟨h1, h2, ?_⟩
              show q2 ≤ D.num_pages
              omega
          have hfreept3 : ∀ x ∈ S3.free_list, ∀ q2, S3.page_table q2 ≠ some x := by
            intro x hx
            rw [show S3.free_list = s.free_list from rfl, hfle] at hx
            exact absurd hx (List.not_mem_nil x)
          have hcand3 : ∀ i2 j, i2 ≠ vid → S3.replacer.frames.getD i2 none = some j →
              j = i2 ∧ i2 < S3.buffer_pool.length ∧
                ∃ q2, S3.page_table q2 = some i2 := by
            intro i2 j hne hij
            have hij2 : s.replacer.frames.getD i2 none = some j := by
              rw [show S3.replacer = r1 from rfl, hr1] at hij
              exact hij
            obtain ⟨h1, h2, q2, h3⟩ := hcand i2 j hij2
            refine ⟨h1, h2, q2, ?_⟩
            have hcne : q2 ≠ (s.buffer_pool.getD vid defaultFrame).page_id := by
              rw [hvpg]
              intro hc
              subst hc
              rw [hqv] at h3
              have := h3
              simp at this
              omega
            show ptRemove s.page_table
              (s.buffer_pool.getD vid defaultFrame).page_id q2 = some i2
            simp only [ptRemove]
            rw [if_neg hcne]
            exact h3
          have hfp3 : S3.disk.filePages ≤ S3.disk.num_pages := hDfp
          have hfid3 : vid < S3.buffer_pool.length := hvlt
          have hfidfree3 : vid ∉ S3.free_list := by
            rw [show S3.free_list = s.free_list from rfl, hfle]
            exact List.not_mem_nil vid
          have hfidpt3 : ∀ q2, S3.page_table q2 ≠ some vid := by
            intro q2
            show ptRemove s.page_table
              (s.buffer_pool.getD vid defaultFrame).page_id q2 ≠ some vid
            simp only [ptRemove]
            by_cases hc : q2 = (s.buffer_pool.getD vid defaultFrame).page_id
            · rw [if_pos hc]
              simp
            · rw [if_neg hc]
              intro hcc
              have hpg2 := (hpt q2 vid hcc).2.1
              unfold frameOf at hpg2
              exact hc hpg2.symm
          have hmiss3 : S3.page_table q = none := by
            show ptRemove s.page_table
              (s.buffer_pool.getD vid defaultFrame).page_id q = none
            simp only [ptRemove]
            by_cases hc : q = (s.buffer_pool.getD vid defaultFrame).page_id
            · rw [if_pos hc]
            · rw [if_neg hc]
              exact hq
          have post := fetchLoad_post hlen3 hfree3 hnodup3 hpt3 hfreept3 hcand3 hfp3
            hfid3 hfidfree3 hfidpt3 hmiss3 h
          obtain ⟨hr, hwf2, hptq, hframe, hslot, hdisk, hfl2, hblen, hptA, hfrA, hslA⟩
            := post
          refine ⟨hwf2, ?_, ?_, ?_, ?_, ?_⟩
          · rw [hdisk]
            exact hDnum
          · intro pid fid hpid hp hslotp
            have hnev : fid ≠ vid := by
              intro hc
              rw [hc, hgi] at hslotp
              exact absurd hslotp (by simp)
            have hpidne : pid ≠ (s.buffer_pool.getD vid defaultFrame).page_id := by
              rw [hvpg]
              intro hc
              subst hc
              rw [hqv] at hp
              have := hp
              simp at this
              omega
            refine ⟨?_, ?_, ?_⟩
            · rw [hptA pid hpid]
              show ptRemove s.page_table
                (s.buffer_pool.getD vid defaultFrame).page_id pid = some fid
              simp only [ptRemove]
              rw [if_neg hpidne]
              exact hp
            · rw [hfrA fid hnev]
              show s.buffer_pool.getD fid defaultFrame = frameOf s fid
              unfold frameOf
              rfl
            · rw [hslA fid hnev]
              show r1.frames.getD fid none = none
              rw [hr1]
              exact hslotp
          · intro fid hfid
            exact absurd hfid (by simp)
          · intro _ f2 hf2
            rw [hr] at hf2
            have hff : f2 = vid := by
              have := hf2
              simp at this
              omega
            subst hff
            refine ⟨hptq, ?_, hslot⟩
            rw [hdisk]
            exact hframe
          · intro f2 hf2
            rw [hr] at hf2
            have hff : f2 = vid := by
              have := hf2
              simp at this
              omega
            subst hff
            exact hptq

theorem unpinPage_eq_none {s : BPM} {q : Nat} {d : Bool}
    (hq : s.page_table q = none) : unpinPage s q d = (false, s) := by
  unfold unpinPage
  rw [hq]

theorem unpinPage_eq_dead {s : BPM} {q : Nat} {d : Bool} {fid : Nat}
    (hq : s.page_table q = some fid)
    (hpin : ¬ 0 < (s.buffer_pool.getD fid defaultFrame).pin_count) :
    unpinPage s q d = (false, s) := by
  unfold unpinPage
  rw [hq]
  simp only [gt_iff_lt, if_neg hpin]

theorem unpinPage_eq_zero {s : BPM} {q : Nat} {d : Bool} {fid : Nat}
    (hq : s.page_table q = some fid)
    (hpin : 0 < (s.buffer_pool.getD fid defaultFrame).pin_count)
    (hz : (s.buffer_pool.getD fid defaultFrame).pin_count - 1 = 0) :
    unpinPage s q d = (true, { s with
      buffer_pool := s.buffer_pool.set fid
        { s.buffer_pool.getD fid defaultFrame with
          pin_count := (s.buffer_pool.getD fid defaultFrame).pin_count - 1,
          is_dirty := (s.buffer_pool.getD fid defaultFrame).is_dirty || d },
      replacer := s.replacer.unpin fid }) := by
  unfold unpinPage
  rw [hq]
  simp only [gt_iff_lt, if_pos hpin, if_pos hz]

theorem unpinPage_eq_pos {s : BPM} {q : Nat} {d : Bool} {fid : Nat}
    (hq : s.page_table q = some fid)
    (hpin : 0 < (s.buffer_pool.getD fid defaultFrame).pin_count)
    (hz : ¬ (s.buffer_pool.getD fid defaultFrame).pin_count - 1 = 0) :
    unpinPage s q d = (true, { s with
      buffer_pool := s.buffer_pool.set fid
        { s.buffer_pool.getD fid defaultFrame with
          pin_count := (s.buffer_pool.getD fid defaultFrame).pin_count - 1,
          is_dirty := (s.buffer_pool.getD fid defaultFrame).is_dirty || d } }) := by
  unfold unpinPage
  rw [hq]
  simp only [gt_iff_lt, if_pos hpin, if_neg hz]

/-- Post-state of unpin_page from a well-formed pool: well-formedness
and the disk are preserved; a resident non-candidate frame of another
page is untouched; unpinning a page held with pin count 2 leaves it
resident with pin count 1 and does not change its candidate slot. -/
theorem unpinPage_post {s : BPM} {q : Nat} {d : Bool} (hwf : WF s) :
    WF (unpinPage s q d).2 ∧ (unpinPage s q d).2.disk = s.disk ∧
    (∀ pid fid, pid ≠ q → s.page_table pid = some fid →
        s.replacer.frames.getD fid none = none →
        (unpinPage s q d).2.page_table pid = some fid ∧
        frameOf (unpinPage s q d).2 fid = frameOf s fid ∧
        (unpinPage s q d).2.replacer.frames.getD fid none = none) ∧
    (∀ fid, s.page_table q = some fid → (frameOf s fid).pin_count = 2 →
        (unpinPage s q d).2.page_table q = some fid ∧
        (frameOf (unpinPage s q d).2 fid).pin_count = 1 ∧
        (frameOf (unpinPage s q d).2 fid).page_id = (frameOf s fid).page_id ∧
        (unpinPage s q d).2.replacer.frames.getD fid none =
          s.replacer.frames.getD fid none) := by
  obtain ⟨hlen, hfree, hnodup, hpt, hfreept, hcand, hfp⟩ := hwf
  cases hq : s.page_table q with
  | none =>
    rw [unpinPage_eq_none hq]
    refine ⟨⟨hlen, hfree, hnodup, hpt, hfreept, hcand, hfp⟩, rfl, ?_, ?_⟩
    · intro pid fid hpid hp hslotp
      exact ⟨hp, rfl, hslotp⟩
    · intro fid hfid
      exact absurd hfid (by simp)
  | some fid0 =>
    have hfid0 : fid0 < s.buffer_pool.length := (hpt q fid0 hq).1
    have hfid0r : fid0 < s.replacer.frames.length := by rw [hlen]; exact hfid0
    have hne0 : ∀ pid fid, pid ≠ q → s.page_table pid = some fid → fid ≠ fid0 := by
      intro pid fid hpid hp hc
      subst hc
      have h1 := (hpt pid fid hp).2.1
      have h2 := (hpt q fid hq).2.1
      exact hpid (by rw [← h1, h2])
    by_cases hpin : 0 < (s.buffer_pool.getD fid0 defaultFrame).pin_count
    · by_cases hz : (s.buffer_pool.getD fid0 defaultFrame).pin_count - 1 = 0
      · rw [unpinPage_eq_zero hq hpin hz]
        refine ⟨⟨?_, ?_, ?_, ?_, ?_, ?_, ?_⟩, rfl, ?_, ?_⟩
        · show (s.replacer.frames.set fid0 (some fid0)).length
            = (s.buffer_pool.set fid0 _).length
          rw [List.length_set, List.length_set]
          exact hlen
        · intro x hx
          show x < (s.buffer_pool.set fid0 _).length
          rw [List.length_set]
          exact hfree x hx
        · exact hnodup
        · intro q2 f2 hq2
          obtain ⟨h1, h2, h3⟩ := hpt q2 f2 hq2
          refine ⟨?_, ?_, h3⟩
          · show f2 < (s.buffer_pool.set fid0 _).length
            rw [List.length_set]
            exact h1
          show ((s.buffer_pool.set fid0 _).getD f2 defaultFrame).page_id = q2
          by_cases hc : f2 = fid0
          · subst hc
            rw [getD_set_self _ _ _ _ hfid0]
            exact h2
          · rw [getD_set_ne _ _ _ (fun hcc => hc hcc.symm)]
            exact h2
        · intro x hx q2
          exact hfreept x hx q2
        · intro i j hij
          have hij2 : (s.replacer.frames.set fid0 (some fid0)).getD i none
              = some j := hij
          by_cases hc : i = fid0
          · subst hc
            rw [getD_set_self _ _ _ _ hfid0r] at hij2
            have hji : j = i := by
              have := hij2
              simp at this
              omega
            refine ⟨hji, ?_, q, hq⟩
            show i < (s.buffer_pool.set i _).length
            rw [List.length_set]
            exact hfid0
          · rw [getD_set_ne _ _ _ (fun hcc => hc hcc.symm)] at hij2
            obtain ⟨h1, h2, q2, h3⟩ := hcand i j hij2
            refine ⟨h1, ?_, q2, h3⟩
            show i < (s.buffer_pool.set fid0 _).length
            rw [List.length_set]
            exact h2
        · exact hfp
        · intro pid fid hpid hp hslotp
          have hne := hne0 pid fid hpid hp
          refine ⟨hp, ?_, ?_⟩
          · show (s.buffer_pool.set fid0 _).getD fid defaultFrame = frameOf s fid
            rw [getD_set_ne _ _ _ (fun hcc => hne hcc.symm)]
            rfl
          · show (s.replacer.frames.set fid0 (some fid0)).getD fid none = none
            rw [getD_set_ne _ _ _ (fun hcc => hne hcc.symm)]
            exact hslotp
        · intro fid hfid hpin2
          have hff : fid = fid0 := by
            have := hfid
            simp at this
            omega
          subst hff
          unfold frameOf at hpin2
          omega
      · rw [unpinPage_eq_pos hq hpin hz]
        refine ⟨⟨?_, ?_, ?_, ?_, ?_, ?_, ?_⟩, rfl, ?_, ?_⟩
        · show s.replacer.frames.length = (s.buffer_pool.set fid0 _).length
          rw [List.length_set]
          exact hlen
        · intro x hx
          show x < (s.buffer_pool.set fid0 _).length
          rw [List.length_set]
          exact hfree x hx
        · exact hnodup
        · intro q2 f2 hq2
          obtain ⟨h1, h2, h3⟩ := hpt q2 f2 hq2
          refine ⟨?_, ?_, h3⟩
          · show f2 < (s.buffer_pool.set fid0 _).length
            rw [List.length_set]
            exact h1
          show ((s.buffer_pool.set fid0 _).getD f2 defaultFrame).page_id = q2
          by_cases hc : f2 = fid0
          · subst hc
            rw [getD_set_self _ _ _ _ hfid0]
            exact h2
          · rw [getD_set_ne _ _ _ (fun hcc => hc hcc.symm)]
            exact h2
        · intro x hx q2
          exact hfreept x hx q2
        · intro i j hij
          obtain ⟨h1, h2, q2, h3⟩ := hcand i j hij
          refine ⟨h1, ?_, q2, h3⟩
          show i < (s.buffer_pool.set fid0 _).length
          rw [List.length_set]
          exact h2
        · exact hfp
        · intro pid fid hpid hp hslotp
          have hne := hne0 pid fid hpid hp
          refine ⟨hp, ?_, hslotp⟩
          show (s.buffer_pool.set fid0 _).getD fid defaultFrame = frameOf s fid
          rw [getD_set_ne _ _ _ (fun hcc => hne hcc.symm)]
          rfl
        · intro fid hfid hpin2
          have hff : fid = fid0 := by
            have := hfid
            simp at this
            omega
          subst hff
          unfold frameOf at hpin2
          refine ⟨hq, ?_, ?_, rfl⟩
          · show ((s.buffer_pool.set fid _).getD fid defaultFrame).pin_count = 1
            rw [getD_set_self _ _ _ _ hfid0]
            simp only []
            omega
          · show ((s.buffer_pool.set fid _).getD fid defaultFrame).page_id
              = (frameOf s fid).page_id
            rw [getD_set_self _ _ _ _ hfid0]
            rfl
    · rw [unpinPage_eq_dead hq hpin]
      refine ⟨⟨hlen, hfree, hnodup, hpt, hfreept, hcand, hfp⟩, rfl, ?_, ?_⟩
      · intro pid fid hpid hp hslotp
        exact ⟨hp, rfl, hslotp⟩
      · intro fid hfid hpin2
        have hff : fid = fid0 := by
          have := hfid
          simp at this
          omega
        subst hff
        unfold frameOf at hpin2
        omega

/-- Replacing a frame's buffer contents (and dirty flag) while keeping
its page id and pin count preserves pool well-formedness and the
pinned-frame invariant. -/
theorem setData_post {s : BPM} {fid : Nat} {fr1 : Frame}
    (hwf : WF s) (hfid : fid < s.buffer_pool.length)
    (hpg : fr1.page_id = (frameOf s fid).page_id)
    (hpin : fr1.pin_count = (frameOf s fid).pin_count) :
    WF { s with buffer_pool := s.buffer_pool.set fid fr1 } ∧
    (∀ pid, PinnedPool pid s →
      PinnedPool pid { s with buffer_pool := s.buffer_pool.set fid fr1 }) := by
  obtain ⟨hlen, hfree, hnodup, hpt, hfreept, hcand, hfp⟩ := hwf
  have hframe : ∀ f2,
      (frameOf { s with buffer_pool := s.buffer_pool.set fid fr1 } f2).page_id
        = (frameOf s f2).page_id ∧
      (frameOf { s with buffer_pool := s.buffer_pool.set fid fr1 } f2).pin_count
        = (frameOf s f2).pin_count := by
    intro f2
    unfold frameOf
    simp only []
    by_cases hc : f2 = fid
    · subst hc
      rw [getD_set_self _ _ _ _ hfid]
      exact ⟨hpg, hpin⟩
    · rw [getD_set_ne _ _ _ (fun hcc => hc hcc.symm)]
      exact ⟨rfl, rfl⟩
  have hwf2 : WF { s with buffer_pool := s.buffer_pool.set fid fr1 } := by
    refine ⟨?_, ?_, hnodup, ?_, hfreept, ?_, hfp⟩
    · show s.replacer.frames.length = (s.buffer_pool.set fid fr1).length
      rw [List.length_set]
      exact hlen
    · intro x hx
      show x < (s.buffer_pool.set fid fr1).length
      rw [List.length_set]
      exact hfree x hx
    · intro q2 f2 hq2
      obtain ⟨h1, h2, h3⟩ := hpt q2 f2 hq2
      refine ⟨?_, ?_, h3⟩
      · show f2 < (s.buffer_pool.set fid fr1).length
        rw [List.length_set]
        exact h1
      · rw [(hframe f2).1]
        exact h2
    · intro i j hij
      obtain ⟨h1, h2, q2, h3⟩ := hcand i j hij
      refine ⟨h1, ?_, q2, h3⟩
      show i < (s.buffer_pool.set fid fr1).length
      rw [List.length_set]
      exact h2
  refine ⟨hwf2, ?_⟩
  intro pid hp
  obtain ⟨_, hle, f, h1, h2, h3⟩ := hp
  exact ⟨hwf2, hle, f, h1, by rw [(hframe f).2]; exact h2, h3⟩

/-- Allocating a page only touches the disk: two ids are consumed,
well-formedness and any pinned frame are preserved. -/
theorem alloc_post {s : BPM} (hwf : WF s) :
    WF { s with disk := (allocatePage s.disk).1 } ∧
    (allocatePage s.disk).1.num_pages = s.disk.num_pages + 2 ∧
    (allocatePage s.disk).2 = s.disk.num_pages + 1 ∧
    (∀ pid, PinnedPool pid s →
      PinnedPool pid { s with disk := (allocatePage s.disk).1 }) := by
  obtain ⟨hlen, hfree, hnodup, hpt, hfreept, hcand, hfp⟩ := hwf
  have hnum : (allocatePage s.disk).1.num_pages = s.disk.num_pages + 2 := by
    unfold allocatePage writePage
    simp only []
    omega
  have hfp2 : (allocatePage s.disk).1.filePages ≤ (allocatePage s.disk).1.num_pages := by
    unfold allocatePage writePage
    simp only []
    omega
  have hwf2 : WF { s with disk := (allocatePage s.disk).1 } := by
    refine ⟨hlen, hfree, hnodup, ?_, hfreept, hcand, hfp2⟩
    intro q2 f2 hq2
    obtain ⟨h1, h2, h3⟩ := hpt q2 f2 hq2
    refine ⟨h1, h2, ?_⟩
    show q2 ≤ (allocatePage s.disk).1.num_pages
    omega
  refine ⟨hwf2, hnum, rfl, ?_⟩
  intro pid hp
  obtain ⟨_, hle, f, h1, h2, h3⟩ := hp
  refine ⟨hwf2, ?_, f, h1, h2, h3⟩
  show pid ≤ (allocatePage s.disk).1.num_pages
  omega

/-- fetch_page of a different page keeps a leaked frame pinned and
non-evictable. -/
theorem pinned_fetch_other {pid : Nat} {s : BPM} {q : Nat} {res : Option Nat}
    {s2 : BPM} (hp : PinnedPool pid s) (hq : q ≠ pid)
    (h : fetchPage s q = .ok (res, s2)) : PinnedPool pid s2 := by
  obtain ⟨hwf, hle, fid, hpt, hpin, hslot⟩ := hp
  obtain ⟨hwf2, hmono, hother, _, _, _⟩ := fetchPage_post hwf h
  obtain ⟨h1, h2, h3⟩ := hother pid fid (fun hc => hq hc.symm) hpt hslot
  exact ⟨hwf2, by omega, fid, h1, by rw [h2]; exact hpin, h3⟩

/-- unpin_page of a different page keeps a leaked frame pinned and
non-evictable. -/
theorem pinned_unpin_other {pid : Nat} {s : BPM} {q : Nat} {d : Bool}
    (hp : PinnedPool pid s) (hq : q ≠ pid) :
    PinnedPool pid (unpinPage s q d).2 := by
  obtain ⟨hwf, hle, fid, hpt, hpin, hslot⟩ := hp
  obtain ⟨hwf2, hdisk, hother, _⟩ := @unpinPage_post s q d hwf
  obtain ⟨h1, h2, h3⟩ := hother pid fid (fun hc => hq hc.symm) hpt hslot
  exact ⟨hwf2, by rw [hdisk]; exact hle, fid, h1, by rw [h2]; exact hpin, h3⟩

/-- The frame-content update insert_tuple performs after a slotted
insert attempt: store the returned buffer back in the frame and OR the
dirty flag. -/
def dataSet (pool : BPM) (fid : Nat) (d1 : Page) (dirty : Bool) : BPM :=
  let fr := pool.buffer_pool.getD fid defaultFrame
  let fr1 : Frame := { fr with data := d1, is_dirty := fr.is_dirty || dirty }
  { pool with buffer_pool := pool.buffer_pool.set fid fr1 }

theorem insertLoop_eq_fpanic {data : List Nat} {pool : BPM} {p : Nat} {rest : List Nat}
    (hf : fetchPage pool p = .panic) :
    insertLoop data pool (p :: rest) = .panic := by
  unfold insertLoop
  rw [hf]

theorem insertLoop_eq_noframe {data : List Nat} {pool : BPM} {p : Nat}
    {rest : List Nat} {pool1 : BPM}
    (hf : fetchPage pool p = .ok (none, pool1)) :
    insertLoop data pool (p :: rest) = .ok (.noFrame, pool1) := by
  unfold insertLoop
  rw [hf]

theorem insertLoop_eq_ipanic {data : List Nat} {pool : BPM} {p : Nat} {rest : List Nat}
    {fid : Nat} {pool1 : BPM}
    (hf : fetchPage pool p = .ok (some fid, pool1))
    (hins : spInsert (pool1.buffer_pool.getD fid defaultFrame).data data = .panic) :
    insertLoop data pool (p :: rest) = .panic := by
  unfold insertLoop
  simp only [hf]
  simp only [hins]

theorem insertLoop_eq_found {data : List Nat} {pool : BPM} {p : Nat} {rest : List Nat}
    {fid : Nat} {pool1 : BPM} {d1 : Page} {sid : Nat}
    (hf : fetchPage pool p = .ok (some fid, pool1))
    (hins : spInsert (pool1.buffer_pool.getD fid defaultFrame).data data
      = .ok (d1, some sid)) :
    insertLoop data pool (p :: rest)
      = .ok (.found ⟨p, sid⟩, (unpinPage (dataSet pool1 fid d1 true) p true).2) := by
  unfold insertLoop
  simp only [hf]
  simp only [hins]
  rfl

theorem insertLoop_eq_next {data : List Nat} {pool : BPM} {p : Nat} {rest : List Nat}
    {fid : Nat} {pool1 : BPM} {d1 : Page}
    (hf : fetchPage pool p = .ok (some fid, pool1))
    (hins : spInsert (pool1.buffer_pool.getD fid defaultFrame).data data
      = .ok (d1, none)) :
    insertLoop data pool (p :: rest)
      = insertLoop data (unpinPage (dataSet pool1 fid d1 false) p false).2 rest := by
  conv_lhs => unfold insertLoop
  simp only [hf, hins, Option.isSome_none, dataSet]

/-- The page-scan loop of insert_tuple never disturbs a pinned
non-candidate frame holding a page outside the scanned list. -/
theorem insertLoop_pres {pid : Nat} {data : List Nat} :
    ∀ {ps : List Nat} {pool : BPM} {out : LoopOut} {pool2 : BPM},
    PinnedPool pid pool → pid ∉ ps →
    insertLoop data pool ps = .ok (out, pool2) → PinnedPool pid pool2 := by
  intro ps
  induction ps with
  | nil =>
    intro pool out pool2 hp _ h
    simp only [insertLoop, RustResult.ok.injEq, Prod.mk.injEq] at h
    rw [← h.2]
    exact hp
  | cons p rest ih =>
    intro pool out pool2 hp hmem h
    have hpne : p ≠ pid := fun hc => hmem (hc ▸ List.mem_cons_self p rest)
    have hmem2 : pid ∉ rest := fun hc => hmem (List.mem_cons_of_mem p hc)
    cases hf : fetchPage pool p with
    | panic =>
      rw [insertLoop_eq_fpanic hf] at h
      exact absurd h (by simp)
    | ok pr =>
      cases pr with
      | mk fidOpt pool1 =>
        cases fidOpt with
        | none =>
          rw [insertLoop_eq_noframe hf] at h
          simp only [RustResult.ok.injEq, Prod.mk.injEq] at h
          rw [← h.2]
          exact pinned_fetch_other hp hpne hf
        | some fid =>
          have hp1 := pinned_fetch_other hp hpne hf
          obtain ⟨hwf1, _, _, _, _, hresq⟩ := fetchPage_post hp.1 hf
          have hptp : pool1.page_table p = some fid := hresq fid rfl
          have hfidlt : fid < pool1.buffer_pool.length :=
            (hwf1.2.2.2.1 p fid hptp).1
          cases hins : spInsert (pool1.buffer_pool.getD fid defaultFrame).data data with
          | panic =>
            rw [insertLoop_eq_ipanic hf hins] at h
            exact absurd h (by simp)
          | ok dr =>
            cases dr with
            | mk d1 sidOpt =>
              have hsetT := @setData_post pool1 fid { pool1.buffer_pool.getD fid defaultFrame with data := d1, is_dirty := (pool1.buffer_pool.getD fid defaultFrame).is_dirty || sidOpt.isSome } hwf1 hfidlt rfl rfl
              have hp2x : PinnedPool pid (dataSet pool1 fid d1 sidOpt.isSome) :=
                hsetT.2 pid hp1
              have hp3 : PinnedPool pid
                  (unpinPage (dataSet pool1 fid d1 sidOpt.isSome) p sidOpt.isSome).2 :=
                pinned_unpin_other hp2x hpne
              cases sidOpt with
              | some sid =>
                rw [insertLoop_eq_found hf hins] at h
                simp only [RustResult.ok.injEq, Prod.mk.injEq] at h
                rw [← h.2]
                exact hp3
              | none =>
                rw [insertLoop_eq_next hf hins] at h
                exact ih hp3 hmem2 h

theorem insertTuple_eq_lpanic {hf : HeapFile} {data : List Nat}
    (hl : insertLoop data hf.pool hf.pages = .panic) :
    insertTuple hf data = .panic := by
  unfold insertTuple
  rw [hl]

theorem insertTuple_eq_found {hf : HeapFile} {data : List Nat} {tid : TupleId}
    {pool1 : BPM} (hl : insertLoop data hf.pool hf.pages = .ok (.found tid, pool1)) :
    insertTuple hf data = .ok (some tid, ⟨pool1, hf.pages⟩) := by
  unfold insertTuple
  rw [hl]

theorem insertTuple_eq_noframe {hf : HeapFile} {data : List Nat} {pool1 : BPM}
    (hl : insertLoop data hf.pool hf.pages = .ok (.noFrame, pool1)) :
    insertTuple hf data = .ok (none, ⟨pool1, hf.pages⟩) := by
  unfold insertTuple
  rw [hl]

theorem insertTuple_eq_exh_fpanic {hf : HeapFile} {data : List Nat} {pool1 : BPM}
    (hl : insertLoop data hf.pool hf.pages = .ok (.exhausted, pool1))
    (hfp : fetchPage { pool1 with disk := (allocatePage pool1.disk).1 }
      (allocatePage pool1.disk).2 = .panic) :
    insertTuple hf data = .panic := by
  unfold insertTuple
  simp only [hl, hfp]

theorem insertTuple_eq_exh_nofr {hf : HeapFile} {data : List Nat} {pool1 pool3 : BPM}
    (hl : insertLoop data hf.pool hf.pages = .ok (.exhausted, pool1))
    (hfp : fetchPage { pool1 with disk := (allocatePage pool1.disk).1 }
      (allocatePage pool1.disk).2 = .ok (none, pool3)) :
    insertTuple hf data = .ok (none, ⟨pool3, hf.pages⟩) := by
  unfold insertTuple
  simp only [hl, hfp]

theorem insertTuple_eq_exh_ipanic {hf : HeapFile} {data : List Nat}
    {pool1 pool3 : BPM} {fid : Nat}
    (hl : insertLoop data hf.pool hf.pages = .ok (.exhausted, pool1))
    (hfp : fetchPage { pool1 with disk := (allocatePage pool1.disk).1 }
      (allocatePage pool1.disk).2 = .ok (some fid, pool3))
    (hins : spInsert (initPage (pool3.buffer_pool.getD fid defaultFrame).data) data
      = .panic) :
    insertTuple hf data = .panic := by
  unfold insertTuple
  simp only [hl, hfp, hins]

theorem insertTuple_eq_exh_leak {hf : HeapFile} {data : List Nat}
    {pool1 pool3 : BPM} {fid : Nat} {d1 : Page}
    (hl : insertLoop data hf.pool hf.pages = .ok (.exhausted, pool1))
    (hfp : fetchPage { pool1 with disk := (allocatePage pool1.disk).1 }
      (allocatePage pool1.disk).2 = .ok (some fid, pool3))
    (hins : spInsert (initPage (pool3.buffer_pool.getD fid defaultFrame).data) data
      = .ok (d1, none)) :
    insertTuple hf data = .ok (none, ⟨{ pool3 with buffer_pool := pool3.buffer_pool.set fid { pool3.buffer_pool.getD fid defaultFrame with data := d1 } }, hf.pages⟩) := by
  unfold insertTuple
  simp only [hl, hfp, hins]

theorem insertTuple_eq_exh_ok {hf : HeapFile} {data : List Nat}
    {pool1 pool3 : BPM} {fid : Nat} {d1 : Page} {sid : Nat}
    (hl : insertLoop data hf.pool hf.pages = .ok (.exhausted, pool1))
    (hfp : fetchPage { pool1 with disk := (allocatePage pool1.disk).1 }
      (allocatePage pool1.disk).2 = .ok (some fid, pool3))
    (hins : spInsert (initPage (pool3.buffer_pool.getD fid defaultFrame).data) data
      = .ok (d1, some sid)) :
    insertTuple hf data = .ok (some ⟨(allocatePage pool1.disk).2, sid⟩, ⟨(unpinPage { pool3 with buffer_pool := pool3.buffer_pool.set fid { pool3.buffer_pool.getD fid defaultFrame with data := d1, is_dirty := true } } (allocatePage pool1.disk).2 true).2, hf.pages ++ [(allocatePage pool1.disk).2]⟩) := by
  unfold insertTuple
  simp only [hl, hfp, hins]

/-- insert_tuple never disturbs a pinned non-candidate frame whose page
is outside the heap file's page list, and cannot add that page id to
the list. -/
theorem insertTuple_pres {pid : Nat} {hf : HeapFile} {data : List Nat}
    {o : Option TupleId} {hf2 : HeapFile}
    (hp : PinnedPool pid hf.pool) (hmem : pid ∉ hf.pages)
    (h : insertTuple hf data = .ok (o, hf2)) :
    PinnedPool pid hf2.pool ∧ pid ∉ hf2.pages := by
  cases hl : insertLoop data hf.pool hf.pages with
  | panic =>
    rw [insertTuple_eq_lpanic hl] at h
    exact absurd h (by simp)
  | ok pr =>
    cases pr with
    | mk out pool1 =>
      have hp1 : PinnedPool pid pool1 := insertLoop_pres hp hmem hl
      cases out with
      | found tid =>
        rw [insertTuple_eq_found hl] at h
        simp only [RustResult.ok.injEq, Prod.mk.injEq] at h
        rw [← h.2]
        exact ⟨hp1, hmem⟩
      | noFrame =>
        rw [insertTuple_eq_noframe hl] at h
        simp only [RustResult.ok.injEq, Prod.mk.injEq] at h
        rw [← h.2]
        exact ⟨hp1, hmem⟩
      | exhausted =>
        obtain ⟨hwfA, hnumA, hidA, hpresA⟩ := alloc_post hp1.1
        have hp2 : PinnedPool pid { pool1 with disk := (allocatePage pool1.disk).1 } :=
          hpresA pid hp1
        have hadne : (allocatePage pool1.disk).2 ≠ pid := by
          rw [hidA]
          have hle := hp1.2.1
          omega
        cases hfp : fetchPage { pool1 with disk := (allocatePage pool1.disk).1 }
            (allocatePage pool1.disk).2 with
        | panic =>
          rw [insertTuple_eq_exh_fpanic hl hfp] at h
          exact absurd h (by simp)
        | ok pr2 =>
          cases pr2 with
          | mk fidOpt pool3 =>
            cases fidOpt with
            | none =>
              rw [insertTuple_eq_exh_nofr hl hfp] at h
              simp only [RustResult.ok.injEq, Prod.mk.injEq] at h
              rw [← h.2]
              exact ⟨pinned_fetch_other hp2 hadne hfp, hmem⟩
            | some fid =>
              have hp3 := pinned_fetch_other hp2 hadne hfp
              obtain ⟨hwf3, _, _, _, _, hresq⟩ := fetchPage_post hp2.1 hfp
              have hptp : pool3.page_table (allocatePage pool1.disk).2 = some fid :=
                hresq fid rfl
              have hfidlt : fid < pool3.buffer_pool.length :=
                (hwf3.2.2.2.1 _ fid hptp).1
              cases hins : spInsert
                  (initPage (pool3.buffer_pool.getD fid defaultFrame).data) data with
              | panic =>
                rw [insertTuple_eq_exh_ipanic hl hfp hins] at h
                exact absurd h (by simp)
              | ok dr =>
                cases dr with
                | mk d1 sidOpt =>
                  cases sidOpt with
                  | none =>
                    rw [insertTuple_eq_exh_leak hl hfp hins] at h
                    simp only [RustResult.ok.injEq, Prod.mk.injEq] at h
                    have hset := @setData_post pool3 fid { pool3.buffer_pool.getD fid defaultFrame with data := d1 } hwf3 hfidlt rfl rfl
                    rw [← h.2]
                    exact ⟨hset.2 pid hp3, hmem⟩
                  | some sid =>
                    rw [insertTuple_eq_exh_ok hl hfp hins] at h
                    simp only [RustResult.ok.injEq, Prod.mk.injEq] at h
                    have hset := @setData_post pool3 fid { pool3.buffer_pool.getD fid defaultFrame with data := d1, is_dirty := true } hwf3 hfidlt rfl rfl
                    have hp4 := hset.2 pid hp3
                    have hp5 := @pinned_unpin_other pid _ _ true hp4 hadne
                    rw [← h.2]
                    refine ⟨hp5, ?_⟩
                    intro hc
                    rcases List.mem_append.mp hc with hc1 | hc2
                    · exact hmem hc1
                    · have hcc : pid = (allocatePage pool1.disk).2 := by
                        simpa using hc2
                      exact hadne hcc.symm

theorem readTuple_eq_fpanic {hf : HeapFile} {tid : TupleId}
    (hfp : fetchPage hf.pool tid.page_id = .panic) :
    readTuple hf tid = .panic := by
  unfold readTuple
  rw [hfp]

theorem readTuple_eq_nofr {hf : HeapFile} {tid : TupleId} {pool1 : BPM}
    (hfp : fetchPage hf.pool tid.page_id = .ok (none, pool1)) :
    readTuple hf tid = .ok (none, ⟨pool1, hf.pages⟩) := by
  unfold readTuple
  rw [hfp]

theorem readTuple_eq_rpanic {hf : HeapFile} {tid : TupleId} {pool1 : BPM} {fid : Nat}
    (hfp : fetchPage hf.pool tid.page_id = .ok (some fid, pool1))
    (hr : spRead (pool1.buffer_pool.getD fid defaultFrame).data tid.slot_id = .panic) :
    readTuple hf tid = .panic := by
  unfold readTuple
  simp only [hfp, hr]

theorem readTuple_eq_ok {hf : HeapFile} {tid : TupleId} {pool1 : BPM} {fid : Nat}
    {dataOpt : Option (List Nat)}
    (hfp : fetchPage hf.pool tid.page_id = .ok (some fid, pool1))
    (hr : spRead (pool1.buffer_pool.getD fid defaultFrame).data tid.slot_id
      = .ok dataOpt) :
    readTuple hf tid = .ok (dataOpt, ⟨(unpinPage pool1 tid.page_id false).2, hf.pages⟩) := by
  unfold readTuple
  simp only [hfp, hr]

/-- read_tuple never disturbs a pinned non-candidate frame: reading the
pinned page itself bumps the pin count to 2 and unpins back to 1
without ever making the frame an eviction candidate; reading any other
page leaves the frame alone. -/
theorem readTuple_pres {pid : Nat} {hf : HeapFile} {tid : TupleId}
    {o : Option (List Nat)} {hf2 : HeapFile}
    (hp : PinnedPool pid hf.pool) (h : readTuple hf tid = .ok (o, hf2)) :
    PinnedPool pid hf2.pool ∧ hf2.pages = hf.pages := by
  by_cases hq : tid.page_id = pid
  · obtain ⟨hwf, hle, fid, hptP, hpinP, hslotP⟩ := hp
    have hpt0 : hf.pool.page_table tid.page_id = some fid := by
      rw [hq]
      exact hptP
    have hfe := fetchPage_hit hpt0
    set s1 : BPM := { hf.pool with buffer_pool := hf.pool.buffer_pool.set fid { hf.pool.buffer_pool.getD fid defaultFrame with pin_count := (hf.pool.buffer_pool.getD fid defaultFrame).pin_count + 1 }, replacer := hf.pool.replacer.pin fid } with hs1
    obtain ⟨hwf1, hmono, _, hhit, _, _⟩ := fetchPage_post hwf hfe
    obtain ⟨_, hpt1, hfr1, hslot1⟩ := hhit fid hpt0
    have hpin2 : (frameOf s1 fid).pin_count = 2 := by
      rw [hfr1]
      show (frameOf hf.pool fid).pin_count + 1 = 2
      omega
    cases hr : spRead (s1.buffer_pool.getD fid defaultFrame).data tid.slot_id with
    | panic =>
      rw [readTuple_eq_rpanic hfe hr] at h
      exact absurd h (by simp)
    | ok dataOpt =>
      rw [readTuple_eq_ok hfe hr] at h
      simp only [RustResult.ok.injEq, Prod.mk.injEq] at h
      obtain ⟨hwfu, hdisku, _, hself⟩ := @unpinPage_post s1 tid.page_id false hwf1
      obtain ⟨hptu, hpinu, hpgu, hslotu⟩ := hself fid hpt1 hpin2
      rw [← h.2]
      refine ⟨⟨hwfu, ?_, fid, ?_, hpinu, ?_⟩, rfl⟩
      · rw [hdisku]
        omega
      · rw [← hq]
        exact hptu
      · rw [hslotu]
        exact hslot1
  · cases hfp : fetchPage hf.pool tid.page_id with
    | panic =>
      rw [readTuple_eq_fpanic hfp] at h
      exact absurd h (by simp)
    | ok pr =>
      cases pr with
      | mk fidOpt pool1 =>
        cases fidOpt with
        | none =>
          rw [readTuple_eq_nofr hfp] at h
          simp only [RustResult.ok.injEq, Prod.mk.injEq] at h
          rw [← h.2]
          exact ⟨pinned_fetch_other hp hq hfp, rfl⟩
        | some fid =>
          have hp1 := pinned_fetch_other hp hq hfp
          cases hr : spRead (pool1.buffer_pool.getD fid defaultFrame).data
              tid.slot_id with
          | panic =>
            rw [readTuple_eq_rpanic hfp hr] at h
            exact absurd h (by simp)
          | ok dataOpt =>
            rw [readTuple_eq_ok hfp hr] at h
            simp only [RustResult.ok.injEq, Prod.mk.injEq] at h
            rw [← h.2]
            exact ⟨@pinned_unpin_other pid _ _ false hp1 hq, rfl⟩

/-- The leak invariant of claim C9: the page is pinned (pin count 1,
not an eviction candidate) in the buffer pool, yet absent from the heap
file's page list, so no heap-file operation will ever unpin it. -/
def LeakState (pid : Nat) (hf : HeapFile) : Prop :=
  PinnedPool pid hf.pool ∧ pid ∉ hf.pages

/-- A heap-file API call: insert_tuple or read_tuple. -/
inductive HeapOp where
  | ins (data : List Nat)
  | rd (tid : TupleId)

/-- Run one heap-file call, keeping the updated heap file. -/
def execHeap (hf : HeapFile) : HeapOp → RustResult HeapFile
  | .ins data =>
    match insertTuple hf data with
    | .panic => .panic
    | .ok r => .ok r.2
  | .rd tid =>
    match readTuple hf tid with
    | .panic => .panic
    | .ok r => .ok r.2

/-- Run a sequence of heap-file calls. -/
def execHeapSeq : HeapFile → List HeapOp → RustResult HeapFile
  | hf, [] => .ok hf
  | hf, op :: rest =>
    match execHeap hf op with
    | .panic => .panic
    | .ok hf2 => execHeapSeq hf2 rest

theorem leak_step {pid : Nat} {hf : HeapFile} {op : HeapOp} {hf2 : HeapFile}
    (hl : LeakState pid hf) (h : execHeap hf op = .ok hf2) : LeakState pid hf2 := by
  cases op with
  | ins data =>
    cases hi : insertTuple hf data with
    | panic =>
      simp only [execHeap, hi] at h
      exact absurd h (by simp)
    | ok r =>
      cases r with
      | mk o hfx =>
        simp only [execHeap, hi, RustResult.ok.injEq] at h
        obtain ⟨h1, h2⟩ := insertTuple_pres hl.1 hl.2 hi
        rw [← h]
        exact ⟨h1, h2⟩
  | rd tid =>
    cases hi : readTuple hf tid with
    | panic =>
      simp only [execHeap, hi] at h
      exact absurd h (by simp)
    | ok r =>
      cases r with
      | mk o hfx =>
        simp only [execHeap, hi, RustResult.ok.injEq] at h
        obtain ⟨h1, h2⟩ := readTuple_pres hl.1 hi
        rw [← h]
        exact ⟨h1, by rw [h2]; exact hl.2⟩

theorem leak_seq {pid : Nat} : ∀ {ops : List HeapOp} {hf hf2 : HeapFile},
    LeakState pid hf → execHeapSeq hf ops = .ok hf2 → LeakState pid hf2 := by
  intro ops
  induction ops with
  | nil =>
    intro hf hf2 hl h
    simp only [execHeapSeq, RustResult.ok.injEq] at h
    rw [← h]
    exact hl
  | cons op rest ih =>
    intro hf hf2 hl h
    cases he : execHeap hf op with
    | panic =>
      simp only [execHeapSeq, he] at h
      exact absurd h (by simp)
    | ok hfx =>
      simp only [execHeapSeq, he] at h
      exact ih (leak_step hl he) h

/-- C9: insert_tuple on a heap file with no pages yet, called with a
payload whose (u16-wrapped) length falls in the no-fit band of an empty
page, allocates a fresh page id, fetches it into a frame with pin count
1, then returns None: the inner sp.insert(data)? bails out, the frame
is never unpinned and the page id is never appended to the page list.
The page stays pinned with pin count 1, is never an eviction candidate,
and no later sequence of insert_tuple / read_tuple calls can release
it. -/
theorem C9_insert_tuple_pin_leak {pool : BPM} {data : List Nat} {fid : Nat}
    {pool3 : BPM} (hwf : WF pool)
    (hband1 : 4087 ≤ data.length % 65536) (hband2 : data.length % 65536 ≤ 65525)
    (hfetch : fetchPage { pool with disk := (allocatePage pool.disk).1 }
      (allocatePage pool.disk).2 = .ok (some fid, pool3)) :
    ∃ hf2 : HeapFile,
      insertTuple ⟨pool, []⟩ data = .ok (none, hf2) ∧
      hf2.pages = [] ∧
      (allocatePage pool.disk).2 = pool.disk.num_pages + 1 ∧
      LeakState (allocatePage pool.disk).2 hf2 ∧
      (∀ ops hf3, execHeapSeq hf2 ops = .ok hf3 →
        LeakState (allocatePage pool.disk).2 hf3) := by
  have hl : insertLoop data (⟨pool, []⟩ : HeapFile).pool (⟨pool, []⟩ : HeapFile).pages
      = .ok (.exhausted, pool) := rfl
  have hins := @spInsert_initPage_band (pool3.buffer_pool.getD fid defaultFrame).data
    data hband1 hband2
  have heq := insertTuple_eq_exh_leak hl hfetch hins
  obtain ⟨hwfA, hnumA, hidA, _⟩ := alloc_post hwf
  have hptnone : ({ pool with disk := (allocatePage pool.disk).1 } : BPM).page_table
      (allocatePage pool.disk).2 = none := by
    show pool.page_table (allocatePage pool.disk).2 = none
    cases hX : pool.page_table (allocatePage pool.disk).2 with
    | none => rfl
    | some f =>
      have h3 := (hwf.2.2.2.1 _ f hX).2.2
      rw [hidA] at h3
      omega
  obtain ⟨hwf3, hmono3, _, _, hmiss, hresq⟩ := fetchPage_post hwfA hfetch
  obtain ⟨hpt3, hfr3, hslot3⟩ := hmiss hptnone fid rfl
  have hfidlt : fid < pool3.buffer_pool.length :=
    (hwf3.2.2.2.1 _ fid (hresq fid rfl)).1
  have hpin3 : PinnedPool (allocatePage pool.disk).2 pool3 := by
    refine ⟨hwf3, ?_, fid, hpt3, ?_, hslot3⟩
    · rw [hidA]
      have he2 : ({ pool with disk := (allocatePage pool.disk).1 } : BPM).disk.num_pages
          = pool.disk.num_pages + 2 := by
        show (allocatePage pool.disk).1.num_pages = pool.disk.num_pages + 2
        exact hnumA
      omega
    · rw [hfr3]
  have hset := @setData_post pool3 fid { pool3.buffer_pool.getD fid defaultFrame with data := initPage (pool3.buffer_pool.getD fid defaultFrame).data } hwf3 hfidlt rfl rfl
  have hleak : LeakState (allocatePage pool.disk).2
      ⟨{ pool3 with buffer_pool := pool3.buffer_pool.set fid { pool3.buffer_pool.getD fid defaultFrame with data := initPage (pool3.buffer_pool.getD fid defaultFrame).data } }, (⟨pool, []⟩ : HeapFile).pages⟩ := by
    refine ⟨hset.2 _ hpin3, ?_⟩
    show (allocatePage pool.disk).2 ∉ ([] : List Nat)
    exact List.not_mem_nil _
  exact ⟨_, heq, rfl, rfl, hleak, fun ops hf3 hseq => leak_seq hleak hseq⟩

/-- Witness for C9: a pool of one frame over a fresh disk, inserting a
4087-byte payload, leaks page 1 pinned in frame 0 forever. -/
theorem C9_insert_tuple_pin_leak_witness :
    ∃ hf2 : HeapFile,
      insertTuple ⟨BPM.new 1 Disk.new, []⟩ (List.replicate 4087 0)
        = .ok (none, hf2) ∧
      hf2.pages = [] ∧
      LeakState (allocatePage (BPM.new 1 Disk.new).disk).2 hf2 := by
  have hband1 : 4087 ≤ (List.replicate 4087 (0 : Nat)).length % 65536 := by
    rw [List.length_replicate]
  have hband2 : (List.replicate 4087 (0 : Nat)).length % 65536 ≤ 65525 := by
    rw [List.length_replicate]
    omega
  obtain ⟨fid, pool3, hfetch⟩ : ∃ fid pool3,
      fetchPage { BPM.new 1 Disk.new with
        disk := (allocatePage (BPM.new 1 Disk.new).disk).1 }
        (allocatePage (BPM.new 1 Disk.new).disk).2 = .ok (some fid, pool3) :=
    ⟨0, _, rfl⟩
  obtain ⟨hf2, h1, h2, h3, h4, h5⟩ :=
    C9_insert_tuple_pin_leak (WF_new 1) hband1 hband2 hfetch
  exact ⟨hf2, h1, h2, h4⟩

/-! ### Claim C7: when insert_tuple returns None -/

/-- True when insert_tuple returned None (rather than Some or a panic). -/
def isInsNone : RustResult (Option TupleId × HeapFile) → Bool
  | .ok (none, _) => true
  | _ => false

/-- True when a slotted-page insert returned None (no space). -/
def isSpInsNone : RustResult (Page × Option Nat) → Bool
  | .ok (_, none) => true
  | _ => false

/-- C7 (amended): on a heap file with no pages, when the fetch of the
freshly allocated page succeeds, insert_tuple returns None exactly when
the slotted insert into the freshly initialized page returns None
(payload too large) - not only when the buffer pool has no frame. -/
theorem C7_insert_tuple_none_iff {pool : BPM} {data : List Nat} {fid : Nat}
    {pool3 : BPM}
    (hfetch : fetchPage { pool with disk := (allocatePage pool.disk).1 }
      (allocatePage pool.disk).2 = .ok (some fid, pool3)) :
    isInsNone (insertTuple ⟨pool, []⟩ data) = true ↔
    isSpInsNone (spInsert (initPage (pool3.buffer_pool.getD fid defaultFrame).data)
      data) = true := by
  have hl : insertLoop data (⟨pool, []⟩ : HeapFile).pool (⟨pool, []⟩ : HeapFile).pages
      = .ok (.exhausted, pool) := rfl
  cases hins : spInsert (initPage (pool3.buffer_pool.getD fid defaultFrame).data)
      data with
  | panic =>
    rw [insertTuple_eq_exh_ipanic hl hfetch hins]
    simp [isInsNone, isSpInsNone]
  | ok dr =>
    cases dr with
    | mk d1 sidOpt =>
      cases sidOpt with
      | none =>
        rw [insertTuple_eq_exh_leak hl hfetch hins]
        simp [isInsNone, isSpInsNone]
      | some sid =>
        rw [insertTuple_eq_exh_ok hl hfetch hins]
        simp [isInsNone, isSpInsNone]

theorem c7_general (t : List Nat) (ht : t.length = 4087) :
    ∃ hf2 p3,
      fetchPage { BPM.new 2 Disk.new with
        disk := (allocatePage (BPM.new 2 Disk.new).disk).1 }
        (allocatePage (BPM.new 2 Disk.new).disk).2 = .ok (some 1, p3) ∧
      insertTuple ⟨BPM.new 2 Disk.new, []⟩ t = .ok (none, hf2) ∧
      hf2.pool.free_list = [0] ∧ hf2.pages = [] := by
  have hband1 : 4087 ≤ t.length % 65536 := by
    rw [ht]
  have hband2 : t.length % 65536 ≤ 65525 := by
    rw [ht]
    omega
  obtain ⟨p3, hfetch, hfl⟩ : ∃ p3,
      fetchPage { BPM.new 2 Disk.new with
        disk := (allocatePage (BPM.new 2 Disk.new).disk).1 }
        (allocatePage (BPM.new 2 Disk.new).disk).2 = .ok (some 1, p3) ∧
      p3.free_list = [0] :=
    ⟨_, rfl, rfl⟩
  have hl : insertLoop t (⟨BPM.new 2 Disk.new, []⟩ : HeapFile).pool
      (⟨BPM.new 2 Disk.new, []⟩ : HeapFile).pages
      = .ok (.exhausted, BPM.new 2 Disk.new) := rfl
  have hins := @spInsert_initPage_band (p3.buffer_pool.getD 1 defaultFrame).data
    t hband1 hband2
  have heq := insertTuple_eq_exh_leak hl hfetch hins
  refine ⟨_, p3, hfetch, heq, ?_, rfl⟩
  show p3.free_list = [0]
  exact hfl

/-- Counterexample to C7 as stated: a two-frame pool with every fetch
succeeding (the fetch of the fresh page returns frame 1, and frame 0 is
still on the free list afterwards), yet insert_tuple of a 4087-byte
payload returns None. -/
theorem C7_counterexample :
    ∃ hf2 p3,
      fetchPage { BPM.new 2 Disk.new with
        disk := (allocatePage (BPM.new 2 Disk.new).disk).1 }
        (allocatePage (BPM.new 2 Disk.new).disk).2 = .ok (some 1, p3) ∧
      insertTuple ⟨BPM.new 2 Disk.new, []⟩ (List.replicate 4087 0)
        = .ok (none, hf2) ∧
      hf2.pool.free_list = [0] ∧ hf2.pages = [] :=
  c7_general (List.replicate 4087 0) (by rw [List.length_replicate])

/-- Witness for C7: on a one-frame pool with a small payload the fetch
succeeds and the equivalence evaluates (both sides false: the insert
returns Some). -/
theorem C7_insert_tuple_none_iff_witness :
    ∃ fid pool3,
      fetchPage { BPM.new 1 Disk.new with
        disk := (allocatePage (BPM.new 1 Disk.new).disk).1 }
        (allocatePage (BPM.new 1 Disk.new).disk).2 = .ok (some fid, pool3) ∧
      (isInsNone (insertTuple ⟨BPM.new 1 Disk.new, []⟩ [7]) = true ↔
       isSpInsNone (spInsert
         (initPage (pool3.buffer_pool.getD fid defaultFrame).data) [7]) = true) := by
  obtain ⟨fid, pool3, hfetch⟩ : ∃ fid pool3,
      fetchPage { BPM.new 1 Disk.new with
        disk := (allocatePage (BPM.new 1 Disk.new).disk).1 }
        (allocatePage (BPM.new 1 Disk.new).disk).2 = .ok (some fid, pool3) :=
    ⟨0, _, rfl⟩
  exact ⟨fid, pool3, hfetch, C7_insert_tuple_none_iff hfetch⟩
